import Mathlib

/-!
The paged row store of gosqlite, `p5/repl.go`.

A shallow embedding of the storage engine of the last stage of the repository
(`src/p5/repl.go`): the fixed-width row codec, the pager with its lazily loaded
page cache, the table addressing, insert/select and the flush on close.

Conventions of the embedding.

* A Go `byte` is a natural number; a `[]byte` or `[N]byte` is a `List Byte`.
* A Go `uint32` is a natural number; every `uint32` operation that can wrap is
  reduced with `u32`.
* The open file (`*os.File`) is represented by its content.  `Truncate`,
  `ReadAt` and `WriteAt` follow the documented behaviour of `os.File`; a read
  that returns fewer bytes than requested reports an error, as `ReadAt` does.
* `log.Fatalf` and runtime panics end the run: functions that can reach one
  return `Except Halt _`.
* A `[]byte` that aliases part of a page (the result of `row_slot`) is a `Slot`:
  the page number and the bounds of the window.  Writes through it update the
  page held by the pager.
* What `execute_select` prints is collected as a list of `Printed` records, the
  arguments of its `Printf`.
* A command line given to `prepare_statement` is a `List Byte`; `strings.SplitN`
  and `strconv.Atoi` follow their documented behaviour for a 64-bit `int`.
-/

namespace GoSqlite

/-! ## Machine integers and bytes -/

abbrev Byte := Nat

/-- Reduction of a natural number to the range of `uint32`. -/
def u32 (n : Nat) : Nat := n % 4294967296

/-! ## Constants (`const` block and `init`) -/

def COLUMN_USERNAME_SIZE : Nat := 32
def COLUMN_EMAIL_SIZE : Nat := 256
def PAGE_SIZE : Nat := 4096
def TABLE_MAX_PAGES : Nat := 100

/-- The value of `unsafe.Sizeof(Row{}.id)`: a `uint32` takes four bytes. -/
def ID_SIZE : Nat := 4
/-- The value of `unsafe.Sizeof(Row{}.username)`. -/
def USERNAME_SIZE : Nat := COLUMN_USERNAME_SIZE
/-- The value of `unsafe.Sizeof(Row{}.email)`. -/
def EMAIL_SIZE : Nat := COLUMN_EMAIL_SIZE
def ID_OFFSET : Nat := 0
/-- The value of `unsafe.Offsetof(Row{}.username)`: the field follows the four
bytes of `id`; byte arrays need no alignment padding. -/
def USERNAME_OFFSET : Nat := 4
/-- The value of `unsafe.Offsetof(Row{}.email)`. -/
def EMAIL_OFFSET : Nat := 36
def ROW_SIZE : Nat := u32 (u32 (ID_SIZE + USERNAME_SIZE) + EMAIL_SIZE)
def ROWS_PER_PAGE : Nat := PAGE_SIZE / ROW_SIZE
def TABLE_MAX_ROWS : Nat := u32 (TABLE_MAX_PAGES * ROWS_PER_PAGE)

/-! ## Data model -/

structure Row where
  id : Nat
  username : List Byte
  email : List Byte
deriving DecidableEq, Repr

/-- The zero value `Row{}`. -/
def Row.zero : Row :=
  { id := 0, username := List.replicate COLUMN_USERNAME_SIZE 0,
    email := List.replicate COLUMN_EMAIL_SIZE 0 }

/-- The constraints the Go type of `Row` puts on its fields. -/
def Row.WellTyped (r : Row) : Prop :=
  r.id < 4294967296 ∧ r.username.length = COLUMN_USERNAME_SIZE ∧
    r.email.length = COLUMN_EMAIL_SIZE

instance (r : Row) : Decidable r.WellTyped := by
  unfold Row.WellTyped; exact inferInstance

inductive StatementType where
  | STATEMENT_INSERT
  | STATEMENT_SELECT
deriving DecidableEq, Repr

inductive ExecuteResult where
  | EXECUTE_SUCCESS
  | EXECUTE_UNKNOWN
  | EXECUTE_TABLE_FULL
deriving DecidableEq, Repr

structure Statement where
  row_to_insert : Row
  st : StatementType
deriving DecidableEq, Repr

structure Page where
  data : List Byte
deriving DecidableEq, Repr

structure Pager where
  /-- Content of the open file. -/
  file_descriptor : List Byte
  file_length : Nat
  pages : List (Option Page)
deriving DecidableEq, Repr

structure Table where
  num_rows : Nat
  pager : Pager
deriving DecidableEq, Repr

/-- The ways a run ends early. -/
inductive Halt where
  /-- The `log.Fatalf` of `get_page` for a page number beyond `TABLE_MAX_PAGES`. -/
  | fatal_page_limit
  /-- The `log.Fatalf` of `get_page` after a failed `ReadAt`. -/
  | fatal_read
  /-- The `log.Fatalf` of `db_close` for a missing last page. -/
  | fatal_nil_page
  /-- A runtime panic: index or slice bounds out of range. -/
  | panic_bounds
deriving DecidableEq, Repr

/-- A `[]byte` aliasing `data[lo:hi]` of the page `pageNum` of the pager. -/
structure Slot where
  pageNum : Nat
  lo : Nat
  hi : Nat
deriving DecidableEq, Repr

/-- One line printed by `execute_select`: the arguments of its `Printf`. -/
structure Printed where
  id : Nat
  username : List Byte
  email : List Byte
deriving DecidableEq, Repr

/-! ## Slices, `copy` and `encoding/binary` -/

/-- The slice expression `b[lo:hi]`; out of range bounds panic.  A slice is
taken to have no spare capacity, so the bounds are checked against its length. -/
def slice (b : List Byte) (lo hi : Nat) : Option (List Byte) :=
  if lo ≤ hi ∧ hi ≤ b.length then some ((b.drop lo).take (hi - lo)) else none

/-- Write-through of a slice `b[lo:lo+len s]` whose new content is `s`. -/
def store (b : List Byte) (lo : Nat) (s : List Byte) : List Byte :=
  b.take lo ++ s ++ b.drop (lo + s.length)

/-- The builtin `copy(dst, src)`: the first `min (len dst) (len src)` bytes of
`dst` are replaced; the result is the new content of `dst`. -/
def copy (dst src : List Byte) : List Byte :=
  src.take dst.length ++ dst.drop src.length

/-- The function `binary.LittleEndian.PutUint32(b, v)`. -/
def PutUint32 (b : List Byte) (v : Nat) : Option (List Byte) :=
  if 4 ≤ b.length then
    some ([v % 256, (v >>> 8) % 256, (v >>> 16) % 256, (v >>> 24) % 256] ++ b.drop 4)
  else none

/-- The function `binary.LittleEndian.Uint32(b)`. -/
def Uint32 (b : List Byte) : Option Nat :=
  match b with
  | b0 :: b1 :: b2 :: b3 :: _ =>
    some (u32 (b0 ||| (b1 <<< 8) ||| (b2 <<< 16) ||| (b3 <<< 24)))
  | _ => none

/-- The call `strings.TrimRight(s, "\x00")`. -/
def TrimRight (s : List Byte) : List Byte :=
  s.rdropWhile (fun b => b == 0)

/-- The little-endian byte sequence of a 32-bit value: byte `k` is
`v / 256 ^ k % 256`. -/
def le32 (v : Nat) : List Byte :=
  [v % 256, v / 256 % 256, v / 65536 % 256, v / 16777216 % 256]

/-! ## Files -/

/-- The method `(*os.File).Truncate`: cut, or extend with zero bytes. -/
def Truncate (file : List Byte) (size : Nat) : List Byte :=
  file.take size ++ List.replicate (size - file.length) 0

/-- The method `(*os.File).ReadAt` for a buffer of `len` bytes: the bytes read,
or `none` for the error it returns when fewer than `len` bytes are there. -/
def ReadAt (file : List Byte) (len off : Nat) : Option (List Byte) :=
  if off + len ≤ file.length then some ((file.drop off).take len) else none

/-- The method `(*os.File).WriteAt`: the content after writing `b` at `off`. -/
def WriteAt (file : List Byte) (b : List Byte) (off : Nat) : List Byte :=
  (file.take off ++ List.replicate (off - file.length) 0) ++ b ++
    file.drop (off + b.length)

/-! ## Row codec -/

def serialize_row (row : Row) (destination : List Byte) : Option (List Byte) :=
  match slice destination ID_OFFSET (ID_OFFSET + ID_SIZE) with
  | none => none
  | some s0 =>
    match PutUint32 s0 row.id with
    | none => none
    | some s0 =>
      let destination := store destination ID_OFFSET s0
      match slice destination USERNAME_OFFSET (USERNAME_OFFSET + USERNAME_SIZE) with
      | none => none
      | some s1 =>
        let destination := store destination USERNAME_OFFSET (copy s1 row.username)
        match slice destination EMAIL_OFFSET (EMAIL_OFFSET + EMAIL_SIZE) with
        | none => none
        | some s2 => some (store destination EMAIL_OFFSET (copy s2 row.email))

def deserialize_row (source : List Byte) (row : Row) : Option Row :=
  match slice source ID_OFFSET (ID_OFFSET + ID_SIZE) with
  | none => none
  | some s0 =>
    match Uint32 s0 with
    | none => none
    | some id =>
      match slice source USERNAME_OFFSET (USERNAME_OFFSET + USERNAME_SIZE) with
      | none => none
      | some s1 =>
        match slice source EMAIL_OFFSET (EMAIL_OFFSET + EMAIL_SIZE) with
        | none => none
        | some s2 =>
          some { id := id, username := copy row.username s1, email := copy row.email s2 }

/-! ## Pager -/

/-- The function `pager_open`; `disk` is the content of the named file, `none`
when it does not exist yet (`O_CREATE` then makes an empty one). -/
def pager_open (disk : Option (List Byte)) : Pager :=
  let f := disk.getD []
  let size := f.length
  let f := Truncate f (PAGE_SIZE * TABLE_MAX_PAGES)
  { file_descriptor := f, file_length := u32 size,
    pages := List.replicate TABLE_MAX_PAGES none }

def get_page (pager : Pager) (pageNum : Nat) : Except Halt (Page × Pager) :=
  if pageNum ≥ TABLE_MAX_PAGES then .error .fatal_page_limit
  else
    match pager.pages[pageNum]? with
    | none => .error .panic_bounds
    | some (some page) => .ok (page, pager)
    | some none =>
      let page : Page := { data := List.replicate PAGE_SIZE 0 }
      let numPages := pager.file_length / PAGE_SIZE
      let numPages :=
        if pager.file_length % PAGE_SIZE ≠ 0 then u32 (numPages + 1) else numPages
      if pageNum ≤ numPages then
        match ReadAt pager.file_descriptor PAGE_SIZE (u32 (pageNum * PAGE_SIZE)) with
        | none => .error .fatal_read
        | some data =>
          let page : Page := { data := data }
          .ok (page, { pager with pages := pager.pages.set pageNum (some page) })
      else
        .ok (page, { pager with pages := pager.pages.set pageNum (some page) })

/-! ## Table -/

/-- The bytes seen through a slot. -/
def Slot.load (s : Slot) (pager : Pager) : List Byte :=
  match pager.pages[s.pageNum]? with
  | some (some page) => (page.data.drop s.lo).take (s.hi - s.lo)
  | _ => []

/-- The pager after the bytes seen through a slot were replaced by `b`. -/
def Slot.write (s : Slot) (pager : Pager) (b : List Byte) : Pager :=
  match pager.pages[s.pageNum]? with
  | some (some page) =>
    { pager with pages := pager.pages.set s.pageNum (some { data := store page.data s.lo b }) }
  | _ => pager

def row_slot (table : Table) (rowNum : Nat) : Except Halt (Slot × Table) :=
  let pageNum := rowNum / ROWS_PER_PAGE
  let rowOffset := rowNum % ROWS_PER_PAGE
  let byteOffset := u32 (rowOffset * ROW_SIZE)
  match get_page table.pager pageNum with
  | .error e => .error e
  | .ok (page, pager) =>
    if byteOffset ≤ u32 (byteOffset + ROW_SIZE) ∧
        u32 (byteOffset + ROW_SIZE) ≤ page.data.length then
      .ok ({ pageNum := pageNum, lo := byteOffset, hi := u32 (byteOffset + ROW_SIZE) },
        { table with pager := pager })
    else .error .panic_bounds

def db_open (disk : Option (List Byte)) : Table :=
  let pager := pager_open disk
  let numRows := pager.file_length / ROW_SIZE
  { num_rows := numRows, pager := pager }

/-- The first loop of `db_close`: `k` iterations are left, the next index is `i`. -/
def db_close_loop (pages : List (Option Page)) :
    Nat → Nat → List Byte → Except Halt (List Byte)
  | 0, _, f => .ok f
  | k + 1, i, f =>
    match pages[i]? with
    | none => .error .panic_bounds
    | some none => db_close_loop pages k (i + 1) f
    | some (some page) => db_close_loop pages k (i + 1) (WriteAt f page.data (i * PAGE_SIZE))

/-- The function `db_close`; the file of the resulting table is what is on disk. -/
def db_close (table : Table) : Except Halt Table :=
  let numFullPages := table.num_rows / ROWS_PER_PAGE
  let numAdditionalRows := table.num_rows % ROWS_PER_PAGE
  match db_close_loop table.pager.pages numFullPages 0 table.pager.file_descriptor with
  | .error e => .error e
  | .ok f =>
    if numAdditionalRows > 0 then
      match table.pager.pages[numFullPages]? with
      | none => .error .panic_bounds
      | some none => .error .fatal_nil_page
      | some (some page) =>
        match slice page.data 0 (u32 (numAdditionalRows * ROW_SIZE)) with
        | none => .error .panic_bounds
        | some b =>
          .ok { table with pager :=
            { table.pager with
              file_descriptor := WriteAt f b (u32 (numFullPages * PAGE_SIZE)) } }
    else .ok { table with pager := { table.pager with file_descriptor := f } }

/-- The constraints the Go types put on a pager (`pages` is an array of
`TABLE_MAX_PAGES` pointers, `data` an array of `PAGE_SIZE` bytes) together with
the file size that `pager_open` sets with `Truncate`. -/
def Pager.WellFormed (p : Pager) : Prop :=
  p.pages.length = TABLE_MAX_PAGES ∧
    (∀ (q : Nat) (page : Page), p.pages[q]? = some (some page) → page.data.length = PAGE_SIZE) ∧
    p.file_descriptor.length = PAGE_SIZE * TABLE_MAX_PAGES

/-! ## Execution -/

def execute_insert (statement : Statement) (table : Table) :
    Except Halt (ExecuteResult × Table) :=
  if table.num_rows ≥ TABLE_MAX_ROWS then .ok (.EXECUTE_TABLE_FULL, table)
  else
    match row_slot table table.num_rows with
    | .error e => .error e
    | .ok (slot, table) =>
      match serialize_row statement.row_to_insert (slot.load table.pager) with
      | none => .error .panic_bounds
      | some b =>
        .ok (.EXECUTE_SUCCESS,
          { num_rows := u32 (table.num_rows + 1), pager := slot.write table.pager b })

/-- The loop of `execute_select`: `k` iterations are left, the next index is `i`,
`row` is the value of the reused `*Row`, `out` what was printed so far. -/
def execute_select_loop :
    Nat → Nat → Row → Table → List Printed → Except Halt (List Printed × Table)
  | 0, _, _, table, out => .ok (out, table)
  | k + 1, i, row, table, out =>
    match row_slot table (u32 i) with
    | .error e => .error e
    | .ok (slot, table) =>
      match deserialize_row (slot.load table.pager) row with
      | none => .error .panic_bounds
      | some row =>
        execute_select_loop k (i + 1) row table
          (out ++ [{ id := row.id, username := TrimRight row.username,
                     email := TrimRight row.email }])

def execute_select (_st : Statement) (table : Table) :
    Except Halt (ExecuteResult × List Printed × Table) :=
  if table.num_rows = 0 then .ok (.EXECUTE_SUCCESS, [], table)
  else
    match execute_select_loop table.num_rows 0 Row.zero table [] with
    | .error e => .error e
    | .ok (out, table) => .ok (.EXECUTE_SUCCESS, out, table)

def execute_statement (statement : Statement) (table : Table) :
    Except Halt (ExecuteResult × List Printed × Table) :=
  match statement.st with
  | .STATEMENT_INSERT =>
    match execute_insert statement table with
    | .error e => .error e
    | .ok (r, table) => .ok (r, [], table)
  | .STATEMENT_SELECT => execute_select statement table

/-! ## Preparing statements -/

inductive PrepareCommandState where
  | PREPARE_COMMAND_SUCCESS
  | PREPARE_STRING_TOO_LONG
  | PREPARE_NEGATIVE_ID
  | PREPARE_SYNTAX_ERROR
  | PREPARE_UNRECOGNIZED_STATEMENT
deriving DecidableEq, Repr

/-- The zero value `Statement{}` that `main` passes to `prepare_statement`. -/
def Statement.zero : Statement := { row_to_insert := Row.zero, st := .STATEMENT_INSERT }

/-- The conversion `uint32(id)` of an `int`. -/
def u32i (i : Int) : Nat := (i % 4294967296).toNat

/-- The call `strings.Index(s, " ")`, `none` when there is no space. -/
def indexSpace : List Byte → Option Nat
  | [] => none
  | b :: rest => if b = 32 then some 0 else (indexSpace rest).map (fun m => m + 1)

/-- The call `strings.SplitN(s, " ", n)`: at most `n` parts, cut at the first
spaces, the last part being the remainder. -/
def SplitN (s : List Byte) : Nat → List (List Byte)
  | 0 => []
  | 1 => [s]
  | n + 2 =>
    match indexSpace s with
    | none => [s]
    | some m => s.take m :: SplitN (s.drop (m + 1)) (n + 1)

/-- The value of a string of decimal digits, `none` when a byte is not a digit. -/
def parseDigits : List Byte → Nat → Option Nat
  | [], acc => some acc
  | ch :: rest, acc =>
    if 48 ≤ ch ∧ ch ≤ 57 then parseDigits rest (acc * 10 + (ch - 48)) else none

/-- The function `strconv.Atoi` on a 64-bit platform: an optional sign and at
least one decimal digit, the value within the range of `int`; `none` stands for
its error. -/
def Atoi (s : List Byte) : Option Int :=
  match s with
  | [] => none
  | s0 :: rest =>
    let digits := if s0 = 45 ∨ s0 = 43 then rest else s
    if digits = [] then none
    else
      match parseDigits digits 0 with
      | none => none
      | some v =>
        if s0 = 45 then (if v ≤ 9223372036854775808 then some (-(v : Int)) else none)
        else (if v < 9223372036854775808 then some (v : Int) else none)

/-- The bytes of `insert`. -/
def insertWord : List Byte := [105, 110, 115, 101, 114, 116]
/-- The bytes of `select`. -/
def selectWord : List Byte := [115, 101, 108, 101, 99, 116]

/-- The function `prepare_statement`; the result is the state it returns and the
statement it leaves.  The slices `username[:COLUMN_USERNAME_SIZE]` and
`email[:COLUMN_EMAIL_SIZE]` are the whole arrays. -/
def prepare_statement (input : List Byte) (statement : Statement) :
    PrepareCommandState × Statement :=
  if input.length ≥ 6 ∧ input.take 6 = insertWord then
    let statement : Statement := { statement with st := .STATEMENT_INSERT }
    let splits := SplitN input 4
    if splits.length ≠ 4 then (.PREPARE_SYNTAX_ERROR, statement)
    else
      match Atoi (splits.getD 1 []) with
      | none => (.PREPARE_SYNTAX_ERROR, statement)
      | some id =>
        if id < 0 then (.PREPARE_NEGATIVE_ID, statement)
        else if (splits.getD 2 []).length > COLUMN_USERNAME_SIZE then
          (.PREPARE_STRING_TOO_LONG, statement)
        else if (splits.getD 3 []).length > COLUMN_EMAIL_SIZE then
          (.PREPARE_STRING_TOO_LONG, statement)
        else
          (.PREPARE_COMMAND_SUCCESS,
            { statement with
              row_to_insert :=
                { id := u32i id,
                  username := copy statement.row_to_insert.username (splits.getD 2 []),
                  email := copy statement.row_to_insert.email (splits.getD 3 []) } })
  else if input.length ≥ 6 ∧ input = selectWord then
    (.PREPARE_COMMAND_SUCCESS, { statement with st := .STATEMENT_SELECT })
  else (.PREPARE_UNRECOGNIZED_STATEMENT, statement)

/-- One `execute_insert` per row, in order; the results are collected. -/
def insert_rows : List Row → Table → Except Halt (List ExecuteResult × Table)
  | [], table => .ok ([], table)
  | r :: rs, table =>
    match execute_insert { row_to_insert := r, st := .STATEMENT_INSERT } table with
    | .error e => .error e
    | .ok (res, table) =>
      match insert_rows rs table with
      | .error e => .error e
      | .ok (ress, table) => .ok (res :: ress, table)

/-- The line `execute_select` prints for a row: the id and the two texts without
their trailing zero bytes. -/
def Row.printed (r : Row) : Printed :=
  { id := r.id, username := TrimRight r.username, email := TrimRight r.email }

/-- The table states that can be reached from `db_open` on the file content
`disk` by calls of `execute_insert` and `execute_select` that return. -/
inductive Reachable (disk : Option (List Byte)) : Table → Prop
  | opened : Reachable disk (db_open disk)
  | insert {statement : Statement} {table table1 : Table} {res : ExecuteResult} :
      Reachable disk table → execute_insert statement table = .ok (res, table1) →
      Reachable disk table1
  | select {statement : Statement} {table table1 : Table} {res : ExecuteResult}
      {out : List Printed} :
      Reachable disk table → execute_select statement table = .ok (res, out, table1) →
      Reachable disk table1

/-- Row `i` of the pager is resident and its window holds the encoding of `r`. -/
def Holds (p : Pager) (i : Nat) (r : Row) : Prop :=
  ∃ page w, p.pages[i / ROWS_PER_PAGE]? = some (some page) ∧
    slice page.data (i % ROWS_PER_PAGE * ROW_SIZE) (i % ROWS_PER_PAGE * ROW_SIZE + ROW_SIZE)
      = some w ∧
    slice w 0 4 = some (le32 r.id) ∧ slice w 4 36 = some r.username ∧
    slice w 36 292 = some r.email

/-- The value `numPages` that `get_page` computes from the recorded file length:
the number of pages the file had at open, a started page counted as one. -/
def numPages (pager : Pager) : Nat :=
  let numPages := pager.file_length / PAGE_SIZE
  if pager.file_length % PAGE_SIZE ≠ 0 then u32 (numPages + 1) else numPages

/-- The page `get_page` hands out for page number `n`: the resident page, or
else the page it loads (read from the file up to `numPages`, zero beyond). -/
def pageView (pager : Pager) (n : Nat) : Page :=
  match pager.pages[n]? with
  | some (some page) => page
  | _ =>
    if n ≤ numPages pager then
      { data := (pager.file_descriptor.drop (u32 (n * PAGE_SIZE))).take PAGE_SIZE }
    else { data := List.replicate PAGE_SIZE 0 }

/-- The window of row `k` in the page `get_page` hands out for it. -/
def rowView (pager : Pager) (k : Nat) : List Byte :=
  ((pageView pager (k / ROWS_PER_PAGE)).data.drop (k % ROWS_PER_PAGE * ROW_SIZE)).take ROW_SIZE

/-! ## Sample data -/

/-- The bytes of `user1`. -/
def user1 : List Byte := [117, 115, 101, 114, 49]
/-- The bytes of `user2`. -/
def user2 : List Byte := [117, 115, 101, 114, 50]
/-- The bytes of `person1@example.com`. -/
def person1 : List Byte :=
  [112, 101, 114, 115, 111, 110, 49, 64, 101, 120, 97, 109, 112, 108, 101, 46, 99, 111, 109]
/-- The bytes of `person2@example.com`. -/
def person2 : List Byte :=
  [112, 101, 114, 115, 111, 110, 50, 64, 101, 120, 97, 109, 112, 108, 101, 46, 99, 111, 109]

/-- The row built for `insert <id> <username> <email>`: the two texts are copied
into the zeroed arrays of a fresh `Statement`. -/
def mkRow (id : Nat) (username email : List Byte) : Row :=
  { id := id, username := copy (List.replicate COLUMN_USERNAME_SIZE 0) username,
    email := copy (List.replicate COLUMN_EMAIL_SIZE 0) email }

def sampleRow1 : Row := mkRow 1 user1 person1
def sampleRow2 : Row := mkRow 2 user2 person2

/-- A table of 15 rows on a file of 409600 zero bytes with pages 0 and 1 resident. -/
def sampleTable : Table :=
  { num_rows := 15,
    pager :=
      { file_descriptor := List.replicate 409600 0, file_length := 0,
        pages := some { data := List.replicate 4096 7 } ::
          some { data := List.replicate 4096 9 } :: List.replicate 98 none } }

/-- A pager on a file of 100 bytes that was not extended, no page resident. -/
def shortPager : Pager :=
  { file_descriptor := List.replicate 100 7, file_length := 100,
    pages := List.replicate 100 none }

/-- The bytes of the command `insert 4294967297 user1 person1@example.com`. -/
def insertBigId : List Byte :=
  insertWord ++ [32] ++ [52, 50, 57, 52, 57, 54, 55, 50, 57, 55] ++ [32] ++ user1 ++ [32]
    ++ person1

/-- The bytes of the command `insert 1 user1 person1@example.com`. -/
def insertOne : List Byte :=
  insertWord ++ [32] ++ [49] ++ [32] ++ user1 ++ [32] ++ person1

/-- A username of exactly 32 bytes, all the letter `a`. -/
def user32 : List Byte := List.replicate 32 97

/-- A file of 600 bytes, all 7. -/
def sampleFile : List Byte := List.replicate 600 7

/-- A file one byte longer than `PAGE_SIZE * TABLE_MAX_PAGES`. -/
def longFile : List Byte := List.replicate 409600 0 ++ [7]

/-- The table `sampleTable` without its page 0, which is then not resident. -/
def sampleTableSkip : Table :=
  { num_rows := 15,
    pager :=
      { file_descriptor := List.replicate 409600 0, file_length := 0,
        pages := none :: some { data := List.replicate 4096 9 } :: List.replicate 98 none } }

/-! ## Lemmas: constants and byte order -/

theorem ROW_SIZE_eq : ROW_SIZE = 292 := by decide
theorem ROWS_PER_PAGE_eq : ROWS_PER_PAGE = 14 := by decide
theorem TABLE_MAX_ROWS_eq : TABLE_MAX_ROWS = 1400 := by decide

theorem or_shift_eq (a b : Nat) (i : Nat) (h : a < 2 ^ i) : a ||| (b <<< i) = 2 ^ i * b + a := by
  rw [Nat.mul_add_lt_is_or h, Nat.or_comm, Nat.shiftLeft_eq, Nat.mul_comm]

theorem Uint32_le32 (v : Nat) (h : v < 4294967296) (rest : List Byte) :
    Uint32 (le32 v ++ rest) = some v := by
  simp only [le32, Uint32, List.cons_append, List.nil_append]
  have h0 : v % 256 < 2 ^ 8 := by omega
  have h1 : v % 256 ||| (v / 256 % 256) <<< 8 = 2 ^ 8 * (v / 256 % 256) + v % 256 :=
    or_shift_eq _ _ 8 h0
  have h2 : (2 ^ 8 * (v / 256 % 256) + v % 256) ||| (v / 65536 % 256) <<< 16
      = 2 ^ 16 * (v / 65536 % 256) + (2 ^ 8 * (v / 256 % 256) + v % 256) :=
    or_shift_eq _ _ 16 (by omega)
  have h3 : (2 ^ 16 * (v / 65536 % 256) + (2 ^ 8 * (v / 256 % 256) + v % 256))
      ||| (v / 16777216 % 256) <<< 24
      = 2 ^ 24 * (v / 16777216 % 256) + (2 ^ 16 * (v / 65536 % 256) + (2 ^ 8 * (v / 256 % 256) + v % 256)) :=
    or_shift_eq _ _ 24 (by omega)
  rw [h1, h2, h3]
  simp only [u32]
  congr 1
  omega

theorem PutUint32_eq (b : List Byte) (v : Nat) (h : 4 ≤ b.length) :
    PutUint32 b v = some (le32 v ++ b.drop 4) := by
  simp only [PutUint32, h, if_true, le32, Nat.shiftRight_eq_div_pow]

/-! ## Lemmas: slices and copy -/

theorem slice_eq_some {b : List Byte} {lo hi : Nat} (h1 : lo ≤ hi) (h2 : hi ≤ b.length) :
    slice b lo hi = some ((b.drop lo).take (hi - lo)) := by
  simp [slice, h1, h2]

theorem slice_length {b s : List Byte} {lo hi : Nat} (h : slice b lo hi = some s) :
    s.length = hi - lo := by
  unfold slice at h
  split at h
  · cases h
    simp only [List.length_take, List.length_drop]
    omega
  · cases h

theorem store_length (b s : List Byte) (lo : Nat) (h : lo + s.length ≤ b.length) :
    (store b lo s).length = b.length := by
  simp only [store, List.length_append, List.length_take, List.length_drop]
  omega

theorem slice_store_same (b s : List Byte) (lo : Nat) (h : lo + s.length ≤ b.length) :
    slice (store b lo s) lo (lo + s.length) = some s := by
  rw [slice_eq_some (by omega) (by rw [store_length b s lo h]; exact h)]
  have hl : (b.take lo).length = lo := by simp; omega
  simp only [store, List.append_assoc]
  rw [List.drop_append_eq_append_drop, hl]
  simp [List.drop_eq_nil_of_le, hl.le]

theorem slice_store_before (b s : List Byte) (lo lo1 hi1 : Nat) (h : lo + s.length ≤ b.length)
    (hd : hi1 ≤ lo) : slice (store b lo s) lo1 hi1 = slice b lo1 hi1 := by
  by_cases h1 : lo1 ≤ hi1
  · rw [slice_eq_some h1 (by rw [store_length b s lo h]; omega), slice_eq_some h1 (by omega)]
    congr 1
    apply List.ext_getElem?
    intro i
    simp only [store, List.getElem?_take, List.getElem?_drop, List.append_assoc]
    split
    · rw [List.getElem?_append_left (by simp; omega), List.getElem?_take]
      simp; omega
    · rfl
  · simp [slice, h1]

theorem slice_store_after (b s : List Byte) (lo lo1 hi1 : Nat) (h : lo + s.length ≤ b.length)
    (hd : lo + s.length ≤ lo1) : slice (store b lo s) lo1 hi1 = slice b lo1 hi1 := by
  by_cases h1 : lo1 ≤ hi1 ∧ hi1 ≤ b.length
  · rw [slice_eq_some h1.1 (by rw [store_length b s lo h]; omega), slice_eq_some h1.1 h1.2]
    congr 1
    apply List.ext_getElem?
    intro i
    simp only [store, List.getElem?_take, List.getElem?_drop]
    split
    · have hl : (b.take lo ++ s).length = lo + s.length := by simp; omega
      rw [List.getElem?_append_right (by omega), hl, List.getElem?_drop]
      congr 1; omega
    · rfl
  · simp only [slice, store_length b s lo h, h1, if_false]

theorem copy_length (dst src : List Byte) : (copy dst src).length = dst.length := by
  simp only [copy, List.length_append, List.length_take, List.length_drop]
  omega

theorem copy_eq_src (dst src : List Byte) (h : src.length = dst.length) : copy dst src = src := by
  simp [copy, ← h]

/-! ## Lemmas: the row codec -/

theorem le32_length (v : Nat) : (le32 v).length = 4 := rfl

theorem serialize_row_spec (r : Row) (buf : List Byte) (h : 292 ≤ buf.length) :
    ∃ out s1 s2, serialize_row r buf = some out ∧ out.length = buf.length ∧
      slice buf 4 36 = some s1 ∧ slice buf 36 292 = some s2 ∧
      slice out 0 4 = some (le32 r.id) ∧
      slice out 4 36 = some (copy s1 r.username) ∧
      slice out 36 292 = some (copy s2 r.email) := by
  -- the id
  have e0 : slice buf 0 4 = some ((buf.drop 0).take (4 - 0)) := slice_eq_some (by omega) (by omega)
  have l0 := slice_length e0
  generalize (buf.drop 0).take (4 - 0) = s0 at e0 l0
  have p0 := PutUint32_eq s0 r.id (by omega)
  rw [List.drop_eq_nil_of_le (by omega), List.append_nil] at p0
  have hd1 : (store buf 0 (le32 r.id)).length = buf.length :=
    store_length buf _ 0 (by rw [le32_length]; omega)
  have i1 : slice (store buf 0 (le32 r.id)) 0 4 = some (le32 r.id) :=
    slice_store_same buf (le32 r.id) 0 (by rw [le32_length]; omega)
  -- the username
  have e1 : slice buf 4 36 = some ((buf.drop 4).take (36 - 4)) := slice_eq_some (by omega) (by omega)
  have l1 := slice_length e1
  have e1d : slice (store buf 0 (le32 r.id)) 4 36 = slice buf 4 36 :=
    slice_store_after buf _ 0 4 36 (by rw [le32_length]; omega) (by rw [le32_length])
  generalize (buf.drop 4).take (36 - 4) = s1 at e1 l1
  have c1 : (copy s1 r.username).length = 32 := by rw [copy_length, l1]
  generalize hb1 : store buf 0 (le32 r.id) = d1 at hd1 i1 e1d
  have hd2 : (store d1 4 (copy s1 r.username)).length = d1.length :=
    store_length d1 _ 4 (by omega)
  have u2 : slice (store d1 4 (copy s1 r.username)) 4 36 = some (copy s1 r.username) := by
    have := slice_store_same d1 (copy s1 r.username) 4 (by omega)
    rwa [c1] at this
  have i2 : slice (store d1 4 (copy s1 r.username)) 0 4 = some (le32 r.id) := by
    rw [slice_store_before d1 _ 4 0 4 (by omega) (by omega), i1]
  -- the email
  have e2 : slice buf 36 292 = some ((buf.drop 36).take (292 - 36)) :=
    slice_eq_some (by omega) (by omega)
  have l2 := slice_length e2
  have e2d : slice (store d1 4 (copy s1 r.username)) 36 292 = slice buf 36 292 := by
    rw [slice_store_after d1 _ 4 36 292 (by omega) (by omega), ← hb1,
      slice_store_after buf _ 0 36 292 (by rw [le32_length]; omega) (by rw [le32_length]; omega)]
  generalize (buf.drop 36).take (292 - 36) = s2 at e2 l2
  have c2 : (copy s2 r.email).length = 256 := by rw [copy_length, l2]
  generalize hb2 : store d1 4 (copy s1 r.username) = d2 at hd2 u2 i2 e2d
  refine ⟨store d2 36 (copy s2 r.email), s1, s2, ?_, ?_, e1, e2, ?_, ?_, ?_⟩
  · simp only [serialize_row, ID_OFFSET, ID_SIZE, USERNAME_OFFSET, USERNAME_SIZE, EMAIL_OFFSET,
      EMAIL_SIZE, COLUMN_USERNAME_SIZE, COLUMN_EMAIL_SIZE, Nat.zero_add, Nat.reduceAdd]
    rw [e0]
    simp only [p0, hb1, e1d, e1, hb2, e2d, e2]
  · rw [store_length d2 _ 36 (by omega)]; omega
  · rw [slice_store_before d2 _ 36 0 4 (by omega) (by omega), i2]
  · rw [slice_store_before d2 _ 36 4 36 (by omega) (by omega), u2]
  · have := slice_store_same d2 (copy s2 r.email) 36 (by omega)
    rwa [c2] at this

theorem slice_prefix_eq {b s : List Byte} {n : Nat} (h : slice b 0 n = some s) :
    ∃ rest, b = s ++ rest := by
  unfold slice at h
  split at h
  · cases h
    exact ⟨b.drop n, by simp⟩
  · cases h

theorem deserialize_row_spec (src : List Byte) (row : Row) (v : Nat) (s1 s2 : List Byte)
    (hv : v < 4294967296)
    (h0 : slice src 0 4 = some (le32 v)) (h1 : slice src 4 36 = some s1)
    (h2 : slice src 36 292 = some s2) :
    deserialize_row src row = some ⟨v, copy row.username s1, copy row.email s2⟩ := by
  simp only [deserialize_row, ID_OFFSET, ID_SIZE, USERNAME_OFFSET, USERNAME_SIZE, EMAIL_OFFSET,
    EMAIL_SIZE, COLUMN_USERNAME_SIZE, COLUMN_EMAIL_SIZE, Nat.zero_add, Nat.reduceAdd, h0, h1, h2]
  have := Uint32_le32 v hv []
  rw [List.append_nil] at this
  rw [this]

theorem mkRow_wellTyped (id : Nat) (username email : List Byte) (h : id < 4294967296) :
    (mkRow id username email).WellTyped := by
  refine ⟨h, ?_, ?_⟩
  · simp only [mkRow, copy_length, List.length_replicate]
  · simp only [mkRow, copy_length, List.length_replicate]

theorem zero_wellTyped : Row.zero.WellTyped := by
  refine ⟨by decide, ?_, ?_⟩
  · simp only [Row.zero, List.length_replicate]
  · simp only [Row.zero, List.length_replicate]

theorem sampleRow1_wellTyped : sampleRow1.WellTyped := mkRow_wellTyped 1 _ _ (by decide)

theorem sampleRow2_wellTyped : sampleRow2.WellTyped := mkRow_wellTyped 2 _ _ (by decide)

/-! ## The row codec: round trip and layout -/

/-- C1: for every row `r` (a 32-bit id, a 32-byte username, a 256-byte email) and
every destination buffer of at least `ROW_SIZE` bytes, `serialize_row` succeeds
and `deserialize_row` applied to the buffer it produced gives back a row equal to
`r` in all three fields. -/
theorem serialize_deserialize_round_trip (r row : Row) (buffer : List Byte)
    (hr : r.WellTyped) (hrow : row.WellTyped) (hb : ROW_SIZE ≤ buffer.length) :
    ∃ out, serialize_row r buffer = some out ∧ deserialize_row out row = some r := by
  rw [ROW_SIZE_eq] at hb
  obtain ⟨hid, hu, he⟩ := hr
  obtain ⟨_, hu0, he0⟩ := hrow
  simp only [COLUMN_USERNAME_SIZE, COLUMN_EMAIL_SIZE] at hu he hu0 he0
  obtain ⟨out, s1, s2, hs, _, e1, e2, o0, o1, o2⟩ := serialize_row_spec r buffer hb
  refine ⟨out, hs, ?_⟩
  rw [deserialize_row_spec out row r.id _ _ hid o0 o1 o2]
  have l1 := slice_length e1
  have l2 := slice_length e2
  rw [copy_eq_src s1 r.username (by omega), copy_eq_src s2 r.email (by omega),
    copy_eq_src row.username r.username (by omega), copy_eq_src row.email r.email (by omega)]

/-- Witness of C1: the row of `insert 1 user1 person1@example.com` written into a
buffer of 292 bytes. -/
theorem serialize_deserialize_round_trip_witness :
    sampleRow1.WellTyped ∧ Row.zero.WellTyped ∧ ROW_SIZE ≤ (List.replicate 292 7).length ∧
      ∃ out, serialize_row sampleRow1 (List.replicate 292 7) = some out ∧
        deserialize_row out Row.zero = some sampleRow1 :=
  ⟨sampleRow1_wellTyped, zero_wellTyped, by rw [ROW_SIZE_eq, List.length_replicate],
    serialize_deserialize_round_trip sampleRow1 Row.zero (List.replicate 292 7)
      sampleRow1_wellTyped zero_wellTyped (by rw [ROW_SIZE_eq, List.length_replicate])⟩

/-- C8: after `serialize_row` into a buffer of at least 292 bytes, byte `k` of the
buffer for `k < 4` is `(id / 256 ^ k) mod 256` (the little-endian encoding of the
id), bytes `[4, 36)` are the username and bytes `[36, 292)` are the email. -/
theorem serialize_row_layout (r : Row) (buffer : List Byte)
    (hr : r.WellTyped) (hb : ROW_SIZE ≤ buffer.length) :
    ∃ out, serialize_row r buffer = some out ∧
      (∀ k, k < 4 → out[k]? = some (r.id / 256 ^ k % 256)) ∧
      slice out 4 36 = some r.username ∧ slice out 36 292 = some r.email := by
  rw [ROW_SIZE_eq] at hb
  obtain ⟨_, hu, he⟩ := hr
  simp only [COLUMN_USERNAME_SIZE, COLUMN_EMAIL_SIZE] at hu he
  obtain ⟨out, s1, s2, hs, _, e1, e2, o0, o1, o2⟩ := serialize_row_spec r buffer hb
  have l1 := slice_length e1
  have l2 := slice_length e2
  rw [copy_eq_src s1 r.username (by omega)] at o1
  rw [copy_eq_src s2 r.email (by omega)] at o2
  refine ⟨out, hs, ?_, o1, o2⟩
  obtain ⟨rest, hrest⟩ := slice_prefix_eq o0
  intro k hk
  subst hrest
  have h4 : k = 0 ∨ k = 1 ∨ k = 2 ∨ k = 3 := by omega
  rcases h4 with h | h | h | h <;> subst h <;> simp [le32]

/-- Witness of C8: the layout of the row of `insert 1 user1 person1@example.com`. -/
theorem serialize_row_layout_witness :
    sampleRow1.WellTyped ∧ ROW_SIZE ≤ (List.replicate 292 7).length ∧
      ∃ out, serialize_row sampleRow1 (List.replicate 292 7) = some out ∧
        (∀ k, k < 4 → out[k]? = some (sampleRow1.id / 256 ^ k % 256)) ∧
        slice out 4 36 = some sampleRow1.username ∧
        slice out 36 292 = some sampleRow1.email :=
  ⟨sampleRow1_wellTyped, by rw [ROW_SIZE_eq, List.length_replicate],
    serialize_row_layout sampleRow1 (List.replicate 292 7) sampleRow1_wellTyped
      (by rw [ROW_SIZE_eq, List.length_replicate])⟩

/-! ## Lemmas: the pager -/

theorem PAGE_SIZE_eq : PAGE_SIZE = 4096 := rfl
theorem TABLE_MAX_PAGES_eq : TABLE_MAX_PAGES = 100 := rfl

theorem u32_of_lt {n : Nat} (h : n < 4294967296) : u32 n = n := Nat.mod_eq_of_lt h

theorem ReadAt_length {file b : List Byte} {len off : Nat} (h : ReadAt file len off = some b) :
    b.length = len := by
  unfold ReadAt at h
  split at h
  · cases h
    simp only [List.length_take, List.length_drop]
    omega
  · cases h

theorem WellFormed_set {p : Pager} (hw : p.WellFormed) (n : Nat) (page : Page)
    (hp : page.data.length = PAGE_SIZE) :
    Pager.WellFormed { p with pages := p.pages.set n (some page) } := by
  obtain ⟨h1, h2, h3⟩ := hw
  refine ⟨by simp only [List.length_set]; exact h1, ?_, h3⟩
  intro q pg hq
  simp only [List.getElem?_set] at hq
  split at hq
  · split at hq
    · cases hq; exact hp
    · cases hq
  · exact h2 q pg hq

/-- On a well-formed pager every page below the limit can be fetched; the
fetched page is resident afterwards, the file is untouched and pages that were
resident keep their content. -/
theorem get_page_spec (p : Pager) (n : Nat) (hw : p.WellFormed) (hn : n < TABLE_MAX_PAGES) :
    ∃ page p1, get_page p n = .ok (page, p1) ∧ p1.WellFormed ∧
      p1.pages[n]? = some (some page) ∧
      p1.file_descriptor = p.file_descriptor ∧ p1.file_length = p.file_length ∧
      (∀ (q : Nat) (pg : Page), p.pages[q]? = some (some pg) → p1.pages[q]? = some (some pg)) ∧
      (∀ q : Nat, q ≠ n → p1.pages[q]? = p.pages[q]?) := by
  have hw0 := hw
  obtain ⟨h1, h2, h3⟩ := hw
  have hlt : n < p.pages.length := by omega
  unfold get_page
  rw [if_neg (by omega)]
  rcases hpg : p.pages[n]? with _ | (_ | page)
  · rw [List.getElem?_eq_none_iff] at hpg
    omega
  · simp only
    have hset : ∀ page : Page, (p.pages.set n (some page))[n]? = some (some page) := by
      intro page
      rw [List.getElem?_set_self hlt]
    have hne : ∀ (page : Page) (q : Nat), q ≠ n →
        (p.pages.set n (some page))[q]? = p.pages[q]? := by
      intro page q hq
      rw [List.getElem?_set_ne (Ne.symm hq)]
    have hres : ∀ (page : Page) (q : Nat) (pg : Page), p.pages[q]? = some (some pg) →
        (p.pages.set n (some page))[q]? = some (some pg) := by
      intro page q pg hq
      by_cases hqn : q = n
      · subst hqn; rw [hpg] at hq; cases hq
      · rw [hne page q hqn, hq]
    have hr : ReadAt p.file_descriptor PAGE_SIZE (u32 (n * PAGE_SIZE)) =
        some ((p.file_descriptor.drop (u32 (n * PAGE_SIZE))).take PAGE_SIZE) := by
      unfold ReadAt
      rw [if_pos]
      rw [h3, PAGE_SIZE_eq, TABLE_MAX_PAGES_eq]
      rw [TABLE_MAX_PAGES_eq] at hn
      rw [u32_of_lt (by omega)]
      omega
    generalize (if p.file_length % PAGE_SIZE ≠ 0 then u32 (p.file_length / PAGE_SIZE + 1)
      else p.file_length / PAGE_SIZE) = numPages
    by_cases hle : n ≤ numPages
    · rw [if_pos hle, hr]
      exact ⟨_, _, rfl, WellFormed_set hw0 n _ (ReadAt_length hr), hset _, rfl, rfl,
        hres _, hne _⟩
    · rw [if_neg hle]
      exact ⟨_, _, rfl, WellFormed_set hw0 n _ (by simp only [List.length_replicate]),
        hset _, rfl, rfl, hres _, hne _⟩
  · exact ⟨page, p, rfl, hw0, hpg, rfl, rfl, fun _ _ h => h, fun _ _ => rfl⟩

theorem get_page_resident (p : Pager) (n : Nat) (page : Page) (hn : n < TABLE_MAX_PAGES)
    (h : p.pages[n]? = some (some page)) : get_page p n = .ok (page, p) := by
  unfold get_page
  rw [if_neg (by omega), h]

/-! ## Lemmas: opening and addressing -/

theorem Truncate_length (file : List Byte) (size : Nat) : (Truncate file size).length = size := by
  simp only [Truncate, List.length_append, List.length_take, List.length_replicate]
  omega

theorem pager_open_wellFormed (disk : Option (List Byte)) : (pager_open disk).WellFormed := by
  refine ⟨?_, ?_, ?_⟩
  · simp only [pager_open, List.length_replicate]
  · intro q page h
    simp only [pager_open, List.getElem?_replicate] at h
    split at h <;> cases h
  · simp only [pager_open, Truncate_length]

theorem db_open_wellFormed (disk : Option (List Byte)) : (db_open disk).pager.WellFormed :=
  pager_open_wellFormed disk

theorem db_open_num_rows (disk : Option (List Byte)) :
    (db_open disk).num_rows = u32 (disk.getD []).length / ROW_SIZE := rfl

/-- The address part of `row_slot` for a row index below the capacity. -/
theorem slot_bounds (i : Nat) (hi : i < TABLE_MAX_ROWS) :
    i / ROWS_PER_PAGE < TABLE_MAX_PAGES ∧
      u32 (i % ROWS_PER_PAGE * ROW_SIZE) = i % ROWS_PER_PAGE * ROW_SIZE ∧
      u32 (i % ROWS_PER_PAGE * ROW_SIZE + ROW_SIZE) = i % ROWS_PER_PAGE * ROW_SIZE + ROW_SIZE ∧
      i % ROWS_PER_PAGE * ROW_SIZE + ROW_SIZE ≤ PAGE_SIZE := by
  rw [TABLE_MAX_ROWS_eq] at hi
  rw [ROWS_PER_PAGE_eq, ROW_SIZE_eq, TABLE_MAX_PAGES_eq, PAGE_SIZE_eq]
  have h1 : i % 14 < 14 := Nat.mod_lt _ (by omega)
  exact ⟨by omega, u32_of_lt (by omega), u32_of_lt (by omega), by omega⟩

/-- On a well-formed table `row_slot` succeeds for every row index below the
capacity and returns the window of that row in its page. -/
theorem row_slot_spec (t : Table) (i : Nat) (hw : t.pager.WellFormed) (hi : i < TABLE_MAX_ROWS) :
    ∃ page p1, get_page t.pager (i / ROWS_PER_PAGE) = .ok (page, p1) ∧
      row_slot t i = .ok (⟨i / ROWS_PER_PAGE, i % ROWS_PER_PAGE * ROW_SIZE,
        i % ROWS_PER_PAGE * ROW_SIZE + ROW_SIZE⟩, { t with pager := p1 }) ∧
      p1.WellFormed ∧ p1.pages[i / ROWS_PER_PAGE]? = some (some page) ∧
      page.data.length = PAGE_SIZE := by
  obtain ⟨hb1, hb2, hb3, hb4⟩ := slot_bounds i hi
  obtain ⟨page, p1, hg, hw1, hres, _⟩ := get_page_spec t.pager _ hw hb1
  have hlen : page.data.length = PAGE_SIZE := hw1.2.1 _ _ hres
  refine ⟨page, p1, hg, ?_, hw1, hres, hlen⟩
  unfold row_slot
  simp only [hg, hb2, hb3]
  rw [if_pos ⟨by omega, by omega⟩]

theorem Slot_load_eq (s : Slot) (p : Pager) (page : Page)
    (h : p.pages[s.pageNum]? = some (some page)) :
    s.load p = (page.data.drop s.lo).take (s.hi - s.lo) := by
  unfold Slot.load
  rw [h]

/-! ## Row addressing -/

/-- C9: for every row index `i` below `TABLE_MAX_ROWS`, `row_slot` (on a table
whose pager is well formed) returns a window located in page `i / ROWS_PER_PAGE`
at byte offset `(i mod ROWS_PER_PAGE) * ROW_SIZE` of that page, and the window is
exactly `ROW_SIZE` bytes long. -/
theorem row_slot_addressing (table : Table) (i : Nat) (hw : table.pager.WellFormed)
    (hi : i < TABLE_MAX_ROWS) :
    ∃ slot table1 page, row_slot table i = .ok (slot, table1) ∧
      slot.pageNum = i / ROWS_PER_PAGE ∧
      slot.lo = (i % ROWS_PER_PAGE) * ROW_SIZE ∧
      slot.hi = slot.lo + ROW_SIZE ∧
      table1.pager.pages[i / ROWS_PER_PAGE]? = some (some page) ∧
      slot.load table1.pager = (page.data.drop slot.lo).take ROW_SIZE ∧
      (slot.load table1.pager).length = ROW_SIZE := by
  obtain ⟨page, p1, _, hs, _, hres, hlen⟩ := row_slot_spec table i hw hi
  obtain ⟨_, _, _, hb4⟩ := slot_bounds i hi
  have hl : Slot.load ⟨i / ROWS_PER_PAGE, i % ROWS_PER_PAGE * ROW_SIZE,
      i % ROWS_PER_PAGE * ROW_SIZE + ROW_SIZE⟩ p1 =
      (page.data.drop (i % ROWS_PER_PAGE * ROW_SIZE)).take ROW_SIZE := by
    rw [Slot_load_eq _ p1 page hres]
    simp only [Nat.add_sub_cancel_left]
  refine ⟨_, _, page, hs, rfl, rfl, rfl, hres, hl, ?_⟩
  rw [hl, List.length_take, List.length_drop, hlen]
  omega

/-- Witness of C9: row 15 of a table opened on a new file. -/
theorem row_slot_addressing_witness :
    (db_open none).pager.WellFormed ∧ 15 < TABLE_MAX_ROWS ∧
    ∃ slot table1 page, row_slot (db_open none) 15 = .ok (slot, table1) ∧
      slot.pageNum = 15 / ROWS_PER_PAGE ∧
      slot.lo = (15 % ROWS_PER_PAGE) * ROW_SIZE ∧
      slot.hi = slot.lo + ROW_SIZE ∧
      table1.pager.pages[15 / ROWS_PER_PAGE]? = some (some page) ∧
      slot.load table1.pager = (page.data.drop slot.lo).take ROW_SIZE ∧
      (slot.load table1.pager).length = ROW_SIZE :=
  ⟨db_open_wellFormed none, by decide,
    row_slot_addressing (db_open none) 15 (db_open_wellFormed none) (by decide)⟩

/-- C10: for distinct row indices `i` and `j` below the row count of a table (row
count at most `TABLE_MAX_ROWS`), the windows returned by `row_slot` are 292 bytes
each and are disjoint: their page numbers differ, or they lie in the same page
and the byte intervals do not intersect. -/
theorem row_slot_disjoint (table : Table) (i j : Nat) (hw : table.pager.WellFormed)
    (hn : table.num_rows ≤ TABLE_MAX_ROWS) (hi : i < table.num_rows) (hj : j < table.num_rows)
    (hij : i ≠ j) :
    ∃ si ti sj tj, row_slot table i = .ok (si, ti) ∧ row_slot table j = .ok (sj, tj) ∧
      si.hi = si.lo + 292 ∧ sj.hi = sj.lo + 292 ∧
      (si.pageNum ≠ sj.pageNum ∨
        (si.pageNum = sj.pageNum ∧ (si.hi ≤ sj.lo ∨ sj.hi ≤ si.lo))) := by
  obtain ⟨_, _, _, hsi, _⟩ := row_slot_spec table i hw (by omega)
  obtain ⟨_, _, _, hsj, _⟩ := row_slot_spec table j hw (by omega)
  refine ⟨_, _, _, _, hsi, hsj, by simp only [ROW_SIZE_eq], by simp only [ROW_SIZE_eq], ?_⟩
  simp only [ROWS_PER_PAGE_eq, ROW_SIZE_eq]
  omega

/-- Witness of C10: rows 0 and 1 of a table opened on a file of 600 bytes, which
has two rows. -/
theorem row_slot_disjoint_witness :
    (db_open (some (List.replicate 600 0))).pager.WellFormed ∧
    (db_open (some (List.replicate 600 0))).num_rows ≤ TABLE_MAX_ROWS ∧
    0 < (db_open (some (List.replicate 600 0))).num_rows ∧
    1 < (db_open (some (List.replicate 600 0))).num_rows ∧ 0 ≠ 1 ∧
    ∃ si ti sj tj, row_slot (db_open (some (List.replicate 600 0))) 0 = .ok (si, ti) ∧
      row_slot (db_open (some (List.replicate 600 0))) 1 = .ok (sj, tj) ∧
      si.hi = si.lo + 292 ∧ sj.hi = sj.lo + 292 ∧
      (si.pageNum ≠ sj.pageNum ∨
        (si.pageNum = sj.pageNum ∧ (si.hi ≤ sj.lo ∨ sj.hi ≤ si.lo))) :=
  have h : (db_open (some (List.replicate 600 0))).num_rows = 2 := by
    rw [db_open_num_rows, Option.getD_some, List.length_replicate]
    decide
  ⟨db_open_wellFormed _, by rw [h]; decide, by rw [h]; decide, by rw [h]; decide, by decide,
    row_slot_disjoint _ 0 1 (db_open_wellFormed _) (by rw [h]; decide) (by rw [h]; decide)
      (by rw [h]; decide) (by decide)⟩

/-! ## Lemmas: insert -/

/-- On a well-formed table below capacity `execute_insert` succeeds, adds one to
the row count, stores the row in its window and leaves every other row alone. -/
theorem execute_insert_spec (st : Statement) (t : Table) (hw : t.pager.WellFormed)
    (hn : t.num_rows < TABLE_MAX_ROWS) :
    ∃ t1, execute_insert st t = .ok (.EXECUTE_SUCCESS, t1) ∧
      t1.num_rows = t.num_rows + 1 ∧ t1.pager.WellFormed ∧
      t1.pager.file_descriptor = t.pager.file_descriptor ∧
      t1.pager.file_length = t.pager.file_length ∧
      (st.row_to_insert.username.length = 32 → st.row_to_insert.email.length = 256 →
        Holds t1.pager t.num_rows st.row_to_insert) ∧
      (∀ i r, i ≠ t.num_rows → Holds t.pager i r → Holds t1.pager i r) := by
  obtain ⟨hb1, _, _, hb4⟩ := slot_bounds t.num_rows hn
  obtain ⟨page, p1, hg, hs, hw1, hres, hlen⟩ := row_slot_spec t t.num_rows hw hn
  obtain ⟨page0, p0, hg0, _, _, hfd, hfl, hpres, hother⟩ := get_page_spec t.pager _ hw hb1
  rw [hg] at hg0
  cases hg0
  generalize hlo : t.num_rows % ROWS_PER_PAGE * ROW_SIZE = lo at hs hb4
  have hload : Slot.load ⟨t.num_rows / ROWS_PER_PAGE, lo, lo + ROW_SIZE⟩ p1 =
      (page.data.drop lo).take (lo + ROW_SIZE - lo) := Slot_load_eq _ p1 page hres
  have hsl : slice page.data lo (lo + ROW_SIZE) = some ((page.data.drop lo).take (lo + ROW_SIZE - lo)) :=
    slice_eq_some (by omega) (by omega)
  have hwl := slice_length hsl
  generalize (page.data.drop lo).take (lo + ROW_SIZE - lo) = w at hload hsl hwl
  replace hwl : w.length = 292 := by rw [ROW_SIZE_eq] at hwl; omega
  obtain ⟨out, s1, s2, hser, hol, e1, e2, o0, o1, o2⟩ :=
    serialize_row_spec st.row_to_insert w (by omega)
  have hstl : (store page.data lo out).length = PAGE_SIZE := by
    rw [store_length _ _ _ (by rw [ROW_SIZE_eq] at hb4; omega), hlen]
  have hpl : t.num_rows / ROWS_PER_PAGE < p1.pages.length := by rw [hw1.1]; exact hb1
  refine ⟨⟨u32 (t.num_rows + 1), ⟨p1.file_descriptor, p1.file_length,
      p1.pages.set (t.num_rows / ROWS_PER_PAGE) (some ⟨store page.data lo out⟩)⟩⟩,
    ?_, ?_, WellFormed_set hw1 _ _ hstl, hfd, hfl, ?_, ?_⟩
  · unfold execute_insert
    rw [if_neg (by omega)]
    simp only [hs, hload, hser, Slot.write, hres]
  · rw [TABLE_MAX_ROWS_eq] at hn
    exact u32_of_lt (by show t.num_rows + 1 < 4294967296; omega)
  · intro hu he
    refine ⟨⟨store page.data lo out⟩, out, List.getElem?_set_self hpl, ?_, o0, ?_, ?_⟩
    · rw [hlo]
      have := slice_store_same page.data out lo (by rw [ROW_SIZE_eq] at hb4; omega)
      rw [hol, hwl] at this
      rw [ROW_SIZE_eq]
      exact this
    · rw [o1, copy_eq_src _ _ (by rw [slice_length e1, hu])]
    · rw [o2, copy_eq_src _ _ (by rw [slice_length e2, he])]
  · rintro i r hi ⟨pg, wi, hpg, hwi, henc⟩
    by_cases hq : i / ROWS_PER_PAGE = t.num_rows / ROWS_PER_PAGE
    · have hpg1 := hpres _ _ hpg
      rw [hq, hres] at hpg1
      cases hpg1
      refine ⟨⟨store page.data lo out⟩, wi, ?_, ?_, henc⟩
      · rw [hq]; exact List.getElem?_set_self hpl
      · rw [← hwi]
        have hil := slice_length hwi
        have hne : i % ROWS_PER_PAGE ≠ t.num_rows % ROWS_PER_PAGE := by
          intro hm
          apply hi
          rw [← Nat.div_add_mod i ROWS_PER_PAGE, ← Nat.div_add_mod t.num_rows ROWS_PER_PAGE,
            hq, hm]
        have hin : i % ROWS_PER_PAGE * ROW_SIZE + ROW_SIZE ≤ page.data.length := by
          unfold slice at hwi
          split at hwi
          · omega
          · cases hwi
        rw [ROWS_PER_PAGE_eq, ROW_SIZE_eq] at *
        rcases Nat.lt_or_gt_of_ne hne with hlt | hgt
        · exact slice_store_before page.data out lo _ _ (by omega) (by omega)
        · exact slice_store_after page.data out lo _ _ (by omega) (by omega)
    · refine ⟨pg, wi, ?_, hwi, henc⟩
      show (p1.pages.set _ _)[i / ROWS_PER_PAGE]? = _
      rw [List.getElem?_set_ne (Ne.symm hq), hother _ hq, hpg]

/-! ## Lemmas: reading rows back -/

/-- A row that is held by the pager is returned by `row_slot` and
`deserialize_row`, and reading it leaves the table as it is. -/
theorem row_slot_of_holds (t : Table) (i : Nat) (r row : Row) (hw : t.pager.WellFormed)
    (hi : i < TABLE_MAX_ROWS) (hr : r.WellTyped) (hrow : row.WellTyped)
    (hh : Holds t.pager i r) :
    ∃ slot, row_slot t i = .ok (slot, t) ∧ (slot.load t.pager).length = ROW_SIZE ∧
      deserialize_row (slot.load t.pager) row = some r := by
  obtain ⟨hb1, _, _, hb4⟩ := slot_bounds i hi
  obtain ⟨pg, w, hpg, hwi, h0, h1, h2⟩ := hh
  obtain ⟨page, p1, hg, hs, _, _, _⟩ := row_slot_spec t i hw hi
  rw [get_page_resident t.pager _ pg hb1 hpg] at hg
  cases hg
  have hwl : w.length = ROW_SIZE := by
    rw [slice_length hwi]; omega
  have hload : Slot.load ⟨i / ROWS_PER_PAGE, i % ROWS_PER_PAGE * ROW_SIZE,
      i % ROWS_PER_PAGE * ROW_SIZE + ROW_SIZE⟩ t.pager = w := by
    rw [Slot_load_eq _ _ pg hpg]
    unfold slice at hwi
    split at hwi
    · exact Option.some.inj hwi
    · cases hwi
  refine ⟨_, hs, ?_, ?_⟩
  · rw [hload, hwl]
  · rw [hload, deserialize_row_spec w row r.id _ _ hr.1 h0 h1 h2]
    obtain ⟨_, hu, he⟩ := hr
    obtain ⟨_, hu0, he0⟩ := hrow
    rw [copy_eq_src _ _ (by omega), copy_eq_src _ _ (by omega)]

/-! ## Insert -/

/-- C5: `execute_insert` returns `EXECUTE_TABLE_FULL` exactly when the row count
is at least `TABLE_MAX_ROWS`, and then the table it leaves (row count, resident
pages and every byte of them, file) is the table it was given. -/
theorem execute_insert_table_full_iff (statement : Statement) (table table1 : Table) :
    execute_insert statement table = .ok (.EXECUTE_TABLE_FULL, table1) ↔
      (table.num_rows ≥ TABLE_MAX_ROWS ∧ table1 = table) := by
  unfold execute_insert
  constructor
  · intro h
    split at h
    · next hfull =>
      cases h
      exact ⟨hfull, rfl⟩
    · split at h
      · cases h
      · split at h
        · cases h
        · cases h
  · rintro ⟨hfull, rfl⟩
    rw [if_pos hfull]

/-- C6: for a table with row count `n` below `TABLE_MAX_ROWS` and a row `r`,
`execute_insert` returns `EXECUTE_SUCCESS`, the new row count is `n + 1`, and
afterwards `row_slot n` is a window of 292 bytes that `deserialize_row` decodes
to `r`. -/
theorem execute_insert_success (statement : Statement) (table : Table) (row : Row)
    (hw : table.pager.WellFormed) (hn : table.num_rows < TABLE_MAX_ROWS)
    (hr : statement.row_to_insert.WellTyped) (hrow : row.WellTyped) :
    ∃ table1, execute_insert statement table = .ok (.EXECUTE_SUCCESS, table1) ∧
      table1.num_rows = table.num_rows + 1 ∧
      ∃ slot table2, row_slot table1 table.num_rows = .ok (slot, table2) ∧
        (slot.load table2.pager).length = ROW_SIZE ∧
        deserialize_row (slot.load table2.pager) row = some statement.row_to_insert := by
  obtain ⟨t1, hex, hnum, hw1, _, _, hh, _⟩ := execute_insert_spec statement table hw hn
  obtain ⟨slot, hs, hl, hd⟩ := row_slot_of_holds t1 table.num_rows statement.row_to_insert row
    hw1 hn hr hrow (hh hr.2.1 hr.2.2)
  exact ⟨t1, hex, hnum, slot, t1, hs, hl, hd⟩

/-- Witness of C6: `insert 1 user1 person1@example.com` into a table opened on a
new file. -/
theorem execute_insert_success_witness :
    (db_open none).pager.WellFormed ∧ (db_open none).num_rows < TABLE_MAX_ROWS ∧
    sampleRow1.WellTyped ∧ Row.zero.WellTyped ∧
    ∃ table1, execute_insert ⟨sampleRow1, .STATEMENT_INSERT⟩ (db_open none)
        = .ok (.EXECUTE_SUCCESS, table1) ∧
      table1.num_rows = (db_open none).num_rows + 1 ∧
      ∃ slot table2, row_slot table1 (db_open none).num_rows = .ok (slot, table2) ∧
        (slot.load table2.pager).length = ROW_SIZE ∧
        deserialize_row (slot.load table2.pager) Row.zero = some sampleRow1 :=
  ⟨db_open_wellFormed none, by decide, sampleRow1_wellTyped, zero_wellTyped,
    execute_insert_success ⟨sampleRow1, .STATEMENT_INSERT⟩ (db_open none) Row.zero
      (db_open_wellFormed none) (by decide) sampleRow1_wellTyped zero_wellTyped⟩

/-! ## Lemmas: sequences of inserts and the select loop -/

/-- Inserting rows into a well-formed table with enough room succeeds for every
row, whatever the rows are. -/
theorem insert_rows_ok (rows : List Row) : ∀ (t : Table), t.pager.WellFormed →
    t.num_rows + rows.length ≤ TABLE_MAX_ROWS →
    ∃ t1, insert_rows rows t = .ok (List.replicate rows.length .EXECUTE_SUCCESS, t1) ∧
      t1.pager.WellFormed ∧ t1.num_rows = t.num_rows + rows.length ∧
      t1.pager.file_descriptor = t.pager.file_descriptor ∧
      t1.pager.file_length = t.pager.file_length := by
  induction rows with
  | nil => intro t hw _; exact ⟨t, rfl, hw, rfl, rfl, rfl⟩
  | cons r rs ih =>
    intro t hw hroom
    rw [List.length_cons] at hroom
    obtain ⟨t1, hex, hnum, hw1, hfd, hfl, _, _⟩ :=
      execute_insert_spec ⟨r, .STATEMENT_INSERT⟩ t hw (by omega)
    obtain ⟨t2, hrs, hw2, hnum2, hfd2, hfl2⟩ := ih t1 hw1 (by omega)
    refine ⟨t2, ?_, hw2, ?_, hfd2.trans hfd, hfl2.trans hfl⟩
    · simp only [insert_rows, hex, hrs, List.length_cons, List.replicate_succ]
    · rw [hnum2, hnum, List.length_cons]; omega

/-- Inserting well-typed rows after the rows `stored` leaves a table that holds
`stored ++ rows`. -/
theorem insert_rows_holds (rows : List Row) : ∀ (t : Table) (stored : List Row),
    t.pager.WellFormed → t.num_rows = stored.length →
    stored.length + rows.length ≤ TABLE_MAX_ROWS →
    (∀ (k : Nat) (r : Row), stored[k]? = some r → Holds t.pager k r) →
    (∀ r ∈ rows, r.WellTyped) →
    ∃ t1, insert_rows rows t = .ok (List.replicate rows.length .EXECUTE_SUCCESS, t1) ∧
      t1.pager.WellFormed ∧ t1.num_rows = stored.length + rows.length ∧
      (∀ (k : Nat) (r : Row), (stored ++ rows)[k]? = some r → Holds t1.pager k r) := by
  induction rows with
  | nil =>
    intro t stored hw hnum _ hh _
    exact ⟨t, rfl, hw, by simpa using hnum, by simpa using hh⟩
  | cons r rs ih =>
    intro t stored hw hnum hroom hh hwt
    rw [List.length_cons] at hroom
    obtain ⟨t1, hex, hnum1, hw1, _, _, hnew, hframe⟩ :=
      execute_insert_spec ⟨r, .STATEMENT_INSERT⟩ t hw (by omega)
    have hr : r.WellTyped := hwt r (List.mem_cons_self _ _)
    have hh1 : ∀ (k : Nat) (r1 : Row), (stored ++ [r])[k]? = some r1 → Holds t1.pager k r1 := by
      intro k r1 hk
      by_cases hlt : k < stored.length
      · rw [List.getElem?_append_left hlt] at hk
        exact hframe k r1 (by omega) (hh k r1 hk)
      · have hlen : k < (stored ++ [r]).length := by
          by_contra hc
          rw [List.getElem?_eq_none (by omega)] at hk
          cases hk
        rw [List.length_append, List.length_singleton] at hlen
        have hke : k = stored.length := by omega
        subst hke
        rw [List.getElem?_append_right (by omega), Nat.sub_self] at hk
        cases hk
        rw [← hnum]
        exact hnew hr.2.1 hr.2.2
    obtain ⟨t2, hrs, hw2, hnum2, hh2⟩ := ih t1 (stored ++ [r]) hw1
      (by rw [hnum1, hnum, List.length_append, List.length_singleton])
      (by rw [List.length_append, List.length_singleton]; omega) hh1
      (fun x hx => hwt x (List.mem_cons_of_mem _ hx))
    refine ⟨t2, ?_, hw2, ?_, ?_⟩
    · simp only [insert_rows, hex, hrs, List.length_cons, List.replicate_succ]
    · rw [hnum2, List.length_append, List.length_singleton, List.length_cons]; omega
    · intro k r1 hk
      apply hh2 k r1
      rwa [List.append_assoc, List.singleton_append]

/-- On a table that holds `rows`, the loop of `execute_select` prints the rows
from index `i` on, in order, and leaves the table as it is. -/
theorem execute_select_loop_spec (t : Table) (rows : List Row) (hw : t.pager.WellFormed)
    (hlen : rows.length ≤ TABLE_MAX_ROWS)
    (hh : ∀ (k : Nat) (r : Row), rows[k]? = some r → Holds t.pager k r)
    (hwt : ∀ r ∈ rows, r.WellTyped) :
    ∀ (m i : Nat) (row : Row) (out : List Printed), i + m = rows.length → row.WellTyped →
      execute_select_loop m i row t out = .ok (out ++ (rows.drop i).map Row.printed, t) := by
  intro m
  induction m with
  | zero =>
    intro i row out hi _
    rw [List.drop_eq_nil_of_le (by omega)]
    simp only [execute_select_loop, List.map_nil, List.append_nil]
  | succ m ih =>
    intro i row out hi hrow
    have hlt : i < rows.length := by omega
    have hget : rows[i]? = some rows[i] := List.getElem?_eq_getElem hlt
    have hr : (rows[i]).WellTyped := hwt _ (List.getElem_mem hlt)
    have hu : u32 i = i := u32_of_lt (by rw [TABLE_MAX_ROWS_eq] at hlen; omega)
    obtain ⟨slot, hs, _, hd⟩ := row_slot_of_holds t i rows[i] row hw (by omega) hr hrow
      (hh i _ hget)
    rw [execute_select_loop]
    simp only [hu, hs, hd]
    rw [ih (i + 1) rows[i] _ (by omega) hr, List.append_assoc,
      List.drop_eq_getElem_cons hlt, List.map_cons]
    rfl

/-! ## Insert then select, and filling the table -/

theorem db_open_none_num_rows : (db_open none).num_rows = 0 := by decide

theorem execute_select_of_holds (t : Table) (rows : List Row) (statement : Statement)
    (hw : t.pager.WellFormed) (hnum : t.num_rows = rows.length)
    (hlen : rows.length ≤ TABLE_MAX_ROWS)
    (hh : ∀ (k : Nat) (r : Row), rows[k]? = some r → Holds t.pager k r)
    (hwt : ∀ r ∈ rows, r.WellTyped) :
    execute_select statement t = .ok (.EXECUTE_SUCCESS, rows.map Row.printed, t) := by
  unfold execute_select
  split
  · next h0 =>
    rw [hnum] at h0
    rw [List.eq_nil_of_length_eq_zero h0]
    rfl
  · rw [hnum, execute_select_loop_spec t rows hw hlen hh hwt rows.length 0 Row.zero []
      (by omega) zero_wellTyped]
    rfl

/-- C4: for every list of at most `TABLE_MAX_ROWS` rows, inserting them one after
another with `execute_insert` into the table opened on a new file succeeds each
time, and `execute_select` then prints exactly these rows in the order of
insertion: the `k`-th line is the id, username and email of the `k`-th row, the
two texts without their trailing zero bytes. -/
theorem insert_then_select (rows : List Row) (statement : Statement)
    (hlen : rows.length ≤ TABLE_MAX_ROWS) (hwt : ∀ r ∈ rows, r.WellTyped) :
    ∃ table, insert_rows rows (db_open none)
        = .ok (List.replicate rows.length .EXECUTE_SUCCESS, table) ∧
      execute_select statement table
        = .ok (.EXECUTE_SUCCESS, rows.map Row.printed, table) := by
  obtain ⟨t1, hins, hw1, hnum, hh⟩ := insert_rows_holds rows (db_open none) []
    (db_open_wellFormed none) db_open_none_num_rows
    (by rw [List.length_nil, Nat.zero_add]; exact hlen)
    (fun k r h => by rw [List.getElem?_nil] at h; cases h) hwt
  rw [List.nil_append] at hh
  rw [List.length_nil, Nat.zero_add] at hnum
  exact ⟨t1, hins, execute_select_of_holds t1 rows statement hw1 hnum hlen hh hwt⟩

set_option maxRecDepth 100000 in
theorem sample_printed :
    [sampleRow1, sampleRow2].map Row.printed = [⟨1, user1, person1⟩, ⟨2, user2, person2⟩] := by
  decide

/-- Witness of C4: `insert 1 user1 person1@example.com` then
`insert 2 user2 person2@example.com`; select prints rows 1 and 2 in this order. -/
theorem insert_then_select_witness :
    [sampleRow1, sampleRow2].length ≤ TABLE_MAX_ROWS ∧
    (∀ r ∈ [sampleRow1, sampleRow2], r.WellTyped) ∧
    [sampleRow1, sampleRow2].map Row.printed = [⟨1, user1, person1⟩, ⟨2, user2, person2⟩] ∧
    ∃ table, insert_rows [sampleRow1, sampleRow2] (db_open none)
        = .ok (List.replicate [sampleRow1, sampleRow2].length .EXECUTE_SUCCESS, table) ∧
      execute_select ⟨Row.zero, .STATEMENT_SELECT⟩ table
        = .ok (.EXECUTE_SUCCESS, [sampleRow1, sampleRow2].map Row.printed, table) :=
  have hwt : ∀ r ∈ [sampleRow1, sampleRow2], r.WellTyped := by
    intro r hr
    simp only [List.mem_cons, List.mem_singleton, List.not_mem_nil, or_false] at hr
    rcases hr with h | h
    · rw [h]; exact sampleRow1_wellTyped
    · rw [h]; exact sampleRow2_wellTyped
  ⟨by decide, hwt, sample_printed,
    insert_then_select [sampleRow1, sampleRow2] ⟨Row.zero, .STATEMENT_SELECT⟩ (by decide) hwt⟩

/-- C7: starting from the table opened on a new file, `TABLE_MAX_ROWS` consecutive
calls of `execute_insert` all return `EXECUTE_SUCCESS` (none halts), the row
count is then `TABLE_MAX_ROWS`, and one more call returns `EXECUTE_TABLE_FULL`
and leaves the table, hence the row count, as it is. -/
theorem fill_to_capacity (rows : List Row) (statement : Statement)
    (hlen : rows.length = TABLE_MAX_ROWS) :
    ∃ table, insert_rows rows (db_open none)
        = .ok (List.replicate TABLE_MAX_ROWS .EXECUTE_SUCCESS, table) ∧
      table.num_rows = TABLE_MAX_ROWS ∧
      execute_insert statement table = .ok (.EXECUTE_TABLE_FULL, table) := by
  obtain ⟨t1, hins, _, hnum, _⟩ := insert_rows_ok rows (db_open none)
    (db_open_wellFormed none) (by rw [db_open_none_num_rows, hlen, Nat.zero_add])
  rw [db_open_none_num_rows, Nat.zero_add, hlen] at hnum
  rw [hlen] at hins
  refine ⟨t1, hins, hnum, ?_⟩
  unfold execute_insert
  rw [if_pos (Nat.le_of_eq hnum.symm)]

/-- Witness of C7: 1400 copies of the row of `insert 1 user1 person1@example.com`,
then `insert 2 user2 person2@example.com`. -/
theorem fill_to_capacity_witness :
    (List.replicate 1400 sampleRow1).length = TABLE_MAX_ROWS ∧
    ∃ table, insert_rows (List.replicate 1400 sampleRow1) (db_open none)
        = .ok (List.replicate TABLE_MAX_ROWS .EXECUTE_SUCCESS, table) ∧
      table.num_rows = TABLE_MAX_ROWS ∧
      execute_insert ⟨sampleRow2, .STATEMENT_INSERT⟩ table = .ok (.EXECUTE_TABLE_FULL, table) :=
  ⟨by rw [List.length_replicate, TABLE_MAX_ROWS_eq],
    fill_to_capacity (List.replicate 1400 sampleRow1) ⟨sampleRow2, .STATEMENT_INSERT⟩
      (by rw [List.length_replicate, TABLE_MAX_ROWS_eq])⟩

/-! ## Lemmas: the row count -/

theorem row_slot_num_rows {t t1 : Table} {i : Nat} {s : Slot}
    (h : row_slot t i = .ok (s, t1)) : t1.num_rows = t.num_rows := by
  unfold row_slot at h
  simp only at h
  split at h
  · cases h
  · split at h
    · cases h; rfl
    · cases h

theorem execute_insert_num_rows_le {st : Statement} {t t1 : Table} {res : ExecuteResult}
    (hle : t.num_rows ≤ TABLE_MAX_ROWS) (h : execute_insert st t = .ok (res, t1)) :
    t1.num_rows ≤ TABLE_MAX_ROWS := by
  unfold execute_insert at h
  split at h
  · cases h; exact hle
  · next hlt =>
    split at h
    · cases h
    · next slot t2 hs =>
      have hn := row_slot_num_rows hs
      split at h
      · cases h
      · cases h
        show u32 (t2.num_rows + 1) ≤ TABLE_MAX_ROWS
        rw [hn]
        rw [TABLE_MAX_ROWS_eq] at hlt ⊢
        rw [u32_of_lt (by omega)]
        omega

theorem execute_select_loop_num_rows (m : Nat) : ∀ (i : Nat) (row : Row) (t : Table)
    (out out1 : List Printed) (t1 : Table),
    execute_select_loop m i row t out = .ok (out1, t1) → t1.num_rows = t.num_rows := by
  induction m with
  | zero =>
    intro i row t out out1 t1 h
    rw [execute_select_loop] at h
    cases h
    rfl
  | succ m ih =>
    intro i row t out out1 t1 h
    rw [execute_select_loop] at h
    split at h
    · cases h
    · next slot t2 hs =>
      split at h
      · cases h
      · rw [ih _ _ _ _ _ _ h, row_slot_num_rows hs]

theorem execute_select_num_rows {st : Statement} {t t1 : Table} {res : ExecuteResult}
    {out : List Printed} (h : execute_select st t = .ok (res, out, t1)) :
    t1.num_rows = t.num_rows := by
  unfold execute_select at h
  split at h
  · cases h; rfl
  · split at h
    · cases h
    · next out1 t2 hl =>
      cases h
      exact execute_select_loop_num_rows _ _ _ _ _ _ _ hl

/-! ## The capacity invariant -/

/-- Counterexample to C3 as stated: `db_open` on a file of 409600 bytes (the size
every file has after `pager_open` extended it) gives a table with 1402 rows,
more than `TABLE_MAX_ROWS`. -/
theorem reachable_row_count_not_bounded :
    ¬ ∀ (disk : Option (List Byte)) (table : Table),
      Reachable disk table → table.num_rows ≤ TABLE_MAX_ROWS := by
  intro h
  have h1 := h (some (List.replicate 409600 0)) _ Reachable.opened
  rw [db_open_num_rows, Option.getD_some, List.length_replicate] at h1
  revert h1
  decide

/-- C3, amended: when the length recorded at open (size of the file modulo 2^32)
divided by `ROW_SIZE` is at most `TABLE_MAX_ROWS`, every table state reachable
from `db_open` by `execute_insert` and `execute_select` has a row count of at
most `TABLE_MAX_ROWS`. -/
theorem reachable_row_count_le (disk : Option (List Byte)) (table : Table)
    (hfile : u32 (disk.getD []).length / ROW_SIZE ≤ TABLE_MAX_ROWS)
    (h : Reachable disk table) : table.num_rows ≤ TABLE_MAX_ROWS := by
  induction h with
  | opened => rw [db_open_num_rows]; exact hfile
  | insert _ hex ih => exact execute_insert_num_rows_le ih hex
  | select _ hex ih => rw [execute_select_num_rows hex]; exact ih

/-- Witness of the amended C3: the table opened on a file of 600 bytes. -/
theorem reachable_row_count_le_witness :
    u32 ((some (List.replicate 600 0) : Option (List Byte)).getD []).length / ROW_SIZE
      ≤ TABLE_MAX_ROWS ∧
    Reachable (some (List.replicate 600 0)) (db_open (some (List.replicate 600 0))) ∧
    (db_open (some (List.replicate 600 0))).num_rows ≤ TABLE_MAX_ROWS :=
  have h : u32 ((some (List.replicate 600 0) : Option (List Byte)).getD []).length / ROW_SIZE
      ≤ TABLE_MAX_ROWS := by
    rw [Option.getD_some, List.length_replicate]
    decide
  ⟨h, Reachable.opened,
    reachable_row_count_le (some (List.replicate 600 0)) _ h Reachable.opened⟩

/-! ## Lemmas: close -/

theorem WriteAt_length (file b : List Byte) (off : Nat) (h : off + b.length ≤ file.length) :
    (WriteAt file b off).length = file.length := by
  simp only [WriteAt, List.length_append, List.length_take, List.length_replicate,
    List.length_drop]
  omega

/-- The page loop of `db_close` ends without halting when all its indices are
below `TABLE_MAX_PAGES`, and the file keeps its size. -/
theorem db_close_loop_length (p : Pager) (hw : p.WellFormed) : ∀ (k i : Nat) (f : List Byte),
    i + k ≤ TABLE_MAX_PAGES → f.length = PAGE_SIZE * TABLE_MAX_PAGES →
    ∃ f1, db_close_loop p.pages k i f = .ok f1 ∧ f1.length = PAGE_SIZE * TABLE_MAX_PAGES := by
  intro k
  induction k with
  | zero => intro i f _ hf; exact ⟨f, rfl, hf⟩
  | succ k ih =>
    intro i f hik hf
    rw [db_close_loop]
    rcases hpg : p.pages[i]? with _ | (_ | page)
    · rw [List.getElem?_eq_none_iff, hw.1] at hpg
      omega
    · exact ih (i + 1) f (by omega) hf
    · simp only
      apply ih (i + 1) _ (by omega)
      have hl := hw.2.1 i page hpg
      rw [WriteAt_length _ _ _ (by
        rw [hf, hl, PAGE_SIZE_eq, TABLE_MAX_PAGES_eq]
        rw [TABLE_MAX_PAGES_eq] at hik
        omega), hf]

/-- On a well-formed table with at most `TABLE_MAX_ROWS` rows whose last, partly
filled page is resident, `db_close` ends without halting and the file keeps the
size `pager_open` gave it. -/
theorem db_close_length (t : Table) (hw : t.pager.WellFormed) (hn : t.num_rows ≤ TABLE_MAX_ROWS)
    (hlast : 0 < t.num_rows % ROWS_PER_PAGE →
      ∃ page, t.pager.pages[t.num_rows / ROWS_PER_PAGE]? = some (some page)) :
    ∃ t1, db_close t = .ok t1 ∧ t1.num_rows = t.num_rows ∧
      t1.pager.file_descriptor.length = PAGE_SIZE * TABLE_MAX_PAGES := by
  have hfull : t.num_rows / ROWS_PER_PAGE ≤ TABLE_MAX_PAGES := by
    rw [TABLE_MAX_ROWS_eq] at hn
    rw [ROWS_PER_PAGE_eq, TABLE_MAX_PAGES_eq]
    omega
  obtain ⟨f1, hloop, hf1⟩ := db_close_loop_length t.pager hw (t.num_rows / ROWS_PER_PAGE) 0
    t.pager.file_descriptor (by omega) hw.2.2
  unfold db_close
  simp only [hloop]
  by_cases hrem : t.num_rows % ROWS_PER_PAGE > 0
  · rw [if_pos hrem]
    obtain ⟨page, hpage⟩ := hlast hrem
    have hl := hw.2.1 _ page hpage
    have hmod : t.num_rows % ROWS_PER_PAGE < ROWS_PER_PAGE :=
      Nat.mod_lt _ (by rw [ROWS_PER_PAGE_eq]; omega)
    have hdiv : t.num_rows / ROWS_PER_PAGE < TABLE_MAX_PAGES := by
      rw [TABLE_MAX_ROWS_eq] at hn
      rw [ROWS_PER_PAGE_eq] at hrem ⊢
      rw [TABLE_MAX_PAGES_eq]
      omega
    rw [ROWS_PER_PAGE_eq] at hmod hdiv
    rw [TABLE_MAX_PAGES_eq] at hdiv
    have hu1 : u32 (t.num_rows % ROWS_PER_PAGE * ROW_SIZE) = t.num_rows % ROWS_PER_PAGE * ROW_SIZE := by
      rw [ROWS_PER_PAGE_eq, ROW_SIZE_eq]
      exact u32_of_lt (by omega)
    have hu2 : u32 (t.num_rows / ROWS_PER_PAGE * PAGE_SIZE) = t.num_rows / ROWS_PER_PAGE * PAGE_SIZE := by
      rw [ROWS_PER_PAGE_eq, PAGE_SIZE_eq]
      exact u32_of_lt (by omega)
    have hsl := @slice_eq_some page.data 0 (t.num_rows % ROWS_PER_PAGE * ROW_SIZE) (by omega)
      (by rw [hl, ROWS_PER_PAGE_eq, ROW_SIZE_eq, PAGE_SIZE_eq]; omega)
    have hbl := slice_length hsl
    simp only [hpage, hu1, hu2, hsl]
    refine ⟨_, rfl, rfl, ?_⟩
    show (WriteAt f1 _ _).length = _
    rw [WriteAt_length _ _ _ (by
      rw [hbl, hf1, ROWS_PER_PAGE_eq, ROW_SIZE_eq, PAGE_SIZE_eq, TABLE_MAX_PAGES_eq]
      omega), hf1]
  · rw [if_neg hrem]
    exact ⟨_, rfl, rfl, hf1⟩

/-- Reopening a file of the size `pager_open` always sets gives 1402 rows. -/
theorem db_open_full_file (file : List Byte) (h : file.length = PAGE_SIZE * TABLE_MAX_PAGES) :
    (db_open (some file)).num_rows = 1402 := by
  rw [db_open_num_rows, Option.getD_some, h]
  decide

/-! ## Lemmas: select beyond the capacity -/

theorem deserialize_row_total (src : List Byte) (row : Row) (h : 292 ≤ src.length) :
    ∃ r, deserialize_row src row = some r := by
  have e0 : slice src 0 4 = some ((src.drop 0).take (4 - 0)) := slice_eq_some (by omega) (by omega)
  have l0 := slice_length e0
  generalize (src.drop 0).take (4 - 0) = s0 at e0 l0
  have e1 : slice src 4 36 = some ((src.drop 4).take (36 - 4)) :=
    slice_eq_some (by omega) (by omega)
  have e2 : slice src 36 292 = some ((src.drop 36).take (292 - 36)) :=
    slice_eq_some (by omega) (by omega)
  rcases s0 with _ | ⟨a, _ | ⟨b, _ | ⟨c, _ | ⟨d, rest⟩⟩⟩⟩
  · cases l0
  · cases l0
  · cases l0
  · cases l0
  · simp only [deserialize_row, ID_OFFSET, ID_SIZE, USERNAME_OFFSET, USERNAME_SIZE, EMAIL_OFFSET,
      EMAIL_SIZE, COLUMN_USERNAME_SIZE, COLUMN_EMAIL_SIZE, Nat.zero_add, Nat.reduceAdd, e0, e1,
      e2, Uint32]
    exact ⟨_, rfl⟩

/-- The loop of `execute_select` halts in `get_page` when it runs past row index
`TABLE_MAX_ROWS - 1`. -/
theorem execute_select_loop_halts (m : Nat) : ∀ (i : Nat) (row : Row) (t : Table)
    (out : List Printed), t.pager.WellFormed → i ≤ TABLE_MAX_ROWS → TABLE_MAX_ROWS < i + m →
    execute_select_loop m i row t out = .error .fatal_page_limit := by
  induction m with
  | zero => intro i row t out _ h1 h2; omega
  | succ m ih =>
    intro i row t out hw h1 h2
    rw [execute_select_loop]
    have hu : u32 i = i := u32_of_lt (by rw [TABLE_MAX_ROWS_eq] at h1; omega)
    rw [hu]
    by_cases hi : i = TABLE_MAX_ROWS
    · have hg : get_page t.pager (i / ROWS_PER_PAGE) = .error .fatal_page_limit := by
        unfold get_page
        rw [if_pos (by rw [hi]; decide)]
      have hs : row_slot t i = .error .fatal_page_limit := by
        unfold row_slot
        simp only [hg]
      rw [hs]
    · have hlt : i < TABLE_MAX_ROWS := by omega
      obtain ⟨page, p1, _, hs, hw1, hres, hlen⟩ := row_slot_spec t i hw hlt
      obtain ⟨_, _, _, hb4⟩ := slot_bounds i hlt
      have hload := Slot_load_eq ⟨i / ROWS_PER_PAGE, i % ROWS_PER_PAGE * ROW_SIZE,
        i % ROWS_PER_PAGE * ROW_SIZE + ROW_SIZE⟩ p1 page hres
      have hll : (Slot.load ⟨i / ROWS_PER_PAGE, i % ROWS_PER_PAGE * ROW_SIZE,
          i % ROWS_PER_PAGE * ROW_SIZE + ROW_SIZE⟩ p1).length = 292 := by
        rw [hload, List.length_take, List.length_drop, hlen]
        simp only [ROW_SIZE_eq] at hb4 ⊢
        omega
      obtain ⟨r, hd⟩ := deserialize_row_total _ row (Nat.le_of_eq hll.symm)
      simp only [hs, hd]
      exact ih (i + 1) r _ _ hw1 (by omega) (by omega)

/-- After any sequence of at most `TABLE_MAX_ROWS` inserts into the table opened
on a new file, `db_close` succeeds, and `db_open` on the file it leaves gives a
table of 1402 rows on which `execute_select` halts in `get_page`. -/
theorem close_reopen_general (rows : List Row) (statement : Statement)
    (hlen : rows.length ≤ TABLE_MAX_ROWS) (hwt : ∀ r ∈ rows, r.WellTyped) :
    ∃ table closed, insert_rows rows (db_open none)
        = .ok (List.replicate rows.length .EXECUTE_SUCCESS, table) ∧
      table.num_rows = rows.length ∧ db_close table = .ok closed ∧
      (db_open (some closed.pager.file_descriptor)).num_rows = 1402 ∧
      execute_select statement (db_open (some closed.pager.file_descriptor))
        = .error .fatal_page_limit := by
  obtain ⟨t1, hins, hw1, hnum, hh⟩ := insert_rows_holds rows (db_open none) []
    (db_open_wellFormed none) db_open_none_num_rows
    (by rw [List.length_nil, Nat.zero_add]; exact hlen)
    (fun k r h => by rw [List.getElem?_nil] at h; cases h) hwt
  rw [List.nil_append] at hh
  rw [List.length_nil, Nat.zero_add] at hnum
  have hlast : 0 < t1.num_rows % ROWS_PER_PAGE →
      ∃ page, t1.pager.pages[t1.num_rows / ROWS_PER_PAGE]? = some (some page) := by
    intro hrem
    rw [hnum] at hrem ⊢
    have hpos : rows.length - 1 < rows.length := by
      rcases Nat.eq_zero_or_pos rows.length with h0 | h0
      · rw [h0] at hrem; simp at hrem
      · omega
    obtain ⟨page, _, hpage, _⟩ := hh (rows.length - 1) _ (List.getElem?_eq_getElem hpos)
    have hq : (rows.length - 1) / ROWS_PER_PAGE = rows.length / ROWS_PER_PAGE := by
      rw [ROWS_PER_PAGE_eq] at hrem ⊢
      omega
    rw [hq] at hpage
    exact ⟨page, hpage⟩
  obtain ⟨t2, hclose, _, hfl⟩ := db_close_length t1 hw1 (by rw [hnum]; exact hlen) hlast
  have hreopen := db_open_full_file t2.pager.file_descriptor hfl
  refine ⟨t1, t2, hins, hnum, hclose, hreopen, ?_⟩
  unfold execute_select
  rw [hreopen, if_neg (by decide)]
  rw [execute_select_loop_halts 1402 0 Row.zero _ [] (db_open_wellFormed _) (by decide)
    (by decide)]

/-! ## Close and reopen -/

/-- C2, the behaviour of the code at the failing input: after
`insert 1 user1 person1@example.com` into the table opened on a new file (row
count 1), `db_close` succeeds, but `db_open` on the same file gives a row count
of 1402 instead of 1, and `execute_select` on the reopened table halts in
`get_page` instead of printing the row. -/
theorem close_reopen_row_count :
    ∃ table closed, insert_rows [sampleRow1] (db_open none)
        = .ok ([.EXECUTE_SUCCESS], table) ∧
      table.num_rows = 1 ∧ db_close table = .ok closed ∧
      (db_open (some closed.pager.file_descriptor)).num_rows = 1402 ∧
      execute_select ⟨Row.zero, .STATEMENT_SELECT⟩ (db_open (some closed.pager.file_descriptor))
        = .error .fatal_page_limit :=
  close_reopen_general [sampleRow1] ⟨Row.zero, .STATEMENT_SELECT⟩ (by decide)
    (fun r hr => by rw [List.mem_singleton] at hr; rw [hr]; exact sampleRow1_wellTyped)

/-! ## Schema constants -/

/-- C17: `ROW_SIZE` is 292 with the id at offset 0, the username at offset 4 and
the email at offset 36; `ROWS_PER_PAGE` is `4096 / 292 = 14`, so 14 rows fit in a
page and leave 8 bytes unused; `TABLE_MAX_ROWS` is `100 * 14 = 1400`. -/
theorem schema_constants :
    ROW_SIZE = 292 ∧ ID_OFFSET = 0 ∧ USERNAME_OFFSET = 4 ∧ EMAIL_OFFSET = 36 ∧
      ID_OFFSET + ID_SIZE = USERNAME_OFFSET ∧ USERNAME_OFFSET + USERNAME_SIZE = EMAIL_OFFSET ∧
      EMAIL_OFFSET + EMAIL_SIZE = ROW_SIZE ∧
      ROWS_PER_PAGE = 4096 / 292 ∧ ROWS_PER_PAGE = 14 ∧
      ROWS_PER_PAGE * ROW_SIZE ≤ PAGE_SIZE ∧ PAGE_SIZE - ROWS_PER_PAGE * ROW_SIZE = 8 ∧
      TABLE_MAX_ROWS = 100 * 14 ∧ TABLE_MAX_ROWS = 1400 := by
  decide

/-! ## Lemmas: the page `get_page` hands out -/

theorem pageView_resident {p : Pager} {n : Nat} {pg : Page} (h : p.pages[n]? = some (some pg)) :
    pageView p n = pg := by
  unfold pageView
  rw [h]

/-- Whatever `get_page` returns is the page described by `pageView`. -/
theorem get_page_fst {p p1 : Pager} {n : Nat} {page : Page}
    (h : get_page p n = .ok (page, p1)) : page = pageView p n := by
  unfold get_page at h
  split at h
  · cases h
  · unfold pageView numPages
    rcases hpg : p.pages[n]? with _ | (_ | pg)
    · rw [hpg] at h
      cases h
    · rw [hpg] at h
      simp only at h ⊢
      generalize (if p.file_length % PAGE_SIZE ≠ 0 then u32 (p.file_length / PAGE_SIZE + 1)
        else p.file_length / PAGE_SIZE) = np at h ⊢
      by_cases hle : n ≤ np
      · rw [if_pos hle] at h ⊢
        unfold ReadAt at h
        split at h
        · cases h
        · next data hdata =>
          cases h
          split at hdata
          · cases hdata
            rfl
          · cases hdata
      · rw [if_neg hle] at h ⊢
        cases h
        rfl
    · rw [hpg] at h
      cases h
      rfl

theorem pageView_congr {p p1 : Pager} {q : Nat} (hp : p1.pages[q]? = p.pages[q]?)
    (hf : p1.file_descriptor = p.file_descriptor) (hl : p1.file_length = p.file_length) :
    pageView p1 q = pageView p q := by
  unfold pageView numPages
  rw [hp, hf, hl]

/-- The result of `get_page` on a well-formed pager in terms of `pageView`; pages
handed out later are the same as before the call. -/
theorem get_page_view (p : Pager) (n : Nat) (hw : p.WellFormed) (hn : n < TABLE_MAX_PAGES) :
    ∃ p1, get_page p n = .ok (pageView p n, p1) ∧ p1.WellFormed ∧
      p1.pages[n]? = some (some (pageView p n)) ∧
      p1.file_descriptor = p.file_descriptor ∧ p1.file_length = p.file_length ∧
      (∀ q : Nat, pageView p1 q = pageView p q) ∧
      (∀ (q : Nat) (pg : Page), p.pages[q]? = some (some pg) → p1.pages[q]? = some (some pg)) ∧
      (∀ q : Nat, q ≠ n → p1.pages[q]? = p.pages[q]?) := by
  obtain ⟨page, p1, hg, hw1, hres, hfd, hfl, hpres, hother⟩ := get_page_spec p n hw hn
  have hpage := get_page_fst hg
  subst hpage
  refine ⟨p1, hg, hw1, hres, hfd, hfl, ?_, hpres, hother⟩
  intro q
  by_cases hq : q = n
  · subst hq
    exact pageView_resident hres
  · exact pageView_congr (hother q hq) hfd hfl

theorem pageView_length (p : Pager) (n : Nat) (hw : p.WellFormed) (hn : n < TABLE_MAX_PAGES) :
    (pageView p n).data.length = PAGE_SIZE := by
  obtain ⟨p1, _, hw1, hres, _⟩ := get_page_view p n hw hn
  exact hw1.2.1 n _ hres

theorem rowView_length (p : Pager) (k : Nat) (hw : p.WellFormed) (hk : k < TABLE_MAX_ROWS) :
    (rowView p k).length = ROW_SIZE := by
  obtain ⟨hb1, _, _, hb4⟩ := slot_bounds k hk
  unfold rowView
  rw [List.length_take, List.length_drop, pageView_length p _ hw hb1]
  omega

/-- The result of `row_slot` on a well-formed table in terms of `rowView`. -/
theorem row_slot_view (t : Table) (k : Nat) (hw : t.pager.WellFormed) (hk : k < TABLE_MAX_ROWS) :
    ∃ slot p1, row_slot t k = .ok (slot, { t with pager := p1 }) ∧
      slot.load p1 = rowView t.pager k ∧ p1.WellFormed ∧
      p1.file_descriptor = t.pager.file_descriptor ∧ p1.file_length = t.pager.file_length ∧
      (∀ q : Nat, pageView p1 q = pageView t.pager q) ∧
      (∀ (q : Nat) (pg : Page), t.pager.pages[q]? = some (some pg) →
        p1.pages[q]? = some (some pg)) := by
  obtain ⟨hb1, _, _, _⟩ := slot_bounds k hk
  obtain ⟨page, p1, hg, hs, hw1, hres, _⟩ := row_slot_spec t k hw hk
  obtain ⟨p2, hg2, _, _, hfd, hfl, hview, hpres, _⟩ := get_page_view t.pager _ hw hb1
  rw [hg] at hg2
  cases hg2
  refine ⟨_, p1, hs, ?_, hw1, hfd, hfl, hview, hpres⟩
  rw [Slot_load_eq _ p1 _ hres]
  simp only [Nat.add_sub_cancel_left]
  rfl

/-! ## Lemmas: select on any well-formed table -/

/-- Decoding a window of at least 292 bytes succeeds, and the decoded row does
not depend on the previous content of the destination row. -/
theorem deserialize_row_any (src : List Byte) (h : 292 ≤ src.length) :
    ∃ r : Row, r.WellTyped ∧
      ∀ row : Row, row.WellTyped → deserialize_row src row = some r := by
  have e0 : slice src 0 4 = some ((src.drop 0).take (4 - 0)) := slice_eq_some (by omega) (by omega)
  have l0 := slice_length e0
  generalize (src.drop 0).take (4 - 0) = s0 at e0 l0
  have e1 : slice src 4 36 = some ((src.drop 4).take (36 - 4)) :=
    slice_eq_some (by omega) (by omega)
  have l1 := slice_length e1
  generalize (src.drop 4).take (36 - 4) = s1 at e1 l1
  have e2 : slice src 36 292 = some ((src.drop 36).take (292 - 36)) :=
    slice_eq_some (by omega) (by omega)
  have l2 := slice_length e2
  generalize (src.drop 36).take (292 - 36) = s2 at e2 l2
  rcases s0 with _ | ⟨a, _ | ⟨b, _ | ⟨c, _ | ⟨d, rest⟩⟩⟩⟩
  · cases l0
  · cases l0
  · cases l0
  · cases l0
  · refine ⟨⟨u32 (a ||| (b <<< 8) ||| (c <<< 16) ||| (d <<< 24)), s1, s2⟩, ?_, ?_⟩
    · exact ⟨Nat.mod_lt _ (by decide), l1, l2⟩
    · rintro row ⟨_, hu, he⟩
      simp only [COLUMN_USERNAME_SIZE, COLUMN_EMAIL_SIZE] at hu he
      simp only [deserialize_row, ID_OFFSET, ID_SIZE, USERNAME_OFFSET, USERNAME_SIZE,
        EMAIL_OFFSET, EMAIL_SIZE, COLUMN_USERNAME_SIZE, COLUMN_EMAIL_SIZE, Nat.zero_add,
        Nat.reduceAdd, e0, e1, e2, Uint32]
      rw [copy_eq_src _ _ (by omega), copy_eq_src _ _ (by omega)]

theorem rowView_congr {p p1 : Pager} (h : ∀ q : Nat, pageView p1 q = pageView p q) (k : Nat) :
    rowView p1 k = rowView p k := by
  unfold rowView
  rw [h]

/-- The loop of `execute_select` on a well-formed table, for indices below the
capacity: one line per index, decoded from the window of that row. -/
theorem execute_select_loop_view (m : Nat) : ∀ (i : Nat) (row : Row) (t : Table)
    (out : List Printed), t.pager.WellFormed → row.WellTyped → i + m ≤ TABLE_MAX_ROWS →
    ∃ out1 t1, execute_select_loop m i row t out = .ok (out ++ out1, t1) ∧
      out1.length = m ∧ t1.pager.WellFormed ∧ t1.num_rows = t.num_rows ∧
      t1.pager.file_descriptor = t.pager.file_descriptor ∧
      t1.pager.file_length = t.pager.file_length ∧
      (∀ q : Nat, pageView t1.pager q = pageView t.pager q) ∧
      (∀ (q : Nat) (pg : Page), t.pager.pages[q]? = some (some pg) →
        t1.pager.pages[q]? = some (some pg)) ∧
      ∀ j : Nat, j < m → ∃ r : Row,
        (∀ row1 : Row, row1.WellTyped →
          deserialize_row (rowView t.pager (i + j)) row1 = some r) ∧
        out1[j]? = some r.printed := by
  induction m with
  | zero =>
    intro i row t out hw _ _
    refine ⟨[], t, ?_, rfl, hw, rfl, rfl, rfl, fun _ => rfl, fun _ _ h => h, ?_⟩
    · rw [execute_select_loop, List.append_nil]
    · intro j hj; omega
  | succ m ih =>
    intro i row t out hw hrow him
    have hi : i < TABLE_MAX_ROWS := by omega
    have hu : u32 i = i := u32_of_lt (by rw [TABLE_MAX_ROWS_eq] at hi; omega)
    obtain ⟨slot, p1, hs, hload, hw1, hfd, hfl, hview, hpres⟩ := row_slot_view t i hw hi
    have hlen := rowView_length t.pager i hw hi
    obtain ⟨r, hr, hdec⟩ := deserialize_row_any (rowView t.pager i)
      (by rw [hlen, ROW_SIZE_eq])
    obtain ⟨out1, t1, hloop, hl1, hwt1, hn1, hfd1, hfl1, hview1, hpres1, hrows⟩ :=
      ih (i + 1) r { t with pager := p1 } (out ++ [r.printed]) hw1 hr (by omega)
    refine ⟨r.printed :: out1, t1, ?_, ?_, hwt1, hn1, hfd1.trans hfd, hfl1.trans hfl, ?_, ?_, ?_⟩
    · rw [execute_select_loop]
      simp only [hu, hs, hload, hdec row hrow]
      rw [List.append_assoc, List.singleton_append] at hloop
      exact hloop
    · rw [List.length_cons, hl1]
    · intro q
      rw [hview1 q]
      exact hview q
    · intro q pg hq
      exact hpres1 q pg (hpres q pg hq)
    · intro j hj
      rcases j with _ | j
      · exact ⟨r, hdec, List.getElem?_cons_zero⟩
      · obtain ⟨r1, hd1, ho1⟩ := hrows j (by omega)
        refine ⟨r1, ?_, ?_⟩
        · intro row1 hrow1
          have := hd1 row1 hrow1
          rw [rowView_congr hview] at this
          rw [← this]
          congr 2
          omega
        · rw [List.getElem?_cons_succ]
          exact ho1

/-- `execute_select` on a well-formed table of at most `TABLE_MAX_ROWS` rows. -/
theorem execute_select_view (st : Statement) (t : Table) (hw : t.pager.WellFormed)
    (hn : t.num_rows ≤ TABLE_MAX_ROWS) :
    ∃ out t1, execute_select st t = .ok (.EXECUTE_SUCCESS, out, t1) ∧
      out.length = t.num_rows ∧ t1.pager.WellFormed ∧ t1.num_rows = t.num_rows ∧
      t1.pager.file_descriptor = t.pager.file_descriptor ∧
      t1.pager.file_length = t.pager.file_length ∧
      (∀ q : Nat, pageView t1.pager q = pageView t.pager q) ∧
      (∀ (q : Nat) (pg : Page), t.pager.pages[q]? = some (some pg) →
        t1.pager.pages[q]? = some (some pg)) ∧
      ∀ k : Nat, k < t.num_rows → ∃ r : Row,
        (∀ row1 : Row, row1.WellTyped →
          deserialize_row (rowView t.pager k) row1 = some r) ∧
        out[k]? = some r.printed := by
  unfold execute_select
  by_cases h0 : t.num_rows = 0
  · rw [if_pos h0]
    refine ⟨[], t, rfl, by rw [h0]; rfl, hw, rfl, rfl, rfl, fun _ => rfl, fun _ _ h => h, ?_⟩
    intro k hk
    omega
  · rw [if_neg h0]
    obtain ⟨out1, t1, hloop, hl1, hwt1, hn1, hfd1, hfl1, hview1, hpres1, hrows⟩ :=
      execute_select_loop_view t.num_rows 0 Row.zero t [] hw zero_wellTyped (by omega)
    rw [List.nil_append] at hloop
    simp only [hloop]
    refine ⟨out1, t1, rfl, hl1, hwt1, hn1, hfd1, hfl1, hview1, hpres1, ?_⟩
    intro k hk
    obtain ⟨r, hd, ho⟩ := hrows k hk
    rw [Nat.zero_add] at hd
    exact ⟨r, hd, ho⟩

/-! ## Lemmas: the sample tables -/

theorem sampleTable_wellFormed : sampleTable.pager.WellFormed := by
  refine ⟨?_, ?_, ?_⟩
  · simp only [sampleTable, List.length_cons, List.length_replicate]
    rfl
  · intro q page h
    rcases q with _ | _ | q
    · simp only [sampleTable, List.getElem?_cons_zero] at h
      cases h
      simp only [List.length_replicate]
      rfl
    · simp only [sampleTable, List.getElem?_cons_succ, List.getElem?_cons_zero] at h
      cases h
      simp only [List.length_replicate]
      rfl
    · simp only [sampleTable, List.getElem?_cons_succ, List.getElem?_replicate] at h
      split at h <;> cases h
  · simp only [sampleTable, List.length_replicate]
    rfl

theorem sampleTableSkip_wellFormed : sampleTableSkip.pager.WellFormed := by
  refine ⟨?_, ?_, ?_⟩
  · simp only [sampleTableSkip, List.length_cons, List.length_replicate]
    rfl
  · intro q page h
    rcases q with _ | _ | q
    · simp only [sampleTableSkip, List.getElem?_cons_zero] at h
      cases h
    · simp only [sampleTableSkip, List.getElem?_cons_succ, List.getElem?_cons_zero] at h
      cases h
      simp only [List.length_replicate]
      rfl
    · simp only [sampleTableSkip, List.getElem?_cons_succ, List.getElem?_replicate] at h
      split at h <;> cases h
  · simp only [sampleTableSkip, List.length_replicate]
    rfl

/-! ## Select -/

/-- Counterexample to C11 as stated: on the table opened on a file of 409600
bytes, whose row count is 1402, `execute_select` does not produce 1402 lines; it
halts in `get_page` at row 1400. -/
theorem execute_select_not_total :
    ¬ ∀ (statement : Statement) (table : Table), table.pager.WellFormed →
      ∃ out table1, execute_select statement table = .ok (.EXECUTE_SUCCESS, out, table1) ∧
        out.length = table.num_rows := by
  intro h
  obtain ⟨out, t1, hsel, _⟩ := h ⟨Row.zero, .STATEMENT_SELECT⟩
    (db_open (some (List.replicate 409600 0))) (db_open_wellFormed _)
  have hnum : (db_open (some (List.replicate 409600 0))).num_rows = 1402 :=
    db_open_full_file _ (by rw [List.length_replicate]; rfl)
  unfold execute_select at hsel
  rw [hnum, if_neg (by decide),
    execute_select_loop_halts 1402 0 Row.zero _ [] (db_open_wellFormed _) (by decide)
      (by decide)] at hsel
  cases hsel

/-- C11, amended: for every table with row count `n` at most `TABLE_MAX_ROWS`,
`execute_select` returns `EXECUTE_SUCCESS` and prints exactly `n` lines, the
`k`-th (for `k` from 0 to `n - 1`, in ascending order) being the row that
`deserialize_row` decodes from the window `row_slot k`; no row is skipped. -/
theorem execute_select_enumerates (statement : Statement) (table : Table)
    (hw : table.pager.WellFormed) (hn : table.num_rows ≤ TABLE_MAX_ROWS) :
    ∃ out table1, execute_select statement table = .ok (.EXECUTE_SUCCESS, out, table1) ∧
      out.length = table.num_rows ∧
      ∀ k : Nat, k < table.num_rows → ∃ slot tablek r,
        row_slot table k = .ok (slot, tablek) ∧
        (∀ row : Row, row.WellTyped →
          deserialize_row (slot.load tablek.pager) row = some r) ∧
        out[k]? = some r.printed := by
  obtain ⟨out, t1, hsel, hlen, _, _, _, _, _, _, hrows⟩ :=
    execute_select_view statement table hw hn
  refine ⟨out, t1, hsel, hlen, ?_⟩
  intro k hk
  obtain ⟨r, hd, ho⟩ := hrows k hk
  obtain ⟨slot, p1, hs, hload, _⟩ := row_slot_view table k hw (by omega)
  refine ⟨slot, _, r, hs, ?_, ho⟩
  intro row hrow
  show deserialize_row (slot.load p1) row = some r
  rw [hload]
  exact hd row hrow

/-- Witness of the amended C11: the sample table of 15 rows. -/
theorem execute_select_enumerates_witness :
    sampleTable.pager.WellFormed ∧ sampleTable.num_rows ≤ TABLE_MAX_ROWS ∧
    ∃ out table1, execute_select ⟨Row.zero, .STATEMENT_SELECT⟩ sampleTable
        = .ok (.EXECUTE_SUCCESS, out, table1) ∧
      out.length = sampleTable.num_rows ∧
      ∀ k : Nat, k < sampleTable.num_rows → ∃ slot tablek r,
        row_slot sampleTable k = .ok (slot, tablek) ∧
        (∀ row : Row, row.WellTyped →
          deserialize_row (slot.load tablek.pager) row = some r) ∧
        out[k]? = some r.printed :=
  ⟨sampleTable_wellFormed, by decide,
    execute_select_enumerates ⟨Row.zero, .STATEMENT_SELECT⟩ sampleTable sampleTable_wellFormed
      (by decide)⟩

/-! ## Lemmas: what close writes -/

theorem WriteAt_getElem? (file b : List Byte) (off j : Nat) (h : off + b.length ≤ file.length) :
    (WriteAt file b off)[j]? =
      if off ≤ j ∧ j < off + b.length then b[j - off]? else file[j]? := by
  have hrep : off - file.length = 0 := by omega
  have htl : (file.take off).length = off := by rw [List.length_take]; omega
  simp only [WriteAt, hrep, List.replicate_zero, List.append_nil]
  by_cases h1 : j < off
  · rw [if_neg (by omega), List.append_assoc, List.getElem?_append_left (by omega),
      List.getElem?_take_of_lt h1]
  · by_cases h2 : j < off + b.length
    · rw [if_pos ⟨by omega, h2⟩,
        List.getElem?_append_left (by rw [List.length_append, htl]; exact h2),
        List.getElem?_append_right (by omega), htl]
    · rw [if_neg (by omega),
        List.getElem?_append_right (by rw [List.length_append, htl]; omega),
        List.length_append, htl, List.getElem?_drop]
      congr 1
      omega

theorem slice_eq_of_getElem? {f s : List Byte} {lo hi : Nat} (h1 : lo ≤ hi)
    (h2 : hi ≤ f.length) (hs : s.length = hi - lo)
    (h : ∀ j : Nat, j < hi - lo → f[lo + j]? = s[j]?) : slice f lo hi = some s := by
  rw [slice_eq_some h1 h2]
  congr 1
  apply List.ext_getElem?
  intro j
  by_cases hj : j < hi - lo
  · rw [List.getElem?_take_of_lt hj, List.getElem?_drop]
    exact h j hj
  · rw [List.getElem?_eq_none (by rw [List.length_take, List.length_drop]; omega),
      List.getElem?_eq_none (by omega)]

/-- The page loop of `db_close` over the page numbers `i` to `i + k - 1`: every
resident page is written at its offset, no other byte of the file changes. -/
theorem db_close_loop_spec (p : Pager) (hw : p.WellFormed) : ∀ (k i : Nat) (f : List Byte),
    i + k ≤ TABLE_MAX_PAGES → f.length = PAGE_SIZE * TABLE_MAX_PAGES →
    ∃ f1, db_close_loop p.pages k i f = .ok f1 ∧ f1.length = PAGE_SIZE * TABLE_MAX_PAGES ∧
      (∀ j : Nat, j < i * PAGE_SIZE ∨ (i + k) * PAGE_SIZE ≤ j → f1[j]? = f[j]?) ∧
      (∀ (q : Nat) (pg : Page), i ≤ q → q < i + k → p.pages[q]? = some (some pg) →
        ∀ j : Nat, j < PAGE_SIZE → f1[q * PAGE_SIZE + j]? = pg.data[j]?) ∧
      (∀ q : Nat, i ≤ q → q < i + k → p.pages[q]? = some none →
        ∀ j : Nat, q * PAGE_SIZE ≤ j → j < (q + 1) * PAGE_SIZE → f1[j]? = f[j]?) := by
  intro k
  induction k with
  | zero =>
    intro i f _ hf
    exact ⟨f, rfl, hf, fun _ _ => rfl, fun q _ h1 h2 => by omega, fun q h1 h2 => by omega⟩
  | succ k ih =>
    intro i f hik hf
    rw [db_close_loop]
    rw [TABLE_MAX_PAGES_eq] at hik
    rcases hpg : p.pages[i]? with _ | (_ | page)
    · rw [List.getElem?_eq_none_iff, hw.1, TABLE_MAX_PAGES_eq] at hpg
      omega
    · obtain ⟨f1, hloop, hl1, hout, hwr, hnil⟩ := ih (i + 1) f
        (by rw [TABLE_MAX_PAGES_eq]; omega) hf
      refine ⟨f1, hloop, hl1, ?_, ?_, ?_⟩
      · intro j hj
        apply hout
        rw [PAGE_SIZE_eq] at hj ⊢
        omega
      · intro q pg h1 h2 hq j hj
        by_cases hqi : q = i
        · subst hqi
          rw [hpg] at hq
          cases hq
        · exact hwr q pg (by omega) (by omega) hq j hj
      · intro q h1 h2 hq j hj1 hj2
        by_cases hqi : q = i
        · subst hqi
          apply hout
          left
          exact hj2
        · exact hnil q (by omega) (by omega) hq j hj1 hj2
    · have hl := hw.2.1 i page hpg
      have hfit : i * PAGE_SIZE + page.data.length ≤ f.length := by
        rw [hf, hl, PAGE_SIZE_eq, TABLE_MAX_PAGES_eq]
        omega
      obtain ⟨f1, hloop, hl1, hout, hwr, hnil⟩ := ih (i + 1)
        (WriteAt f page.data (i * PAGE_SIZE)) (by rw [TABLE_MAX_PAGES_eq]; omega)
        (by rw [WriteAt_length _ _ _ hfit, hf])
      refine ⟨f1, hloop, hl1, ?_, ?_, ?_⟩
      · intro j hj
        rw [hout j (by rw [PAGE_SIZE_eq] at hj ⊢; omega), WriteAt_getElem? _ _ _ _ hfit,
          if_neg (by rw [hl]; rw [PAGE_SIZE_eq] at hj ⊢; omega)]
      · intro q pg h1 h2 hq j hj
        by_cases hqi : q = i
        · subst hqi
          rw [hpg] at hq
          cases hq
          rw [hout _ (by left; rw [PAGE_SIZE_eq] at hj ⊢; omega),
            WriteAt_getElem? _ _ _ _ hfit, if_pos ⟨by omega, by rw [hl]; omega⟩,
            Nat.add_sub_cancel_left]
        · exact hwr q pg (by omega) (by omega) hq j hj
      · intro q h1 h2 hq j hj1 hj2
        by_cases hqi : q = i
        · subst hqi
          rw [hpg] at hq
          cases hq
        · rw [hnil q (by omega) (by omega) hq j hj1 hj2, WriteAt_getElem? _ _ _ _ hfit,
            if_neg]
          rw [hl]
          have hqi2 : i + 1 ≤ q := by omega
          have : (i + 1) * PAGE_SIZE ≤ q * PAGE_SIZE := Nat.mul_le_mul_right _ hqi2
          rw [PAGE_SIZE_eq] at this hj1 ⊢
          omega

/-- On a well-formed table of at most `TABLE_MAX_ROWS` rows whose last, partly
filled page is resident, `db_close` returns; it writes the resident full pages
and the rows of the last page and changes no other byte of the file. -/
theorem db_close_spec (t : Table) (hw : t.pager.WellFormed) (hn : t.num_rows ≤ TABLE_MAX_ROWS)
    (hlast : 0 < t.num_rows % ROWS_PER_PAGE →
      ∃ page, t.pager.pages[t.num_rows / ROWS_PER_PAGE]? = some (some page)) :
    ∃ t1, db_close t = .ok t1 ∧ t1.num_rows = t.num_rows ∧
      t1.pager.pages = t.pager.pages ∧ t1.pager.file_length = t.pager.file_length ∧
      t1.pager.file_descriptor.length = PAGE_SIZE * TABLE_MAX_PAGES ∧
      (∀ (q : Nat) (pg : Page), q < t.num_rows / ROWS_PER_PAGE →
        t.pager.pages[q]? = some (some pg) →
        ∀ j : Nat, j < PAGE_SIZE → t1.pager.file_descriptor[q * PAGE_SIZE + j]? = pg.data[j]?) ∧
      (∀ pg : Page, 0 < t.num_rows % ROWS_PER_PAGE →
        t.pager.pages[t.num_rows / ROWS_PER_PAGE]? = some (some pg) →
        ∀ j : Nat, j < t.num_rows % ROWS_PER_PAGE * ROW_SIZE →
          t1.pager.file_descriptor[t.num_rows / ROWS_PER_PAGE * PAGE_SIZE + j]? = pg.data[j]?) ∧
      (∀ j : Nat, t.num_rows / ROWS_PER_PAGE * PAGE_SIZE +
          t.num_rows % ROWS_PER_PAGE * ROW_SIZE ≤ j →
        t1.pager.file_descriptor[j]? = t.pager.file_descriptor[j]?) ∧
      (∀ q : Nat, q < t.num_rows / ROWS_PER_PAGE → t.pager.pages[q]? = some none →
        ∀ j : Nat, q * PAGE_SIZE ≤ j → j < (q + 1) * PAGE_SIZE →
          t1.pager.file_descriptor[j]? = t.pager.file_descriptor[j]?) := by
  have hfull : t.num_rows / ROWS_PER_PAGE ≤ TABLE_MAX_PAGES := by
    rw [TABLE_MAX_ROWS_eq] at hn
    rw [ROWS_PER_PAGE_eq, TABLE_MAX_PAGES_eq]
    omega
  obtain ⟨f1, hloop, hf1, hout, hwr, hnil⟩ := db_close_loop_spec t.pager hw
    (t.num_rows / ROWS_PER_PAGE) 0 t.pager.file_descriptor (by omega) hw.2.2
  simp only [Nat.zero_add] at hout hwr hnil
  unfold db_close
  simp only [hloop]
  by_cases hrem : t.num_rows % ROWS_PER_PAGE > 0
  · rw [if_pos hrem]
    obtain ⟨page, hpage⟩ := hlast hrem
    have hl := hw.2.1 _ page hpage
    have hmod : t.num_rows % ROWS_PER_PAGE < ROWS_PER_PAGE :=
      Nat.mod_lt _ (by rw [ROWS_PER_PAGE_eq]; omega)
    have hdiv : t.num_rows / ROWS_PER_PAGE < TABLE_MAX_PAGES := by
      rw [TABLE_MAX_ROWS_eq] at hn
      rw [ROWS_PER_PAGE_eq] at hrem ⊢
      rw [TABLE_MAX_PAGES_eq]
      omega
    generalize hF : t.num_rows / ROWS_PER_PAGE = F at *
    generalize hm : t.num_rows % ROWS_PER_PAGE = m at *
    rw [ROWS_PER_PAGE_eq] at hmod
    rw [TABLE_MAX_PAGES_eq] at hdiv hfull
    have hu1 : u32 (m * ROW_SIZE) = m * ROW_SIZE := by
      rw [ROW_SIZE_eq]
      exact u32_of_lt (by omega)
    have hu2 : u32 (F * PAGE_SIZE) = F * PAGE_SIZE := by
      rw [PAGE_SIZE_eq]
      exact u32_of_lt (by omega)
    have hsl := @slice_eq_some page.data 0 (m * ROW_SIZE) (by omega)
      (by rw [hl, ROW_SIZE_eq, PAGE_SIZE_eq]; omega)
    have hbl := slice_length hsl
    rw [List.drop_zero, Nat.sub_zero] at hsl hbl
    have hfit : F * PAGE_SIZE + (page.data.take (m * ROW_SIZE)).length ≤ f1.length := by
      rw [hbl, hf1, ROW_SIZE_eq, PAGE_SIZE_eq, TABLE_MAX_PAGES_eq]
      omega
    simp only [hpage, hu1, hu2, hsl]
    refine ⟨_, rfl, rfl, rfl, rfl, ?_, ?_, ?_, ?_, ?_⟩
    · show (WriteAt f1 _ _).length = _
      rw [WriteAt_length _ _ _ hfit, hf1]
    · intro q pg hq hpg j hj
      show (WriteAt f1 _ _)[q * PAGE_SIZE + j]? = _
      rw [WriteAt_getElem? _ _ _ _ hfit, if_neg, hwr q pg (by omega) hq hpg j hj]
      have : (q + 1) * PAGE_SIZE ≤ F * PAGE_SIZE := Nat.mul_le_mul_right _ hq
      rw [PAGE_SIZE_eq] at this hj ⊢
      omega
    · intro pg _ hpg j hj
      cases hpg
      show (WriteAt f1 _ _)[F * PAGE_SIZE + j]? = _
      rw [WriteAt_getElem? _ _ _ _ hfit, if_pos ⟨by omega, by rw [hbl]; omega⟩,
        Nat.add_sub_cancel_left, List.getElem?_take_of_lt hj]
    · intro j hj
      show (WriteAt f1 _ _)[j]? = _
      rw [WriteAt_getElem? _ _ _ _ hfit, if_neg (by rw [hbl]; omega),
        hout j (by right; omega)]
    · intro q hq hpg j hj1 hj2
      show (WriteAt f1 _ _)[j]? = _
      rw [WriteAt_getElem? _ _ _ _ hfit, if_neg, hnil q (by omega) hq hpg j hj1 hj2]
      have : (q + 1) * PAGE_SIZE ≤ F * PAGE_SIZE := Nat.mul_le_mul_right _ hq
      omega
  · rw [if_neg hrem]
    have hm0 : t.num_rows % ROWS_PER_PAGE = 0 := by omega
    refine ⟨_, rfl, rfl, rfl, rfl, hf1, ?_, ?_, ?_, ?_⟩
    · intro q pg hq hpg j hj
      exact hwr q pg (by omega) hq hpg j hj
    · intro pg hpos
      omega
    · intro j hj
      rw [hm0, Nat.zero_mul, Nat.add_zero] at hj
      exact hout j (by right; exact hj)
    · intro q hq hpg j hj1 hj2
      exact hnil q (by omega) hq hpg j hj1 hj2

theorem db_close_empty (t : Table) (h : t.num_rows = 0) : db_close t = .ok t := by
  unfold db_close
  simp only [h, Nat.zero_div, Nat.zero_mod, db_close_loop, gt_iff_lt, Nat.lt_irrefl, if_false]
  rw [← h]

/-- When rows are left over for a last page that is not resident, `db_close`
halts with its fatal error for a nil page. -/
theorem db_close_nil_last (t : Table) (hw : t.pager.WellFormed) (hn : t.num_rows ≤ TABLE_MAX_ROWS)
    (hrem : 0 < t.num_rows % ROWS_PER_PAGE)
    (hnil : t.pager.pages[t.num_rows / ROWS_PER_PAGE]? = some none) :
    db_close t = .error .fatal_nil_page := by
  have hfull : t.num_rows / ROWS_PER_PAGE ≤ TABLE_MAX_PAGES := by
    rw [TABLE_MAX_ROWS_eq] at hn
    rw [ROWS_PER_PAGE_eq, TABLE_MAX_PAGES_eq]
    omega
  obtain ⟨f1, hloop, _⟩ := db_close_loop_spec t.pager hw
    (t.num_rows / ROWS_PER_PAGE) 0 t.pager.file_descriptor (by omega) hw.2.2
  unfold db_close
  simp only [hloop, hnil]
  rw [if_pos hrem]

/-! ## Close -/

/-- C12: after `db_close` on a table with row count `n` (which returns when `n`
is at most `TABLE_MAX_ROWS` and the last, partly filled page is resident), for
every resident page `p < n / ROWS_PER_PAGE` the file bytes
`[p * 4096, (p + 1) * 4096)` are the 4096 bytes of that page; if
`m = n mod ROWS_PER_PAGE` is positive the file bytes `[F * 4096, F * 4096 + m * 292)`
with `F = n / ROWS_PER_PAGE` are the first `m * 292` bytes of page `F`; hence every
row `i < n` of a resident page is in the file at offset
`(i / 14) * 4096 + (i mod 14) * 292`. -/
theorem db_close_writes (table : Table) (hw : table.pager.WellFormed)
    (hn : table.num_rows ≤ TABLE_MAX_ROWS)
    (hlast : 0 < table.num_rows % ROWS_PER_PAGE →
      ∃ page, table.pager.pages[table.num_rows / ROWS_PER_PAGE]? = some (some page)) :
    ∃ table1, db_close table = .ok table1 ∧
      (∀ (p : Nat) (page : Page), p < table.num_rows / ROWS_PER_PAGE →
        table.pager.pages[p]? = some (some page) →
        slice table1.pager.file_descriptor (p * 4096) ((p + 1) * 4096) = some page.data) ∧
      (∀ page : Page, 0 < table.num_rows % ROWS_PER_PAGE →
        table.pager.pages[table.num_rows / ROWS_PER_PAGE]? = some (some page) →
        slice table1.pager.file_descriptor (table.num_rows / ROWS_PER_PAGE * 4096)
            (table.num_rows / ROWS_PER_PAGE * 4096 + table.num_rows % ROWS_PER_PAGE * 292)
          = slice page.data 0 (table.num_rows % ROWS_PER_PAGE * 292)) ∧
      (∀ (i : Nat) (page : Page), i < table.num_rows →
        table.pager.pages[i / 14]? = some (some page) →
        slice table1.pager.file_descriptor (i / 14 * 4096 + i % 14 * 292)
            (i / 14 * 4096 + i % 14 * 292 + 292)
          = slice page.data (i % 14 * 292) (i % 14 * 292 + 292)) := by
  obtain ⟨t1, hclose, _, _, _, hlen, hfullp, hlastp, _, _⟩ := db_close_spec table hw hn hlast
  rw [PAGE_SIZE_eq, TABLE_MAX_PAGES_eq] at hlen
  rw [TABLE_MAX_ROWS_eq] at hn
  simp only [ROWS_PER_PAGE_eq, ROW_SIZE_eq, PAGE_SIZE_eq] at hfullp hlastp hlast ⊢
  refine ⟨t1, hclose, ?_, ?_, ?_⟩
  · intro p page hp hpage
    have hl : page.data.length = 4096 := hw.2.1 p page hpage
    apply slice_eq_of_getElem? (by omega) (by omega) (by omega)
    intro j hj
    exact hfullp p page hp hpage j (by omega)
  · intro page hpos hpage
    have hl : page.data.length = 4096 := hw.2.1 _ page hpage
    rw [@slice_eq_some page.data 0 (table.num_rows % 14 * 292) (by omega) (by omega)]
    apply slice_eq_of_getElem? (by omega) (by omega)
      (by rw [List.length_take, List.length_drop]; omega)
    intro j hj
    rw [List.drop_zero, Nat.sub_zero, List.getElem?_take_of_lt (by omega)]
    exact hlastp page hpos hpage j (by omega)
  · intro i page hi hpage
    have hl : page.data.length = 4096 := hw.2.1 _ page hpage
    rw [@slice_eq_some page.data (i % 14 * 292) (i % 14 * 292 + 292) (by omega) (by omega)]
    apply slice_eq_of_getElem? (by omega) (by omega)
      (by rw [List.length_take, List.length_drop]; omega)
    intro j hj
    rw [List.getElem?_take_of_lt (by omega), List.getElem?_drop]
    by_cases hq : i / 14 < table.num_rows / 14
    · rw [Nat.add_assoc]
      exact hfullp _ page hq hpage (i % 14 * 292 + j) (by omega)
    · have hqe : i / 14 = table.num_rows / 14 := by omega
      rw [hqe] at hpage ⊢
      rw [Nat.add_assoc]
      exact hlastp page (by omega) hpage (i % 14 * 292 + j) (by omega)

/-- Witness of C12: closing the sample table of 15 rows, pages 0 and 1 resident. -/
theorem db_close_writes_witness :
    sampleTable.pager.WellFormed ∧ sampleTable.num_rows ≤ TABLE_MAX_ROWS ∧
    (0 < sampleTable.num_rows % ROWS_PER_PAGE →
      ∃ page, sampleTable.pager.pages[sampleTable.num_rows / ROWS_PER_PAGE]?
        = some (some page)) ∧
    ∃ table1, db_close sampleTable = .ok table1 ∧
      (∀ (p : Nat) (page : Page), p < sampleTable.num_rows / ROWS_PER_PAGE →
        sampleTable.pager.pages[p]? = some (some page) →
        slice table1.pager.file_descriptor (p * 4096) ((p + 1) * 4096) = some page.data) ∧
      (∀ page : Page, 0 < sampleTable.num_rows % ROWS_PER_PAGE →
        sampleTable.pager.pages[sampleTable.num_rows / ROWS_PER_PAGE]? = some (some page) →
        slice table1.pager.file_descriptor (sampleTable.num_rows / ROWS_PER_PAGE * 4096)
            (sampleTable.num_rows / ROWS_PER_PAGE * 4096
              + sampleTable.num_rows % ROWS_PER_PAGE * 292)
          = slice page.data 0 (sampleTable.num_rows % ROWS_PER_PAGE * 292)) ∧
      (∀ (i : Nat) (page : Page), i < sampleTable.num_rows →
        sampleTable.pager.pages[i / 14]? = some (some page) →
        slice table1.pager.file_descriptor (i / 14 * 4096 + i % 14 * 292)
            (i / 14 * 4096 + i % 14 * 292 + 292)
          = slice page.data (i % 14 * 292) (i % 14 * 292 + 292)) :=
  ⟨sampleTable_wellFormed, by decide, fun _ => ⟨_, rfl⟩,
    db_close_writes sampleTable sampleTable_wellFormed (by decide) (fun _ => ⟨_, rfl⟩)⟩

/-- C13: `db_close` on a table with row count `n` (which returns when `n` is at
most `TABLE_MAX_ROWS` and the last, partly filled page is resident) keeps the
size of the file and leaves unchanged every file byte at an offset of at least
`(n / ROWS_PER_PAGE) * 4096 + (n mod ROWS_PER_PAGE) * 292`; for an empty table
(`n = 0`) nothing is written: the table, file included, is returned as it was. -/
theorem db_close_frame (table : Table) (hw : table.pager.WellFormed)
    (hn : table.num_rows ≤ TABLE_MAX_ROWS)
    (hlast : 0 < table.num_rows % ROWS_PER_PAGE →
      ∃ page, table.pager.pages[table.num_rows / ROWS_PER_PAGE]? = some (some page)) :
    ∃ table1, db_close table = .ok table1 ∧
      table1.pager.file_descriptor.length = table.pager.file_descriptor.length ∧
      (∀ j : Nat, table.num_rows / ROWS_PER_PAGE * 4096
          + table.num_rows % ROWS_PER_PAGE * 292 ≤ j →
        table1.pager.file_descriptor[j]? = table.pager.file_descriptor[j]?) ∧
      (table.num_rows = 0 → table1 = table) := by
  obtain ⟨t1, hclose, _, _, _, hlen, _, _, hout, _⟩ := db_close_spec table hw hn hlast
  refine ⟨t1, hclose, by rw [hlen, hw.2.2], ?_, ?_⟩
  · intro j hj
    apply hout
    rw [PAGE_SIZE_eq, ROW_SIZE_eq]
    exact hj
  · intro h0
    rw [db_close_empty table h0] at hclose
    cases hclose
    rfl

/-- Witness of C13: closing the sample table of 15 rows. -/
theorem db_close_frame_witness :
    sampleTable.pager.WellFormed ∧ sampleTable.num_rows ≤ TABLE_MAX_ROWS ∧
    (0 < sampleTable.num_rows % ROWS_PER_PAGE →
      ∃ page, sampleTable.pager.pages[sampleTable.num_rows / ROWS_PER_PAGE]?
        = some (some page)) ∧
    ∃ table1, db_close sampleTable = .ok table1 ∧
      table1.pager.file_descriptor.length = sampleTable.pager.file_descriptor.length ∧
      (∀ j : Nat, sampleTable.num_rows / ROWS_PER_PAGE * 4096
          + sampleTable.num_rows % ROWS_PER_PAGE * 292 ≤ j →
        table1.pager.file_descriptor[j]? = sampleTable.pager.file_descriptor[j]?) ∧
      (sampleTable.num_rows = 0 → table1 = sampleTable) :=
  ⟨sampleTable_wellFormed, by decide, fun _ => ⟨_, rfl⟩,
    db_close_frame sampleTable sampleTable_wellFormed (by decide) (fun _ => ⟨_, rfl⟩)⟩

/-- Counterexample to C14 as stated: the table opened on a file of 600 bytes has
2 rows and no resident page; its last, partly filled page 0 is not resident and
`db_close` halts with the fatal error for a nil page. -/
theorem db_close_nil_last_page_halts :
    (db_open (some (List.replicate 600 0))).num_rows ≤ TABLE_MAX_ROWS ∧
    (db_open (some (List.replicate 600 0))).pager.pages[
      (db_open (some (List.replicate 600 0))).num_rows / ROWS_PER_PAGE]? = some none ∧
    db_close (db_open (some (List.replicate 600 0))) = .error .fatal_nil_page := by
  have h : (db_open (some (List.replicate 600 0))).num_rows = 2 := by
    rw [db_open_num_rows, Option.getD_some, List.length_replicate]
    decide
  have hnil : (db_open (some (List.replicate 600 0))).pager.pages[
      (db_open (some (List.replicate 600 0))).num_rows / ROWS_PER_PAGE]? = some none := by
    rw [h]
    rfl
  refine ⟨by rw [h]; decide, hnil, ?_⟩
  exact db_close_nil_last _ (db_open_wellFormed _) (by rw [h]; decide) (by rw [h]; decide) hnil

/-- C14, amended: for every table state with row count at most `TABLE_MAX_ROWS`,
when rows are left over for a last page that is not resident, `db_close` halts
with its fatal error for a nil page; in every other state `db_close` returns, and
for each page with index at or below `row_count / ROWS_PER_PAGE` that is not
resident the file bytes of that page are unchanged. -/
theorem db_close_skips (table : Table) (hw : table.pager.WellFormed)
    (hn : table.num_rows ≤ TABLE_MAX_ROWS) :
    ((0 < table.num_rows % ROWS_PER_PAGE ∧
        table.pager.pages[table.num_rows / ROWS_PER_PAGE]? = some none) →
      db_close table = .error .fatal_nil_page) ∧
    (¬ (0 < table.num_rows % ROWS_PER_PAGE ∧
        table.pager.pages[table.num_rows / ROWS_PER_PAGE]? = some none) →
      ∃ table1, db_close table = .ok table1 ∧
        ∀ p : Nat, p ≤ table.num_rows / ROWS_PER_PAGE → table.pager.pages[p]? = some none →
          ∀ j : Nat, p * 4096 ≤ j → j < (p + 1) * 4096 →
            table1.pager.file_descriptor[j]? = table.pager.file_descriptor[j]?) := by
  constructor
  · rintro ⟨hrem, hnil⟩
    exact db_close_nil_last table hw hn hrem hnil
  · intro hnot
    have hlast : 0 < table.num_rows % ROWS_PER_PAGE →
        ∃ page, table.pager.pages[table.num_rows / ROWS_PER_PAGE]? = some (some page) := by
      intro hrem
      rcases hpg : table.pager.pages[table.num_rows / ROWS_PER_PAGE]? with _ | (_ | page)
      · rw [List.getElem?_eq_none_iff, hw.1, TABLE_MAX_PAGES_eq] at hpg
        rw [TABLE_MAX_ROWS_eq] at hn
        rw [ROWS_PER_PAGE_eq] at hrem hpg
        omega
      · exact absurd ⟨hrem, hpg⟩ hnot
      · exact ⟨page, rfl⟩
    obtain ⟨t1, hclose, _, _, _, _, _, _, hout, hskip⟩ := db_close_spec table hw hn hlast
    refine ⟨t1, hclose, ?_⟩
    intro p hp hnil j hj1 hj2
    by_cases hpF : p < table.num_rows / ROWS_PER_PAGE
    · apply hskip p hpF hnil j
      · rw [PAGE_SIZE_eq]; exact hj1
      · rw [PAGE_SIZE_eq]; exact hj2
    · have hpe : p = table.num_rows / ROWS_PER_PAGE := by omega
      have hm0 : table.num_rows % ROWS_PER_PAGE = 0 := by
        by_contra hne
        exact hnot ⟨by omega, by rw [← hpe]; exact hnil⟩
      apply hout
      rw [hm0, Nat.zero_mul, Nat.add_zero, PAGE_SIZE_eq, ← hpe]
      exact hj1

/-- Witness of the amended C14: closing the sample table of 15 rows whose page 0
is not resident; its last page 1 is resident, so `db_close` returns and the file
bytes of page 0 are unchanged. -/
theorem db_close_skips_witness :
    sampleTableSkip.pager.WellFormed ∧ sampleTableSkip.num_rows ≤ TABLE_MAX_ROWS ∧
    sampleTableSkip.pager.pages[0]? = some none ∧
    ∃ table1, db_close sampleTableSkip = .ok table1 ∧
      ∀ p : Nat, p ≤ sampleTableSkip.num_rows / ROWS_PER_PAGE →
        sampleTableSkip.pager.pages[p]? = some none →
        ∀ j : Nat, p * 4096 ≤ j → j < (p + 1) * 4096 →
          table1.pager.file_descriptor[j]? = sampleTableSkip.pager.file_descriptor[j]? :=
  have hlast : sampleTableSkip.pager.pages[sampleTableSkip.num_rows / ROWS_PER_PAGE]?
      = some (some ⟨List.replicate 4096 9⟩) := rfl
  ⟨sampleTableSkip_wellFormed, by decide, rfl,
    (db_close_skips sampleTableSkip sampleTableSkip_wellFormed (by decide)).2
      (fun h => by rw [hlast] at h; exact Option.noConfusion (Option.some.inj h.2))⟩

/-! ## Lemmas: reachable states -/

theorem get_page_limit_iff (p : Pager) (n : Nat) :
    get_page p n = .error .fatal_page_limit ↔ n ≥ TABLE_MAX_PAGES := by
  constructor
  · intro h
    by_contra hn
    unfold get_page at h
    rw [if_neg hn] at h
    rcases hpg : p.pages[n]? with _ | (_ | pg)
    · rw [hpg] at h
      cases h
    · rw [hpg] at h
      simp only at h
      generalize (if p.file_length % PAGE_SIZE ≠ 0 then u32 (p.file_length / PAGE_SIZE + 1)
        else p.file_length / PAGE_SIZE) = np at h
      by_cases hle : n ≤ np
      · rw [if_pos hle] at h
        split at h
        · cases h
        · cases h
      · rw [if_neg hle] at h
        cases h
    · rw [hpg] at h
      cases h
  · intro hn
    unfold get_page
    rw [if_pos hn]

theorem execute_insert_total (st : Statement) (t : Table) (hw : t.pager.WellFormed) :
    ∃ res t1, execute_insert st t = .ok (res, t1) ∧ t1.pager.WellFormed := by
  by_cases hfull : t.num_rows ≥ TABLE_MAX_ROWS
  · refine ⟨.EXECUTE_TABLE_FULL, t, ?_, hw⟩
    unfold execute_insert
    rw [if_pos hfull]
  · obtain ⟨t1, hex, _, hw1, _⟩ := execute_insert_spec st t hw (by omega)
    exact ⟨_, t1, hex, hw1⟩

theorem execute_select_ok_wellFormed {st : Statement} {t t1 : Table} {res : ExecuteResult}
    {out : List Printed} (hw : t.pager.WellFormed)
    (h : execute_select st t = .ok (res, out, t1)) : t1.pager.WellFormed := by
  by_cases hn : t.num_rows ≤ TABLE_MAX_ROWS
  · obtain ⟨out2, t2, hsel, _, hw2, _⟩ := execute_select_view st t hw hn
    rw [hsel] at h
    cases h
    exact hw2
  · unfold execute_select at h
    rw [if_neg (by rw [TABLE_MAX_ROWS_eq] at hn; omega),
      execute_select_loop_halts t.num_rows 0 Row.zero t [] hw (by omega) (by omega)] at h
    cases h

/-- Every reachable table has a well-formed pager. -/
theorem reachable_wellFormed {disk : Option (List Byte)} {t : Table} (h : Reachable disk t) :
    t.pager.WellFormed := by
  induction h with
  | opened => exact db_open_wellFormed disk
  | insert _ hex ih =>
    obtain ⟨res, t1, hex1, hw1⟩ := execute_insert_total _ _ ih
    rw [hex1] at hex
    cases hex
    exact hw1
  | select _ hex ih => exact execute_select_ok_wellFormed ih hex

/-! ## The page limit -/

/-- Counterexample to C15 as stated: on the table opened on a file of 409600
bytes `execute_select` calls `get_page` with page number 100 and halts there. -/
theorem page_limit_reachable :
    ¬ ∀ (disk : Option (List Byte)) (table : Table) (statement : Statement),
      Reachable disk table → execute_select statement table ≠ .error .fatal_page_limit := by
  intro h
  apply h (some (List.replicate 409600 0)) _ ⟨Row.zero, .STATEMENT_SELECT⟩ Reachable.opened
  have hnum : (db_open (some (List.replicate 409600 0))).num_rows = 1402 :=
    db_open_full_file _ (by rw [List.length_replicate]; rfl)
  unfold execute_select
  rw [hnum, if_neg (by decide),
    execute_select_loop_halts 1402 0 Row.zero _ [] (db_open_wellFormed _) (by decide)
      (by decide)]

/-- C15, amended: `get_page n` takes its fatal branch for the page limit exactly
when `n` is at least `TABLE_MAX_PAGES`; and on every table reachable from
`db_open` on a file whose recorded length divided by `ROW_SIZE` is at most
`TABLE_MAX_ROWS`, `execute_insert` and `execute_select` return: no call of
`get_page` in them has a page number of `TABLE_MAX_PAGES` or more and no index is
out of range, since either would halt the call. -/
theorem page_limit_unreachable (disk : Option (List Byte)) (table : Table)
    (statement : Statement) (pager : Pager) (n : Nat)
    (hfile : u32 (disk.getD []).length / ROW_SIZE ≤ TABLE_MAX_ROWS)
    (h : Reachable disk table) :
    (get_page pager n = .error .fatal_page_limit ↔ n ≥ TABLE_MAX_PAGES) ∧
    (∃ res table1, execute_insert statement table = .ok (res, table1)) ∧
    (∃ out table1, execute_select statement table = .ok (.EXECUTE_SUCCESS, out, table1)) := by
  have hw := reachable_wellFormed h
  have hn : table.num_rows ≤ TABLE_MAX_ROWS := by
    clear hw
    induction h with
    | opened => rw [db_open_num_rows]; exact hfile
    | insert _ hex ih => exact execute_insert_num_rows_le ih hex
    | select _ hex ih => rw [execute_select_num_rows hex]; exact ih
  refine ⟨get_page_limit_iff pager n, ?_, ?_⟩
  · obtain ⟨res, t1, hex, _⟩ := execute_insert_total statement table hw
    exact ⟨res, t1, hex⟩
  · obtain ⟨out, t1, hsel, _⟩ := execute_select_view statement table hw hn
    exact ⟨out, t1, hsel⟩

/-- Witness of the amended C15: the table opened on a file of 600 bytes. -/
theorem page_limit_unreachable_witness :
    u32 ((some (List.replicate 600 0) : Option (List Byte)).getD []).length / ROW_SIZE
      ≤ TABLE_MAX_ROWS ∧
    Reachable (some (List.replicate 600 0)) (db_open (some (List.replicate 600 0))) ∧
    (get_page (db_open (some (List.replicate 600 0))).pager 100 = .error .fatal_page_limit
      ↔ 100 ≥ TABLE_MAX_PAGES) ∧
    (∃ res table1, execute_insert ⟨sampleRow1, .STATEMENT_INSERT⟩
      (db_open (some (List.replicate 600 0))) = .ok (res, table1)) ∧
    (∃ out table1, execute_select ⟨Row.zero, .STATEMENT_SELECT⟩
      (db_open (some (List.replicate 600 0))) = .ok (.EXECUTE_SUCCESS, out, table1)) :=
  have h : u32 ((some (List.replicate 600 0) : Option (List Byte)).getD []).length / ROW_SIZE
      ≤ TABLE_MAX_ROWS := by
    rw [Option.getD_some, List.length_replicate]
    decide
  ⟨h, Reachable.opened, (page_limit_unreachable (some (List.replicate 600 0)) _
      ⟨sampleRow1, .STATEMENT_INSERT⟩ _ 100 h Reachable.opened).1,
    (page_limit_unreachable (some (List.replicate 600 0)) _
      ⟨sampleRow1, .STATEMENT_INSERT⟩ (db_open none).pager 100 h Reachable.opened).2.1,
    (page_limit_unreachable (some (List.replicate 600 0)) _
      ⟨Row.zero, .STATEMENT_SELECT⟩ (db_open none).pager 100 h Reachable.opened).2.2⟩

/-! ## Open -/

/-- For a file of at most 409600 bytes `pager_open` keeps the content, appends
zero bytes up to 409600 and records the length of the content. -/
theorem pager_open_short (c : List Byte) (h : c.length ≤ 409600) :
    (pager_open (some c)).file_descriptor = c ++ List.replicate (409600 - c.length) 0 ∧
      (pager_open (some c)).file_length = c.length := by
  constructor
  · show Truncate c (PAGE_SIZE * TABLE_MAX_PAGES) = _
    unfold Truncate
    rw [List.take_of_length_le (by rw [PAGE_SIZE_eq, TABLE_MAX_PAGES_eq]; exact h)]
    simp only [PAGE_SIZE_eq, TABLE_MAX_PAGES_eq, Nat.reduceMul]
  · show u32 c.length = c.length
    exact u32_of_lt (by omega)

theorem pager_open_file (disk : Option (List Byte)) :
    (pager_open disk).file_descriptor = Truncate (disk.getD []) (PAGE_SIZE * TABLE_MAX_PAGES) :=
  rfl

theorem longFile_length : longFile.length = 409601 := by
  unfold longFile
  rw [List.length_append, List.length_replicate]
  rfl

/-- C16, the behaviour of the code at the failing input: for the file of 409601
bytes (409600 zero bytes and a last byte 7) `pager_open` leaves a file of 409600
bytes, all zero; the last byte is lost and the old content is not a prefix of
the new one. -/
theorem pager_open_cuts_long_file :
    (pager_open (some longFile)).file_descriptor = List.replicate 409600 0 ∧
    (pager_open (some longFile)).file_descriptor.length < longFile.length ∧
    ¬ longFile <+: (pager_open (some longFile)).file_descriptor := by
  have hfd : (pager_open (some longFile)).file_descriptor = List.replicate 409600 0 := by
    rw [pager_open_file, Option.getD_some]
    unfold Truncate
    rw [longFile_length]
    simp only [PAGE_SIZE_eq, TABLE_MAX_PAGES_eq, Nat.reduceMul, Nat.reduceSub,
      List.replicate_zero, List.append_nil]
    unfold longFile
    exact List.take_left' (List.length_replicate _ _)
  have hlt : (pager_open (some longFile)).file_descriptor.length < longFile.length := by
    rw [hfd, List.length_replicate, longFile_length]
    omega
  refine ⟨hfd, hlt, ?_⟩
  intro hp
  have := hp.length_le
  omega

/-! ## Loading pages -/

theorem shortPager_nil : shortPager.pages[0]? = some none := rfl

/-- Counterexample to C18 as stated: on a pager whose file holds 100 bytes, with
page 0 not resident, the read of page 0 is short and `get_page` halts with its
fatal read error. -/
theorem get_page_short_read_halts :
    0 < TABLE_MAX_PAGES ∧ shortPager.pages[0]? = some none ∧
    shortPager.file_descriptor.length < 0 * PAGE_SIZE + PAGE_SIZE ∧
    get_page shortPager 0 = .error .fatal_read := by
  refine ⟨by decide, rfl, ?_, ?_⟩
  · show (List.replicate 100 7).length < _
    rw [List.length_replicate]
    decide
  · have hread : ReadAt shortPager.file_descriptor PAGE_SIZE (u32 (0 * PAGE_SIZE)) = none := by
      unfold ReadAt
      rw [if_neg]
      show ¬ _ ≤ (List.replicate 100 7).length
      rw [List.length_replicate]
      decide
    unfold get_page
    rw [if_neg (by decide), shortPager_nil]
    simp only [hread]
    rfl

/-- C18, amended: when `get_page` loads a page `n < TABLE_MAX_PAGES` that is not
resident and the file holds fewer than `PAGE_SIZE` bytes from offset
`n * PAGE_SIZE`, then for `n ≤ numPages` the read fails and `get_page` halts with
its fatal read error, and for `n > numPages` no read is made and the page
returned is all zero. -/
theorem get_page_short_read (pager : Pager) (n : Nat) (hn : n < TABLE_MAX_PAGES)
    (hnil : pager.pages[n]? = some none)
    (hshort : pager.file_descriptor.length < u32 (n * PAGE_SIZE) + PAGE_SIZE) :
    (n ≤ numPages pager → get_page pager n = .error .fatal_read) ∧
    (¬ n ≤ numPages pager →
      ∃ pager1, get_page pager n = .ok ({ data := List.replicate PAGE_SIZE 0 }, pager1) ∧
        pager1.pages[n]? = some (some { data := List.replicate PAGE_SIZE 0 })) := by
  have hread : ReadAt pager.file_descriptor PAGE_SIZE (u32 (n * PAGE_SIZE)) = none := by
    unfold ReadAt
    rw [if_neg (by omega)]
  have hnp : (if pager.file_length % PAGE_SIZE ≠ 0 then u32 (pager.file_length / PAGE_SIZE + 1)
      else pager.file_length / PAGE_SIZE) = numPages pager := rfl
  have hlt : n < pager.pages.length := by
    by_contra hc
    rw [List.getElem?_eq_none (by omega)] at hnil
    cases hnil
  constructor
  · intro hle
    unfold get_page
    rw [if_neg (by omega), hnil]
    simp only [hnp, hread]
    rw [if_pos hle]
  · intro hle
    refine ⟨⟨pager.file_descriptor, pager.file_length,
      pager.pages.set n (some ⟨List.replicate PAGE_SIZE 0⟩)⟩, ?_, List.getElem?_set_self hlt⟩
    unfold get_page
    rw [if_neg (by omega), hnil]
    simp only [hnp]
    rw [if_neg hle]

/-- Witness of the amended C18: page 0 of the pager on a file of 100 bytes. -/
theorem get_page_short_read_witness :
    0 < TABLE_MAX_PAGES ∧ shortPager.pages[0]? = some none ∧
    shortPager.file_descriptor.length < u32 (0 * PAGE_SIZE) + PAGE_SIZE ∧
    0 ≤ numPages shortPager ∧ get_page shortPager 0 = .error .fatal_read :=
  have hshort : shortPager.file_descriptor.length < u32 (0 * PAGE_SIZE) + PAGE_SIZE := by
    show (List.replicate 100 7).length < _
    rw [List.length_replicate]
    decide
  ⟨by decide, rfl, hshort, Nat.zero_le _,
    (get_page_short_read shortPager 0 (by decide) rfl hshort).1 (Nat.zero_le _)⟩

/-- C19: let `content` be the content of the file at open, of length `L ≤ 409600`. In
any pager state on that file in which page `n < TABLE_MAX_PAGES` is not yet
resident, `numPages` is `ceil (L / 4096)`, `get_page n` returns a page and makes
it resident; the page is what `ReadAt` reads at offset `n * 4096` when
`n ≤ numPages` and is all zero otherwise; in both cases byte `k` of the page is
`content[n * 4096 + k]` if `n * 4096 + k < L` and 0 otherwise. -/
theorem get_page_hydration (pager : Pager) (content : List Byte) (n : Nat)
    (hL : content.length ≤ 409600) (hn : n < TABLE_MAX_PAGES)
    (hfile : pager.file_descriptor = (pager_open (some content)).file_descriptor)
    (hlen : pager.file_length = (pager_open (some content)).file_length)
    (hnil : pager.pages[n]? = some none) :
    numPages pager = (content.length + 4095) / 4096 ∧
    ∃ page pager1, get_page pager n = .ok (page, pager1) ∧
      pager1.pages[n]? = some (some page) ∧
      (n ≤ (content.length + 4095) / 4096 →
        ReadAt pager.file_descriptor PAGE_SIZE (n * PAGE_SIZE) = some page.data) ∧
      (¬ n ≤ (content.length + 4095) / 4096 → page.data = List.replicate PAGE_SIZE 0) ∧
      ∀ k : Nat, k < PAGE_SIZE →
        page.data[k]? = if n * 4096 + k < content.length then content[n * 4096 + k]? else some 0 := by
  obtain ⟨hfd, hfl⟩ := pager_open_short content hL
  rw [← hfile] at hfd
  rw [← hlen] at hfl
  rw [TABLE_MAX_PAGES_eq] at hn
  have hflen : pager.file_descriptor.length = 409600 := by
    rw [hfd, List.length_append, List.length_replicate]
    omega
  have hnp : numPages pager = (content.length + 4095) / 4096 := by
    unfold numPages
    simp only [hfl, PAGE_SIZE_eq]
    split
    · rw [u32_of_lt (by omega)]
      omega
    · omega
  have hnp2 : (if pager.file_length % PAGE_SIZE ≠ 0 then u32 (pager.file_length / PAGE_SIZE + 1)
      else pager.file_length / PAGE_SIZE) = numPages pager := rfl
  have hlt : n < pager.pages.length := by
    by_contra hc
    rw [List.getElem?_eq_none (by omega)] at hnil
    cases hnil
  have hu : u32 (n * PAGE_SIZE) = n * PAGE_SIZE := by
    rw [PAGE_SIZE_eq]
    exact u32_of_lt (by omega)
  refine ⟨hnp, ?_⟩
  by_cases hle : n ≤ numPages pager
  · have hread : ReadAt pager.file_descriptor PAGE_SIZE (n * PAGE_SIZE) =
        some ((pager.file_descriptor.drop (n * PAGE_SIZE)).take PAGE_SIZE) := by
      unfold ReadAt
      rw [if_pos (by rw [hflen, PAGE_SIZE_eq]; omega)]
    refine ⟨⟨(pager.file_descriptor.drop (n * PAGE_SIZE)).take PAGE_SIZE⟩,
      ⟨pager.file_descriptor, pager.file_length, pager.pages.set n
        (some ⟨(pager.file_descriptor.drop (n * PAGE_SIZE)).take PAGE_SIZE⟩)⟩,
      ?_, List.getElem?_set_self hlt, fun _ => hread, ?_, ?_⟩
    · unfold get_page
      rw [if_neg (by rw [TABLE_MAX_PAGES_eq]; omega), hnil]
      simp only [hnp2, hu, hread]
      rw [if_pos hle]
    · intro hc
      rw [hnp] at hle
      exact absurd hle hc
    · intro k hk
      rw [PAGE_SIZE_eq] at hk
      rw [List.getElem?_take_of_lt (by rw [PAGE_SIZE_eq]; exact hk), List.getElem?_drop,
        PAGE_SIZE_eq, hfd]
      by_cases hin : n * 4096 + k < content.length
      · rw [if_pos hin, List.getElem?_append_left hin]
      · rw [if_neg hin, List.getElem?_append_right (by omega), List.getElem?_replicate,
          if_pos (by omega)]
  · refine ⟨⟨List.replicate PAGE_SIZE 0⟩,
      ⟨pager.file_descriptor, pager.file_length, pager.pages.set n
        (some ⟨List.replicate PAGE_SIZE 0⟩)⟩,
      ?_, List.getElem?_set_self hlt, ?_, fun _ => rfl, ?_⟩
    · unfold get_page
      rw [if_neg (by rw [TABLE_MAX_PAGES_eq]; omega), hnil]
      simp only [hnp2]
      rw [if_neg hle]
    · intro hc
      rw [hnp] at hle
      exact absurd hc hle
    · intro k hk
      rw [hnp] at hle
      rw [List.getElem?_replicate, if_pos hk, if_neg (by omega)]

theorem sampleFile_length : sampleFile.length = 600 := List.length_replicate _ _

/-- Witness of C19: page 0 of the pager opened on a file of 600 bytes. -/
theorem get_page_hydration_witness :
    sampleFile.length ≤ 409600 ∧ 0 < TABLE_MAX_PAGES ∧
    (pager_open (some sampleFile)).pages[0]? = some none ∧
    numPages (pager_open (some sampleFile)) = (sampleFile.length + 4095) / 4096 ∧
    ∃ page pager1, get_page (pager_open (some sampleFile)) 0 = .ok (page, pager1) ∧
      pager1.pages[0]? = some (some page) ∧
      (0 ≤ (sampleFile.length + 4095) / 4096 →
        ReadAt (pager_open (some sampleFile)).file_descriptor PAGE_SIZE (0 * PAGE_SIZE)
          = some page.data) ∧
      (¬ 0 ≤ (sampleFile.length + 4095) / 4096 → page.data = List.replicate PAGE_SIZE 0) ∧
      ∀ k : Nat, k < PAGE_SIZE →
        page.data[k]? = if 0 * 4096 + k < sampleFile.length
          then sampleFile[0 * 4096 + k]? else some 0 :=
  have hL : sampleFile.length ≤ 409600 := by
    rw [sampleFile_length]
    decide
  have hnil : (pager_open (some sampleFile)).pages[0]? = some none := by
    show (List.replicate TABLE_MAX_PAGES none)[0]? = some none
    rw [List.getElem?_replicate, if_pos (by decide)]
  have hpos : 0 < TABLE_MAX_PAGES := by decide
  ⟨hL, hpos, hnil,
    get_page_hydration (pager_open (some sampleFile)) sampleFile 0 hL hpos (Eq.refl _)
      (Eq.refl _) hnil⟩

/-! ## Lemmas: resident pages stay resident -/

theorem get_page_preserves {p p1 : Pager} {n q : Nat} {page pg : Page}
    (h : get_page p n = .ok (page, p1)) (hres : p.pages[q]? = some (some pg)) :
    p1.pages[q]? = some (some pg) := by
  unfold get_page at h
  split at h
  · cases h
  · rcases hpg : p.pages[n]? with _ | (_ | pg0)
    · rw [hpg] at h
      cases h
    · rw [hpg] at h
      simp only at h
      have hqn : n ≠ q := by
        intro hc
        subst hc
        rw [hpg] at hres
        cases hres
      generalize (if p.file_length % PAGE_SIZE ≠ 0 then u32 (p.file_length / PAGE_SIZE + 1)
        else p.file_length / PAGE_SIZE) = np at h
      by_cases hle : n ≤ np
      · rw [if_pos hle] at h
        split at h
        · cases h
        · cases h
          show (p.pages.set n _)[q]? = _
          rw [List.getElem?_set_ne hqn, hres]
      · rw [if_neg hle] at h
        cases h
        show (p.pages.set n _)[q]? = _
        rw [List.getElem?_set_ne hqn, hres]
    · rw [hpg] at h
      cases h
      exact hres

theorem row_slot_preserves {t t1 : Table} {i q : Nat} {slot : Slot} {pg : Page}
    (h : row_slot t i = .ok (slot, t1)) (hres : t.pager.pages[q]? = some (some pg)) :
    t1.pager.pages[q]? = some (some pg) := by
  unfold row_slot at h
  simp only at h
  split at h
  · cases h
  · next page p1 hg =>
    split at h
    · cases h
      exact get_page_preserves hg hres
    · cases h

theorem Slot_write_resident (s : Slot) (p : Pager) (b : List Byte) {q : Nat} {pg : Page}
    (hres : p.pages[q]? = some (some pg)) :
    ∃ pg1, (s.write p b).pages[q]? = some (some pg1) := by
  unfold Slot.write
  split
  · next page hpage =>
    by_cases hq : s.pageNum = q
    · have hlt : q < p.pages.length := by
        by_contra hc
        rw [List.getElem?_eq_none (by omega)] at hres
        cases hres
      subst hq
      exact ⟨_, List.getElem?_set_self hlt⟩
    · refine ⟨pg, ?_⟩
      show (p.pages.set _ _)[q]? = _
      rw [List.getElem?_set_ne hq, hres]
  · exact ⟨pg, hres⟩

theorem execute_insert_preserves {st : Statement} {t t1 : Table} {res : ExecuteResult}
    {q : Nat} {pg : Page} (h : execute_insert st t = .ok (res, t1))
    (hres : t.pager.pages[q]? = some (some pg)) :
    ∃ pg1, t1.pager.pages[q]? = some (some pg1) := by
  unfold execute_insert at h
  split at h
  · cases h
    exact ⟨pg, hres⟩
  · split at h
    · cases h
    · next slot t2 hs =>
      split at h
      · cases h
      · cases h
        exact Slot_write_resident slot t2.pager _ (row_slot_preserves hs hres)

theorem execute_select_loop_preserves (m : Nat) : ∀ (i : Nat) (row : Row) (t : Table)
    (out out1 : List Printed) (t1 : Table) (q : Nat) (pg : Page),
    execute_select_loop m i row t out = .ok (out1, t1) →
    t.pager.pages[q]? = some (some pg) → t1.pager.pages[q]? = some (some pg) := by
  induction m with
  | zero =>
    intro i row t out out1 t1 q pg h hres
    rw [execute_select_loop] at h
    cases h
    exact hres
  | succ m ih =>
    intro i row t out out1 t1 q pg h hres
    rw [execute_select_loop] at h
    split at h
    · cases h
    · next slot t2 hs =>
      split at h
      · cases h
      · exact ih _ _ _ _ _ _ q pg h (row_slot_preserves hs hres)

theorem execute_select_preserves {st : Statement} {t t1 : Table} {res : ExecuteResult}
    {out : List Printed} {q : Nat} {pg : Page}
    (h : execute_select st t = .ok (res, out, t1))
    (hres : t.pager.pages[q]? = some (some pg)) : t1.pager.pages[q]? = some (some pg) := by
  unfold execute_select at h
  split at h
  · cases h
    exact hres
  · split at h
    · cases h
    · next out1 t2 hl =>
      cases h
      exact execute_select_loop_preserves _ _ _ _ _ _ _ q pg hl hres

/-! ## No eviction -/

/-- C20: a page `q` that is resident before a call of `get_page`, `row_slot`,
`execute_insert` or `execute_select` is resident after every such call that
returns (with the same bytes after `get_page`, `row_slot` and `execute_select`);
and `get_page q` on the resident page returns that page with its bytes in memory
and leaves the pager as it is, whatever the file holds: nothing is read. -/
theorem no_eviction (table : Table) (statement : Statement) (q : Nat) (pg : Page)
    (hres : table.pager.pages[q]? = some (some pg)) :
    (∀ (n : Nat) (page : Page) (pager1 : Pager),
      get_page table.pager n = .ok (page, pager1) → pager1.pages[q]? = some (some pg)) ∧
    (∀ (i : Nat) (slot : Slot) (table1 : Table),
      row_slot table i = .ok (slot, table1) → table1.pager.pages[q]? = some (some pg)) ∧
    (∀ (res : ExecuteResult) (table1 : Table),
      execute_insert statement table = .ok (res, table1) →
      ∃ pg1, table1.pager.pages[q]? = some (some pg1)) ∧
    (∀ (res : ExecuteResult) (out : List Printed) (table1 : Table),
      execute_select statement table = .ok (res, out, table1) →
      table1.pager.pages[q]? = some (some pg)) ∧
    (q < TABLE_MAX_PAGES → ∀ file : List Byte,
      get_page { table.pager with file_descriptor := file } q
        = .ok (pg, { table.pager with file_descriptor := file })) := by
  refine ⟨?_, ?_, ?_, ?_, ?_⟩
  · intro n page pager1 h
    exact get_page_preserves h hres
  · intro i slot table1 h
    exact row_slot_preserves h hres
  · intro res table1 h
    exact execute_insert_preserves h hres
  · intro res out table1 h
    exact execute_select_preserves h hres
  · intro hq file
    exact get_page_resident _ q pg hq hres

/-- Witness of C20: page 0 of the sample table, which is resident; the calls
named in the statement return on this table. -/
theorem no_eviction_witness :
    sampleTable.pager.pages[0]? = some (some ⟨List.replicate 4096 7⟩) ∧
    (∃ page pager1, get_page sampleTable.pager 1 = .ok (page, pager1)) ∧
    (∃ res table1, execute_insert ⟨sampleRow1, .STATEMENT_INSERT⟩ sampleTable
      = .ok (res, table1)) ∧
    (∃ out table1, execute_select ⟨sampleRow1, .STATEMENT_INSERT⟩ sampleTable
      = .ok (.EXECUTE_SUCCESS, out, table1)) ∧
    ((∀ (n : Nat) (page : Page) (pager1 : Pager),
      get_page sampleTable.pager n = .ok (page, pager1) →
      pager1.pages[0]? = some (some ⟨List.replicate 4096 7⟩)) ∧
    (∀ (i : Nat) (slot : Slot) (table1 : Table),
      row_slot sampleTable i = .ok (slot, table1) →
      table1.pager.pages[0]? = some (some ⟨List.replicate 4096 7⟩)) ∧
    (∀ (res : ExecuteResult) (table1 : Table),
      execute_insert ⟨sampleRow1, .STATEMENT_INSERT⟩ sampleTable = .ok (res, table1) →
      ∃ pg1, table1.pager.pages[0]? = some (some pg1)) ∧
    (∀ (res : ExecuteResult) (out : List Printed) (table1 : Table),
      execute_select ⟨sampleRow1, .STATEMENT_INSERT⟩ sampleTable = .ok (res, out, table1) →
      table1.pager.pages[0]? = some (some ⟨List.replicate 4096 7⟩)) ∧
    (0 < TABLE_MAX_PAGES → ∀ file : List Byte,
      get_page { sampleTable.pager with file_descriptor := file } 0
        = .ok (⟨List.replicate 4096 7⟩, { sampleTable.pager with file_descriptor := file }))) :=
  ⟨rfl,
    (get_page_spec sampleTable.pager 1 sampleTable_wellFormed (by decide)).imp
      (fun _ h => h.imp (fun _ h1 => h1.1)),
    (execute_insert_total _ sampleTable sampleTable_wellFormed).imp
      (fun _ h => h.imp (fun _ h1 => h1.1)),
    (execute_select_view _ sampleTable sampleTable_wellFormed (by decide)).imp
      (fun _ h => h.imp (fun _ h1 => h1.1)),
    no_eviction sampleTable ⟨sampleRow1, .STATEMENT_INSERT⟩ 0 ⟨List.replicate 4096 7⟩ rfl⟩

/-! ## Lemmas: when close returns -/

/-- The page loop of `db_close` panics when it runs past the last page slot. -/
theorem db_close_loop_panics (p : Pager) (hw : p.WellFormed) : ∀ (k i : Nat) (f : List Byte),
    i ≤ TABLE_MAX_PAGES → TABLE_MAX_PAGES < i + k →
    db_close_loop p.pages k i f = .error .panic_bounds := by
  intro k
  induction k with
  | zero => intro i f h1 h2; omega
  | succ k ih =>
    intro i f h1 h2
    rw [db_close_loop]
    rcases hpg : p.pages[i]? with _ | (_ | page)
    · rfl
    · have hlt : i < TABLE_MAX_PAGES := by
        by_contra hc
        rw [List.getElem?_eq_none (by rw [hw.1]; omega)] at hpg
        cases hpg
      exact ih (i + 1) f (by omega) (by omega)
    · have hlt : i < TABLE_MAX_PAGES := by
        by_contra hc
        rw [List.getElem?_eq_none (by rw [hw.1]; omega)] at hpg
        cases hpg
      exact ih (i + 1) _ (by omega) (by omega)

/-- On a well-formed table `db_close` returns exactly when the row count is at
most `TABLE_MAX_ROWS` and the last, partly filled page (if there is one) is
resident. -/
theorem db_close_returns_iff (t : Table) (hw : t.pager.WellFormed) :
    (∃ t1, db_close t = .ok t1) ↔
      (t.num_rows ≤ TABLE_MAX_ROWS ∧ (0 < t.num_rows % ROWS_PER_PAGE →
        ∃ page, t.pager.pages[t.num_rows / ROWS_PER_PAGE]? = some (some page))) := by
  constructor
  · rintro ⟨t1, h⟩
    by_cases hn : t.num_rows ≤ TABLE_MAX_ROWS
    · refine ⟨hn, ?_⟩
      intro hrem
      rcases hpg : t.pager.pages[t.num_rows / ROWS_PER_PAGE]? with _ | (_ | page)
      · rw [List.getElem?_eq_none_iff, hw.1, TABLE_MAX_PAGES_eq] at hpg
        rw [TABLE_MAX_ROWS_eq] at hn
        rw [ROWS_PER_PAGE_eq] at hrem hpg
        omega
      · rw [db_close_nil_last t hw hn hrem hpg] at h
        cases h
      · exact ⟨page, rfl⟩
    · exfalso
      rw [TABLE_MAX_ROWS_eq] at hn
      unfold db_close at h
      by_cases hF : TABLE_MAX_PAGES < t.num_rows / ROWS_PER_PAGE
      · have hp := db_close_loop_panics t.pager hw (t.num_rows / ROWS_PER_PAGE) 0
          t.pager.file_descriptor (by omega) (by omega)
        simp only [hp] at h
        cases h
      · have hFe : t.num_rows / ROWS_PER_PAGE = 100 := by
          rw [TABLE_MAX_PAGES_eq, ROWS_PER_PAGE_eq] at hF
          rw [ROWS_PER_PAGE_eq]
          omega
        have hrem : t.num_rows % ROWS_PER_PAGE > 0 := by
          rw [ROWS_PER_PAGE_eq] at hFe ⊢
          omega
        have hnone : t.pager.pages[t.num_rows / ROWS_PER_PAGE]? = none := by
          rw [List.getElem?_eq_none_iff, hw.1, hFe]
          decide
        simp only [hnone, if_pos hrem] at h
        split at h <;> cases h
  · rintro ⟨hn, hlast⟩
    obtain ⟨t1, h, _⟩ := db_close_spec t hw hn hlast
    exact ⟨t1, h⟩

/-! ## Slot addressing is in bounds -/

/-- C25: for every row index `i` below `TABLE_MAX_ROWS` the page number
`i / ROWS_PER_PAGE` is below `TABLE_MAX_PAGES` and the byte range of the slot,
from `(i mod ROWS_PER_PAGE) * ROW_SIZE` over `ROW_SIZE` bytes, ends within
`PAGE_SIZE`; the `uint32` products and sums of `row_slot` and `get_page` do not
wrap; so `row_slot` returns: it neither takes the fatal branch of `get_page` nor
slices outside the page. -/
theorem row_slot_in_bounds (table : Table) (i : Nat) (hw : table.pager.WellFormed)
    (hi : i < TABLE_MAX_ROWS) :
    i / ROWS_PER_PAGE < TABLE_MAX_PAGES ∧
    i % ROWS_PER_PAGE * ROW_SIZE + ROW_SIZE ≤ PAGE_SIZE ∧
    i % ROWS_PER_PAGE * ROW_SIZE + ROW_SIZE < 4294967296 ∧
    i / ROWS_PER_PAGE * PAGE_SIZE + PAGE_SIZE < 4294967296 ∧
    u32 (i % ROWS_PER_PAGE * ROW_SIZE) = i % ROWS_PER_PAGE * ROW_SIZE ∧
    u32 (u32 (i % ROWS_PER_PAGE * ROW_SIZE) + ROW_SIZE)
      = i % ROWS_PER_PAGE * ROW_SIZE + ROW_SIZE ∧
    u32 (i / ROWS_PER_PAGE * PAGE_SIZE) = i / ROWS_PER_PAGE * PAGE_SIZE ∧
    get_page table.pager (i / ROWS_PER_PAGE) ≠ .error .fatal_page_limit ∧
    ∃ slot table1, row_slot table i = .ok (slot, table1) ∧
      slot.lo = i % ROWS_PER_PAGE * ROW_SIZE ∧ slot.hi = slot.lo + ROW_SIZE ∧
      slot.hi ≤ PAGE_SIZE := by
  obtain ⟨hb1, hb2, hb3, hb4⟩ := slot_bounds i hi
  obtain ⟨page, p1, hg, hs, _⟩ := row_slot_spec table i hw hi
  have hlt : i % ROWS_PER_PAGE * ROW_SIZE + ROW_SIZE < 4294967296 := by
    rw [PAGE_SIZE_eq] at hb4
    omega
  have hpg : i / ROWS_PER_PAGE * PAGE_SIZE + PAGE_SIZE < 4294967296 := by
    rw [TABLE_MAX_PAGES_eq] at hb1
    rw [PAGE_SIZE_eq]
    omega
  refine ⟨hb1, hb4, hlt, hpg, hb2, ?_, u32_of_lt (by omega), ?_, _, _, hs, rfl, rfl, hb4⟩
  · rw [hb2, hb3]
  · rw [hg]
    intro h
    cases h

/-- Witness of C25: the last row index, 1399, on the table opened on a new file. -/
theorem row_slot_in_bounds_witness :
    (db_open none).pager.WellFormed ∧ 1399 < TABLE_MAX_ROWS ∧
    1399 / ROWS_PER_PAGE < TABLE_MAX_PAGES ∧
    1399 % ROWS_PER_PAGE * ROW_SIZE + ROW_SIZE ≤ PAGE_SIZE ∧
    1399 % ROWS_PER_PAGE * ROW_SIZE + ROW_SIZE < 4294967296 ∧
    1399 / ROWS_PER_PAGE * PAGE_SIZE + PAGE_SIZE < 4294967296 ∧
    u32 (1399 % ROWS_PER_PAGE * ROW_SIZE) = 1399 % ROWS_PER_PAGE * ROW_SIZE ∧
    u32 (u32 (1399 % ROWS_PER_PAGE * ROW_SIZE) + ROW_SIZE)
      = 1399 % ROWS_PER_PAGE * ROW_SIZE + ROW_SIZE ∧
    u32 (1399 / ROWS_PER_PAGE * PAGE_SIZE) = 1399 / ROWS_PER_PAGE * PAGE_SIZE ∧
    get_page (db_open none).pager (1399 / ROWS_PER_PAGE) ≠ .error .fatal_page_limit ∧
    ∃ slot table1, row_slot (db_open none) 1399 = .ok (slot, table1) ∧
      slot.lo = 1399 % ROWS_PER_PAGE * ROW_SIZE ∧ slot.hi = slot.lo + ROW_SIZE ∧
      slot.hi ≤ PAGE_SIZE :=
  ⟨db_open_wellFormed none, by decide,
    row_slot_in_bounds (db_open none) 1399 (db_open_wellFormed none) (by decide)⟩

/-! ## Lemmas: the bytes an insert changes -/

theorem store_getElem? (b s : List Byte) (lo j : Nat) (h : lo + s.length ≤ b.length) :
    (store b lo s)[j]? = if lo ≤ j ∧ j < lo + s.length then s[j - lo]? else b[j]? := by
  have hst : store b lo s = WriteAt b s lo := by
    have h0 : lo - b.length = 0 := by omega
    simp only [store, WriteAt, h0, List.replicate_zero, List.append_nil]
  rw [hst, WriteAt_getElem? b s lo j h]

/-- The table `execute_insert` returns on a well-formed table below capacity:
the page of the new row is made resident by `get_page` and then differs from the
page `get_page` handed out only by the serialized row stored in its window. -/
theorem execute_insert_shape (st : Statement) (t : Table) (hw : t.pager.WellFormed)
    (hn : t.num_rows < TABLE_MAX_ROWS) :
    ∃ (out : List Byte) (p1 : Pager), out.length = 292 ∧ p1.WellFormed ∧
      p1.pages[t.num_rows / ROWS_PER_PAGE]?
        = some (some (pageView t.pager (t.num_rows / ROWS_PER_PAGE))) ∧
      (∀ q : Nat, q ≠ t.num_rows / ROWS_PER_PAGE → p1.pages[q]? = t.pager.pages[q]?) ∧
      p1.file_descriptor = t.pager.file_descriptor ∧ p1.file_length = t.pager.file_length ∧
      execute_insert st t = .ok (.EXECUTE_SUCCESS, ⟨t.num_rows + 1,
        ⟨p1.file_descriptor, p1.file_length, p1.pages.set (t.num_rows / ROWS_PER_PAGE)
          (some ⟨store (pageView t.pager (t.num_rows / ROWS_PER_PAGE)).data
            (t.num_rows % ROWS_PER_PAGE * ROW_SIZE) out⟩)⟩⟩) := by
  obtain ⟨hb1, _, _, hb4⟩ := slot_bounds t.num_rows hn
  obtain ⟨page, p1, hg, hs, hw1, hres, hlen⟩ := row_slot_spec t t.num_rows hw hn
  obtain ⟨p0, hg0, _, _, hfd, hfl, _, _, hother⟩ := get_page_view t.pager _ hw hb1
  rw [hg] at hg0
  cases hg0
  generalize hlo : t.num_rows % ROWS_PER_PAGE * ROW_SIZE = lo at hs hb4
  generalize hpv : pageView t.pager (t.num_rows / ROWS_PER_PAGE) = page at *
  have hload : Slot.load ⟨t.num_rows / ROWS_PER_PAGE, lo, lo + ROW_SIZE⟩ p1 =
      (page.data.drop lo).take (lo + ROW_SIZE - lo) := Slot_load_eq _ p1 page hres
  have hwl : ((page.data.drop lo).take (lo + ROW_SIZE - lo)).length = 292 := by
    rw [List.length_take, List.length_drop, hlen]
    rw [ROW_SIZE_eq] at hb4 ⊢
    omega
  generalize (page.data.drop lo).take (lo + ROW_SIZE - lo) = w at hload hwl
  obtain ⟨out, s1, s2, hser, hol, _⟩ := serialize_row_spec st.row_to_insert w (by omega)
  refine ⟨out, p1, by omega, hw1, hres, hother, hfd, hfl, ?_⟩
  have hu : u32 (t.num_rows + 1) = t.num_rows + 1 := by
    rw [TABLE_MAX_ROWS_eq] at hn
    exact u32_of_lt (by omega)
  unfold execute_insert
  rw [if_neg (by omega)]
  simp only [hs, hload, hser, Slot.write, hres, hu]

theorem take_drop_store (b s : List Byte) (lo lo1 n : Nat) (h : lo + s.length ≤ b.length)
    (h1 : lo1 + n ≤ b.length) (hd : lo1 + n ≤ lo ∨ lo + s.length ≤ lo1) :
    ((store b lo s).drop lo1).take n = (b.drop lo1).take n := by
  have e1 := @slice_eq_some (store b lo s) lo1 (lo1 + n) (by omega)
    (by rw [store_length b s lo h]; exact h1)
  have e2 := @slice_eq_some b lo1 (lo1 + n) (by omega) h1
  rw [Nat.add_sub_cancel_left] at e1 e2
  have e3 : slice (store b lo s) lo1 (lo1 + n) = slice b lo1 (lo1 + n) := by
    rcases hd with hd | hd
    · exact slice_store_before b s lo lo1 (lo1 + n) h hd
    · exact slice_store_after b s lo lo1 (lo1 + n) h hd
  rw [e1, e2] at e3
  exact Option.some.inj e3

/-! ## Insert touches only its own slot -/

/-- C24: for every table with row count `n` below `TABLE_MAX_ROWS`,
`execute_insert` returns `EXECUTE_SUCCESS` and leaves the file as it is; every
page that was resident is resident afterwards with the same size and the same
bytes, except the bytes of the window of row `n` (page `n / ROWS_PER_PAGE`,
offsets from `(n mod ROWS_PER_PAGE) * ROW_SIZE` over `ROW_SIZE` bytes); and for
every earlier row `i < n` the window `row_slot i` holds the same bytes before and
after the insert, so `deserialize_row` decodes the same row from it. -/
theorem execute_insert_frame (statement : Statement) (table : Table)
    (hw : table.pager.WellFormed) (hn : table.num_rows < TABLE_MAX_ROWS) :
    ∃ table1, execute_insert statement table = .ok (.EXECUTE_SUCCESS, table1) ∧
      table1.pager.file_descriptor = table.pager.file_descriptor ∧
      (∀ (q : Nat) (page : Page), table.pager.pages[q]? = some (some page) →
        ∃ page1, table1.pager.pages[q]? = some (some page1) ∧
          page1.data.length = page.data.length ∧
          ∀ j : Nat, ¬ (q = table.num_rows / ROWS_PER_PAGE ∧
              table.num_rows % ROWS_PER_PAGE * ROW_SIZE ≤ j ∧
              j < table.num_rows % ROWS_PER_PAGE * ROW_SIZE + ROW_SIZE) →
            page1.data[j]? = page.data[j]?) ∧
      (∀ i : Nat, i < table.num_rows →
        ∃ slot tablei slot1 tablei1, row_slot table i = .ok (slot, tablei) ∧
          row_slot table1 i = .ok (slot1, tablei1) ∧ slot1 = slot ∧
          slot1.load tablei1.pager = slot.load tablei.pager ∧
          ∀ row : Row, deserialize_row (slot1.load tablei1.pager) row
            = deserialize_row (slot.load tablei.pager) row) := by
  obtain ⟨hb1, _, _, hb4⟩ := slot_bounds table.num_rows hn
  obtain ⟨out, p1, hol, hw1, hres, hother, hfd, hfl, hex⟩ :=
    execute_insert_shape statement table hw hn
  have hpvl := pageView_length table.pager _ hw hb1
  have hfit : table.num_rows % ROWS_PER_PAGE * ROW_SIZE + out.length
      ≤ (pageView table.pager (table.num_rows / ROWS_PER_PAGE)).data.length := by
    rw [hol, hpvl]
    rw [ROW_SIZE_eq] at hb4
    exact hb4
  have hstl : (store (pageView table.pager (table.num_rows / ROWS_PER_PAGE)).data
      (table.num_rows % ROWS_PER_PAGE * ROW_SIZE) out).length = PAGE_SIZE := by
    rw [store_length _ _ _ hfit, hpvl]
  have hpl : table.num_rows / ROWS_PER_PAGE < p1.pages.length := by rw [hw1.1]; exact hb1
  have hw2 := WellFormed_set hw1 (table.num_rows / ROWS_PER_PAGE) _ hstl
  refine ⟨_, hex, hfd, ?_, ?_⟩
  · intro q page hq
    by_cases hqF : q = table.num_rows / ROWS_PER_PAGE
    · subst hqF
      have hpv : pageView table.pager (table.num_rows / ROWS_PER_PAGE) = page :=
        pageView_resident hq
      rw [hpv] at hfit hstl
      refine ⟨⟨store page.data (table.num_rows % ROWS_PER_PAGE * ROW_SIZE) out⟩, ?_, ?_, ?_⟩
      · show (p1.pages.set _ _)[_]? = _
        rw [hpv]
        exact List.getElem?_set_self hpl
      · show (store page.data _ out).length = _
        rw [store_length _ _ _ hfit]
      · intro j hj
        show (store page.data _ out)[j]? = _
        rw [store_getElem? _ _ _ _ hfit, if_neg]
        rw [hol, ← ROW_SIZE_eq]
        intro hc
        exact hj ⟨rfl, hc⟩
    · refine ⟨page, ?_, rfl, fun _ _ => rfl⟩
      show (p1.pages.set _ _)[q]? = _
      rw [List.getElem?_set_ne (Ne.symm hqF), hother q hqF, hq]
  · intro i hi
    have hi2 : i < TABLE_MAX_ROWS := by omega
    obtain ⟨_, _, _, hbi⟩ := slot_bounds i hi2
    obtain ⟨slot, pi, hs, hload, _⟩ := row_slot_view table i hw hi2
    obtain ⟨slot1, pi1, hs1, hload1, _⟩ := row_slot_view
      ⟨table.num_rows + 1, ⟨p1.file_descriptor, p1.file_length,
        p1.pages.set (table.num_rows / ROWS_PER_PAGE)
          (some ⟨store (pageView table.pager (table.num_rows / ROWS_PER_PAGE)).data
            (table.num_rows % ROWS_PER_PAGE * ROW_SIZE) out⟩)⟩⟩ i hw2 hi2
    have hslot : slot1 = slot := by
      obtain ⟨_, _, _, hsa, _⟩ := row_slot_spec table i hw hi2
      obtain ⟨_, _, _, hsb, _⟩ := row_slot_spec
        ⟨table.num_rows + 1, ⟨p1.file_descriptor, p1.file_length,
          p1.pages.set (table.num_rows / ROWS_PER_PAGE)
            (some ⟨store (pageView table.pager (table.num_rows / ROWS_PER_PAGE)).data
              (table.num_rows % ROWS_PER_PAGE * ROW_SIZE) out⟩)⟩⟩ i hw2 hi2
      rw [hs] at hsa
      rw [hs1] at hsb
      cases hsa
      cases hsb
      rfl
    have hview : rowView ⟨p1.file_descriptor, p1.file_length,
        p1.pages.set (table.num_rows / ROWS_PER_PAGE)
          (some ⟨store (pageView table.pager (table.num_rows / ROWS_PER_PAGE)).data
            (table.num_rows % ROWS_PER_PAGE * ROW_SIZE) out⟩)⟩ i = rowView table.pager i := by
      unfold rowView
      by_cases hqF : i / ROWS_PER_PAGE = table.num_rows / ROWS_PER_PAGE
      · rw [hqF, pageView_resident (List.getElem?_set_self hpl)]
        apply take_drop_store _ _ _ _ _ hfit
        · rw [hpvl]; exact hbi
        · rw [hol]
          have hne : i % ROWS_PER_PAGE ≠ table.num_rows % ROWS_PER_PAGE := by
            intro hm
            have := Nat.div_add_mod i ROWS_PER_PAGE
            have := Nat.div_add_mod table.num_rows ROWS_PER_PAGE
            rw [hqF, hm] at *
            omega
          rw [ROW_SIZE_eq]
          omega
      · have hpc : pageView ⟨p1.file_descriptor, p1.file_length,
            p1.pages.set (table.num_rows / ROWS_PER_PAGE)
              (some ⟨store (pageView table.pager (table.num_rows / ROWS_PER_PAGE)).data
                (table.num_rows % ROWS_PER_PAGE * ROW_SIZE) out⟩)⟩ (i / ROWS_PER_PAGE)
            = pageView table.pager (i / ROWS_PER_PAGE) := by
          refine pageView_congr ?_ ?_ ?_
          · show (p1.pages.set _ _)[_]? = _
            rw [List.getElem?_set_ne (Ne.symm hqF), hother _ hqF]
          · exact hfd
          · exact hfl
        rw [hpc]
    have hl : slot1.load pi1 = slot.load pi := by
      rw [hload1, hload, hview]
    refine ⟨slot, _, slot1, _, hs, hs1, hslot, hl, ?_⟩
    intro row
    show deserialize_row (slot1.load pi1) row = deserialize_row (slot.load pi) row
    rw [hl]

/-- Witness of C24: an insert into the sample table of 15 rows. -/
theorem execute_insert_frame_witness :
    sampleTable.pager.WellFormed ∧ sampleTable.num_rows < TABLE_MAX_ROWS ∧
    ∃ table1, execute_insert ⟨sampleRow1, .STATEMENT_INSERT⟩ sampleTable
        = .ok (.EXECUTE_SUCCESS, table1) ∧
      table1.pager.file_descriptor = sampleTable.pager.file_descriptor ∧
      (∀ (q : Nat) (page : Page), sampleTable.pager.pages[q]? = some (some page) →
        ∃ page1, table1.pager.pages[q]? = some (some page1) ∧
          page1.data.length = page.data.length ∧
          ∀ j : Nat, ¬ (q = sampleTable.num_rows / ROWS_PER_PAGE ∧
              sampleTable.num_rows % ROWS_PER_PAGE * ROW_SIZE ≤ j ∧
              j < sampleTable.num_rows % ROWS_PER_PAGE * ROW_SIZE + ROW_SIZE) →
            page1.data[j]? = page.data[j]?) ∧
      (∀ i : Nat, i < sampleTable.num_rows →
        ∃ slot tablei slot1 tablei1, row_slot sampleTable i = .ok (slot, tablei) ∧
          row_slot table1 i = .ok (slot1, tablei1) ∧ slot1 = slot ∧
          slot1.load tablei1.pager = slot.load tablei.pager ∧
          ∀ row : Row, deserialize_row (slot1.load tablei1.pager) row
            = deserialize_row (slot.load tablei.pager) row) :=
  ⟨sampleTable_wellFormed, by decide,
    execute_insert_frame ⟨sampleRow1, .STATEMENT_INSERT⟩ sampleTable sampleTable_wellFormed
      (by decide)⟩

/-! ## Select is read-only and restartable -/

/-- A second `execute_select` on the table left by a first one prints the same
lines. -/
theorem execute_select_restart {st : Statement} {t t1 : Table} {res : ExecuteResult}
    {out : List Printed} (hw : t.pager.WellFormed)
    (h : execute_select st t = .ok (res, out, t1)) :
    ∃ t2, execute_select st t1 = .ok (res, out, t2) := by
  have hn : t.num_rows ≤ TABLE_MAX_ROWS := by
    by_contra hc
    unfold execute_select at h
    rw [if_neg (by rw [TABLE_MAX_ROWS_eq] at hc; omega),
      execute_select_loop_halts t.num_rows 0 Row.zero t [] hw (by omega) (by omega)] at h
    cases h
  obtain ⟨out1, t1a, hsel, hlen, hw1, hnum, _, _, hview, _, hrows⟩ :=
    execute_select_view st t hw hn
  rw [hsel] at h
  cases h
  obtain ⟨out2, t2, hsel2, hlen2, _, _, _, _, _, _, hrows2⟩ :=
    execute_select_view st t1 hw1 (by rw [hnum]; exact hn)
  have hout : out2 = out := by
    apply List.ext_getElem?
    intro k
    by_cases hk : k < t.num_rows
    · obtain ⟨r, hd, ho⟩ := hrows k hk
      obtain ⟨r2, hd2, ho2⟩ := hrows2 k (by rw [hnum]; exact hk)
      have e1 := hd Row.zero zero_wellTyped
      have e2 := hd2 Row.zero zero_wellTyped
      rw [rowView_congr hview, e1] at e2
      cases e2
      rw [ho, ho2]
    · rw [List.getElem?_eq_none (by omega), List.getElem?_eq_none (by omega)]
  rw [hout] at hsel2
  exact ⟨t2, hsel2⟩

/-- C21: `row_slot` and `execute_select` are read-only: a call that returns
leaves the row count as it was and every page that was resident with the same
bytes; and a second `execute_select` on the table left by the first returns the
same sequence of rows. -/
theorem select_read_only (table : Table) (statement : Statement)
    (hw : table.pager.WellFormed) :
    (∀ (i : Nat) (slot : Slot) (table1 : Table), row_slot table i = .ok (slot, table1) →
      table1.num_rows = table.num_rows ∧
      ∀ (q : Nat) (page : Page), table.pager.pages[q]? = some (some page) →
        table1.pager.pages[q]? = some (some page)) ∧
    (∀ (res : ExecuteResult) (out : List Printed) (table1 : Table),
      execute_select statement table = .ok (res, out, table1) →
      table1.num_rows = table.num_rows ∧
      (∀ (q : Nat) (page : Page), table.pager.pages[q]? = some (some page) →
        table1.pager.pages[q]? = some (some page)) ∧
      ∃ table2, execute_select statement table1 = .ok (res, out, table2)) := by
  constructor
  · intro i slot table1 h
    exact ⟨row_slot_num_rows h, fun q page hq => row_slot_preserves h hq⟩
  · intro res out table1 h
    exact ⟨execute_select_num_rows h, fun q page hq => execute_select_preserves h hq,
      execute_select_restart hw h⟩

/-- Witness of C21: the sample table of 15 rows, on which `row_slot` and
`execute_select` return. -/
theorem select_read_only_witness :
    sampleTable.pager.WellFormed ∧
    (∃ slot table1, row_slot sampleTable 14 = .ok (slot, table1)) ∧
    (∃ out table1, execute_select ⟨Row.zero, .STATEMENT_SELECT⟩ sampleTable
      = .ok (.EXECUTE_SUCCESS, out, table1)) ∧
    (∀ (i : Nat) (slot : Slot) (table1 : Table),
      row_slot sampleTable i = .ok (slot, table1) →
      table1.num_rows = sampleTable.num_rows ∧
      ∀ (q : Nat) (page : Page), sampleTable.pager.pages[q]? = some (some page) →
        table1.pager.pages[q]? = some (some page)) ∧
    (∀ (res : ExecuteResult) (out : List Printed) (table1 : Table),
      execute_select ⟨Row.zero, .STATEMENT_SELECT⟩ sampleTable = .ok (res, out, table1) →
      table1.num_rows = sampleTable.num_rows ∧
      (∀ (q : Nat) (page : Page), sampleTable.pager.pages[q]? = some (some page) →
        table1.pager.pages[q]? = some (some page)) ∧
      ∃ table2, execute_select ⟨Row.zero, .STATEMENT_SELECT⟩ table1
        = .ok (res, out, table2)) :=
  ⟨sampleTable_wellFormed,
    (row_slot_view sampleTable 14 sampleTable_wellFormed (by decide)).imp
      (fun _ h => h.elim (fun _ h1 => ⟨_, h1.1⟩)),
    (execute_select_view _ sampleTable sampleTable_wellFormed (by decide)).imp
      (fun _ h => h.imp (fun _ h1 => h1.1)),
    select_read_only sampleTable ⟨Row.zero, .STATEMENT_SELECT⟩ sampleTable_wellFormed⟩

/-! ## Text through the fixed-width fields -/

theorem TrimRight_pad (u : List Byte) (k : Nat) (h : u.getLast? ≠ some 0) :
    TrimRight (u ++ List.replicate k 0) = u := by
  unfold TrimRight
  induction k with
  | zero =>
    rw [List.replicate_zero, List.append_nil, List.rdropWhile_eq_self_iff]
    intro hl hp
    apply h
    rw [List.getLast?_eq_getLast _ hl]
    congr 1
    exact beq_iff_eq.mp hp
  | succ k ih =>
    rw [List.replicate_succ', ← List.append_assoc, List.rdropWhile_concat_pos _ _ _ (by rfl)]
    exact ih

theorem copy_zero_pad (n : Nat) (u : List Byte) (h : u.length ≤ n) :
    copy (List.replicate n 0) u = u ++ List.replicate (n - u.length) 0 := by
  unfold copy
  rw [List.length_replicate, List.take_of_length_le h, List.drop_replicate]

/-- The round trip of the row codec. -/
theorem serialize_then_deserialize (r row : Row) (buffer : List Byte)
    (hr : r.WellTyped) (hrow : row.WellTyped) (hb : ROW_SIZE ≤ buffer.length) :
    ∃ out, serialize_row r buffer = some out ∧ deserialize_row out row = some r := by
  rw [ROW_SIZE_eq] at hb
  obtain ⟨hid, hu, he⟩ := hr
  obtain ⟨_, hu0, he0⟩ := hrow
  simp only [COLUMN_USERNAME_SIZE, COLUMN_EMAIL_SIZE] at hu he hu0 he0
  obtain ⟨out, s1, s2, hs, _, e1, e2, o0, o1, o2⟩ := serialize_row_spec r buffer hb
  refine ⟨out, hs, ?_⟩
  rw [deserialize_row_spec out row r.id _ _ hid o0 o1 o2]
  have l1 := slice_length e1
  have l2 := slice_length e2
  rw [copy_eq_src s1 r.username (by omega), copy_eq_src s2 r.email (by omega),
    copy_eq_src row.username r.username (by omega), copy_eq_src row.email r.email (by omega)]

/-- C23: for every username `u` of at most 32 bytes and email `e` of at most 256
bytes that do not end in a zero byte, copying them into a zeroed row (as
`prepare_statement` does), then `serialize_row`, `deserialize_row` and the
`TrimRight` of `execute_select` give back exactly `u` and `e` (and the id),
also when `u` has exactly 32 bytes or `e` exactly 256. -/
theorem text_round_trip (id : Nat) (u e buffer : List Byte) (row : Row)
    (hid : id < 4294967296) (hu : u.length ≤ COLUMN_USERNAME_SIZE)
    (he : e.length ≤ COLUMN_EMAIL_SIZE) (hu0 : u.getLast? ≠ some 0)
    (he0 : e.getLast? ≠ some 0) (hrow : row.WellTyped) (hb : ROW_SIZE ≤ buffer.length) :
    ∃ out r, serialize_row (mkRow id u e) buffer = some out ∧
      deserialize_row out row = some r ∧ r.id = id ∧
      TrimRight r.username = u ∧ TrimRight r.email = e := by
  obtain ⟨out, hs, hd⟩ := serialize_then_deserialize (mkRow id u e) row buffer
    (mkRow_wellTyped id u e hid) hrow hb
  refine ⟨out, mkRow id u e, hs, hd, rfl, ?_, ?_⟩
  · show TrimRight (copy (List.replicate COLUMN_USERNAME_SIZE 0) u) = u
    rw [copy_zero_pad _ u hu, TrimRight_pad u _ hu0]
  · show TrimRight (copy (List.replicate COLUMN_EMAIL_SIZE 0) e) = e
    rw [copy_zero_pad _ e he, TrimRight_pad e _ he0]

theorem user32_length : user32.length = 32 := List.length_replicate _ _

/-- Witness of C23: a username of exactly 32 bytes and the email
`person1@example.com`. -/
theorem text_round_trip_witness :
    (1 : Nat) < 4294967296 ∧ user32.length ≤ COLUMN_USERNAME_SIZE ∧
    person1.length ≤ COLUMN_EMAIL_SIZE ∧ user32.getLast? ≠ some 0 ∧
    person1.getLast? ≠ some 0 ∧ Row.zero.WellTyped ∧
    ROW_SIZE ≤ (List.replicate 292 (7 : Byte)).length ∧
    ∃ out r, serialize_row (mkRow 1 user32 person1) (List.replicate 292 (7 : Byte)) = some out ∧
      deserialize_row out Row.zero = some r ∧ r.id = 1 ∧
      TrimRight r.username = user32 ∧ TrimRight r.email = person1 :=
  have hb : ROW_SIZE ≤ (List.replicate 292 (7 : Byte)).length := by
    rw [ROW_SIZE_eq, List.length_replicate]
  ⟨by decide, by decide, by decide, by decide, by decide, zero_wellTyped, hb,
    text_round_trip 1 user32 person1 (List.replicate 292 (7 : Byte)) Row.zero (by decide)
      (by decide) (by decide) (by decide) (by decide) zero_wellTyped hb⟩

/-! ## Preparing an insert -/

/-- What holds whenever `prepare_statement` accepts an insert command: the id
text is a number that `Atoi` parses, it is not negative, the id stored is its
conversion to `uint32`, and the two texts fit their columns. -/
theorem prepare_statement_success (input : List Byte) (statement st1 : Statement)
    (hins : input.length ≥ 6 ∧ input.take 6 = insertWord)
    (h : prepare_statement input statement = (.PREPARE_COMMAND_SUCCESS, st1)) :
    (SplitN input 4).length = 4 ∧
    ∃ id : Int, Atoi ((SplitN input 4).getD 1 []) = some id ∧ 0 ≤ id ∧
      st1.row_to_insert.id = u32i id ∧
      (id < 4294967296 → (st1.row_to_insert.id : Int) = id) ∧
      ((SplitN input 4).getD 2 []).length ≤ COLUMN_USERNAME_SIZE ∧
      ((SplitN input 4).getD 3 []).length ≤ COLUMN_EMAIL_SIZE ∧
      st1.row_to_insert.username
        = copy statement.row_to_insert.username ((SplitN input 4).getD 2 []) ∧
      st1.row_to_insert.email
        = copy statement.row_to_insert.email ((SplitN input 4).getD 3 []) := by
  unfold prepare_statement at h
  rw [if_pos hins] at h
  simp only at h
  split at h
  · cases h
  · next hlen =>
    split at h
    · cases h
    · next id hid =>
      split at h
      · cases h
      · next hneg =>
        split at h
        · cases h
        · next hu =>
          split at h
          · cases h
          · next he =>
            cases h
            refine ⟨by omega, id, hid, by omega, rfl, ?_, by omega, by omega, rfl, rfl⟩
            intro hlt
            show ((u32i id : Nat) : Int) = id
            unfold u32i
            rw [Int.toNat_of_nonneg (Int.emod_nonneg _ (by decide))]
            exact Int.emod_eq_of_lt (by omega) hlt

/-- A negative id that `Atoi` parses is answered with `PREPARE_NEGATIVE_ID`. -/
theorem prepare_statement_negative (input : List Byte) (statement : Statement) (id : Int)
    (hins : input.length ≥ 6 ∧ input.take 6 = insertWord)
    (hlen : (SplitN input 4).length = 4)
    (hid : Atoi ((SplitN input 4).getD 1 []) = some id) (hneg : id < 0) :
    (prepare_statement input statement).1 = .PREPARE_NEGATIVE_ID := by
  unfold prepare_statement
  rw [if_pos hins]
  simp only [hlen, hid, ne_eq, not_true_eq_false, if_false, if_pos hneg]

/-- With an id that is not negative, a username or email longer than its column
is answered with `PREPARE_STRING_TOO_LONG`. -/
theorem prepare_statement_too_long (input : List Byte) (statement : Statement) (id : Int)
    (hins : input.length ≥ 6 ∧ input.take 6 = insertWord)
    (hlen : (SplitN input 4).length = 4)
    (hid : Atoi ((SplitN input 4).getD 1 []) = some id) (hpos : 0 ≤ id)
    (hlong : ((SplitN input 4).getD 2 []).length > COLUMN_USERNAME_SIZE ∨
      ((SplitN input 4).getD 3 []).length > COLUMN_EMAIL_SIZE) :
    (prepare_statement input statement).1 = .PREPARE_STRING_TOO_LONG := by
  unfold prepare_statement
  rw [if_pos hins]
  simp only [hlen, hid, ne_eq, not_true_eq_false, if_false, if_neg (not_lt.mpr hpos)]
  by_cases hu : ((SplitN input 4).getD 2 []).length > COLUMN_USERNAME_SIZE
  · rw [if_pos hu]
  · rw [if_neg hu]
    rcases hlong with hl | hl
    · exact absurd hl hu
    · rw [if_pos hl]

set_option maxRecDepth 100000 in
/-- C22, the behaviour of the code at the failing input: for the command
`insert 4294967297 user1 person1@example.com` the id text is the number
4294967297, which is not below 2^32, and `prepare_statement` returns
`PREPARE_COMMAND_SUCCESS` with the id 1 stored in `row_to_insert`. -/
theorem prepare_statement_wraps_id :
    Atoi ((SplitN insertBigId 4).getD 1 []) = some 4294967297 ∧
    ¬ ((4294967297 : Int) < 4294967296) ∧
    prepare_statement insertBigId Statement.zero
      = (.PREPARE_COMMAND_SUCCESS, ⟨mkRow 1 user1 person1, .STATEMENT_INSERT⟩) ∧
    (prepare_statement insertBigId Statement.zero).2.row_to_insert.id = 1 := by
  decide

end GoSqlite
